import Mathlib

set_option linter.unusedVariables false

/-!
# Nested cubes renderer: pixel encoder, rasterizer, fill, geometry, composer

A shallow embedding of the rendering core of `examples/nested-cubes`
(`vc64/ram.go`, `drawing/common.go`, `drawing/line_draw.go`,
`drawing/filling.go`, `transform/transform.go`, `effects/nested-cubes.go`)
and of the pure part of the WebSocket client (`c64dws/client.go`,
`c64dws/events.go`, `c64dws/request-result.go`), together with theorems about
them.

Conventions of the embedding:

* `uint16` and `byte` values are natural numbers; where the Go operation can
  wrap, the wrap is written out as `% 65536` or `% 256`.
* `int16` and `int` values are integers.
* `float64` values are read as exact arithmetic.  The rasterizer, which needs
  order and truncation of values that come from integers, uses `ℚ`; the vector
  algebra and the cube geometry are stated over an arbitrary field `K` (ordered
  and with a floor where the code compares or truncates), so that they can be
  read over the real numbers.  The clipped rasterizer is given a second time
  with the rounding of its two inexact `float64` operations explicit
  (`DrawBitmapLineToFillEvenOddWithClippingRounded`, a `float64` being the
  rational number it stands for and `float64Round` the IEEE rounding).
* `math.Sin`, `math.Cos` and `math.Pi` of the Go standard library are
  parameters (`GoMath`); statements that need a property of them either assume
  it or are given for the real sine and cosine.
* A `*C64RAM` receiver that is mutated in place becomes explicit state passing:
  the function takes the RAM and returns the RAM after the call.
* A counting `for` loop is `countedLoop`; the `float64` loop of the rasterizers
  is `lineWalk`, and `lineWalkRounded` with the rounding explicit.
-/

/-- The Go counting loop `for i := lo; i < hi; i++ { BODY }` whose body does
not assign `i` or the bounds: `BODY` runs for `i = lo, lo+1, ..., hi-1` in this
order, and not at all when `hi <= lo`.  Since `i < hi` holds whenever `i` is
incremented, the increment never wraps, also for a `uint16` counter. -/
def countedLoop {σ : Type} (lo hi : Nat) (body : Nat → σ → σ) (s : σ) : σ :=
  (List.range (hi - lo)).foldl (fun s i => body (lo + i) s) s

/-- The Go built-in `copy(dst, src)` on byte slices, returning the new contents
of `dst`: the first `min(len(dst), len(src))` elements are taken from `src`. -/
def goCopy (dst src : List Nat) : List Nat :=
  src.take dst.length ++ dst.drop src.length

namespace Vc64

/-- The six memory areas of `vc64.C64RAM`.  An area is a map from address to
byte value; only addresses below the size of the Go array are meaningful. -/
structure C64RAM where
  ram : Nat → Nat
  vicRAM : Nat → Nat
  io : Nat → Nat
  basicROM : Nat → Nat
  charROM : Nat → Nat
  kernalROM : Nat → Nat

/-- Go `func (ram *C64RAM) CPUBusGetUByte8(address uint16) byte` -/
def C64RAM.CPUBusGetUByte8 (ram : C64RAM) (address : Nat) : Nat :=
  ram.ram address

/-- Go `func (ram *C64RAM) CPUBusSetUByte8(address uint16, b byte)` -/
def C64RAM.CPUBusSetUByte8 (ram : C64RAM) (address : Nat) (b : Nat) : C64RAM :=
  { ram with ram := fun a => if a = address then b else ram.ram a }

/-- Go `func (ram *C64RAM) VICBusGetUByte8(address uint16) byte` -/
def C64RAM.VICBusGetUByte8 (ram : C64RAM) (address : Nat) : Nat :=
  ram.vicRAM address

/-- Go `func (ram *C64RAM) VICBusSetUByte8(address uint16, b byte)` -/
def C64RAM.VICBusSetUByte8 (ram : C64RAM) (address : Nat) (b : Nat) : C64RAM :=
  { ram with vicRAM := fun a => if a = address then b else ram.vicRAM a }

/-- A RAM whose every area holds zero bytes (the state of `new(C64RAM)`). -/
def C64RAM.zero : C64RAM :=
  { ram := fun _ => 0, vicRAM := fun _ => 0, io := fun _ => 0,
    basicROM := fun _ => 0, charROM := fun _ => 0, kernalROM := fun _ => 0 }

/-- Go `func (ram *C64RAM) CPUFillRAM(value byte, startAddr uint16, count uint16)`.
The bound `startAddr+count` is a `uint16` sum and wraps. -/
def C64RAM.CPUFillRAM (ram : C64RAM) (value startAddr count : Nat) : C64RAM :=
  countedLoop startAddr ((startAddr + count) % 65536)
    (fun idx ram => ram.CPUBusSetUByte8 idx value) ram

/-- Go `func (ram *C64RAM) CPUGetRAMSlice(startAddr uint16, count uint16) []byte`,
the slice expression `ram.ram[startAddr : startAddr+count]` with the `uint16`
sum wrapping.  The result `none` stands for the run-time panic of a slice
expression whose low bound exceeds its high bound. -/
def C64RAM.CPUGetRAMSlice (ram : C64RAM) (startAddr count : Nat) : Option (List Nat) :=
  let high := (startAddr + count) % 65536
  if startAddr ≤ high then
    some ((List.range (high - startAddr)).map (fun i => ram.ram (startAddr + i)))
  else
    none

end Vc64

namespace Drawing

open Vc64

/-- Go `func getMultiColorTabPix(color byte) [4]byte` -/
def getMultiColorTabPix (color : Nat) : List Nat :=
  [ ((color &&& 0b00000011) <<< 6) % 256,
    ((color &&& 0b00000011) <<< 4) % 256,
    ((color &&& 0b00000011) <<< 2) % 256,
    ((color &&& 0b00000011) <<< 0) % 256 ]

/-- Go `func getMultiColorTabPixMask() [4]byte` -/
def getMultiColorTabPixMask : List Nat :=
  [ (0b00000011 <<< 6) % 256,
    (0b00000011 <<< 4) % 256,
    (0b00000011 <<< 2) % 256,
    (0b00000011 <<< 0) % 256 ]

/-- Go `func getMultiColorTabPixEvenOdd(patternValue byte) ([4]byte, [4]byte)` -/
def getMultiColorTabPixEvenOdd (patternValue : Nat) : List Nat × List Nat :=
  let tabPixEven :=
    [ (((patternValue >>> 2) &&& 0b00000011) <<< 6) % 256,
      (((patternValue >>> 0) &&& 0b00000011) <<< 4) % 256,
      (((patternValue >>> 2) &&& 0b00000011) <<< 2) % 256,
      (((patternValue >>> 0) &&& 0b00000011) <<< 0) % 256 ]
  let tabPixOdd :=
    [ (((patternValue >>> 6) &&& 0b00000011) <<< 6) % 256,
      (((patternValue >>> 4) &&& 0b00000011) <<< 4) % 256,
      (((patternValue >>> 6) &&& 0b00000011) <<< 2) % 256,
      (((patternValue >>> 4) &&& 0b00000011) <<< 0) % 256 ]
  (tabPixEven, tabPixOdd)

/-! ### Line rasterizer -/

/-- Truncation toward zero of an exact value: the integer part that a Go
conversion `uint16(f)` of a `float64` keeps. -/
def truncQ (q : ℚ) : Int :=
  Int.tdiv q.num q.den

/-- The Go conversion `uint16(f)` of a `float64`: the fraction is discarded.
For a value whose integer part is outside `0..65535` Go leaves the result to
the implementation; here the integer part is reduced modulo `2^16`.  No call
of a rasterizer on `uint16` or `int16` endpoints reaches such a value. -/
def f2u16 (q : ℚ) : Nat :=
  (truncQ q % 65536).toNat

/-- The loop shared word for word by the four rasterizers:
`for { if x <= stopX { BODY; y = float64(y) + stepY; x++; continue }; break }`
where `BODY` reads `x`, `y` and updates the state. -/
def lineWalk {σ : Type} (body : ℚ → ℚ → σ → σ) (stepY stopX : ℚ) (x y : ℚ) (s : σ) : σ :=
  if x ≤ stopX then lineWalk body stepY stopX (x + 1) (y + stepY) (body x y s) else s
termination_by (⌊stopX - x⌋ + 1).toNat
decreasing_by
  simp_wf
  have h : (0 : ℤ) ≤ ⌊stopX - x⌋ := Int.floor_nonneg.mpr (by linarith)
  have e : stopX - (x + 1) = stopX - x - 1 := by ring
  rw [e, Int.floor_sub_one]
  omega

/-- Loop body of `DrawCharsLineToFillNormal` (line_draw.go 53-55). -/
def charsNormalBody (tabPix : List Nat) (startAddr rows : Nat) (x y : ℚ) (ram : C64RAM) :
    C64RAM :=
  let valAddr := (startAddr + ((f2u16 x >>> 2) * rows) + f2u16 y) % 65536
  let val := ram.CPUBusGetUByte8 valAddr
  ram.CPUBusSetUByte8 valAddr (val ^^^ tabPix.getD (f2u16 x &&& 3) 0)

/-- Go `func DrawCharsLineToFillNormal(x1, y1, x2, y2 uint16, color byte,
startAddr uint16, rows uint16, ram *vc64.C64RAM)` -/
def DrawCharsLineToFillNormal (x1 y1 x2 y2 : Nat) (color : Nat) (startAddr rows : Nat)
    (ram : C64RAM) : C64RAM :=
  let x1f : ℚ := x1
  let x2f : ℚ := x2
  let y1f : ℚ := y1
  let y2f : ℚ := y2
  let tabPix := getMultiColorTabPix color
  if x1f = x2f then
    ram
  else if x1f > x2f then
    let deltaX := x2f - x1f
    let deltaY := y2f - y1f
    let x := x2f
    let y := y2f
    let stopX := x1f - 1
    let stepY := deltaY / deltaX
    lineWalk (charsNormalBody tabPix startAddr rows) stepY stopX x y ram
  else
    let deltaX := x1f - x2f
    let deltaY := y1f - y2f
    let x := x1f
    let y := y1f
    let stopX := x2f - 1
    let stepY := deltaY / deltaX
    lineWalk (charsNormalBody tabPix startAddr rows) stepY stopX x y ram

/-- Loop body of `DrawBitmapLineToFillNormal` (line_draw.go 111-113). -/
def bitmapNormalBody (tabPix : List Nat) (startAddr : Nat) (x y : ℚ) (ram : C64RAM) :
    C64RAM :=
  let valAddr := (startAddr + ((f2u16 x &&& 0b11111100) <<< 1) + ((f2u16 y >>> 3) * 320)
    + (f2u16 y &&& 0b00000111)) % 65536
  let val := ram.CPUBusGetUByte8 valAddr
  ram.CPUBusSetUByte8 valAddr (val ^^^ tabPix.getD (f2u16 x &&& 3) 0)

/-- Go `func DrawBitmapLineToFillNormal(x1, y1, x2, y2 uint16, color byte,
startAddr uint16, cols uint16, rows uint16, ram *vc64.C64RAM)` -/
def DrawBitmapLineToFillNormal (x1 y1 x2 y2 : Nat) (color : Nat) (startAddr cols rows : Nat)
    (ram : C64RAM) : C64RAM :=
  let x1f : ℚ := x1
  let x2f : ℚ := x2
  let y1f : ℚ := y1
  let y2f : ℚ := y2
  let tabPix := getMultiColorTabPix color
  if x1f = x2f then
    ram
  else if x1f > x2f then
    let deltaX := x2f - x1f
    let deltaY := y2f - y1f
    let x := x2f
    let y := y2f
    let stopX := x1f - 1
    let stepY := deltaY / deltaX
    lineWalk (bitmapNormalBody tabPix startAddr) stepY stopX x y ram
  else
    let deltaX := x1f - x2f
    let deltaY := y1f - y2f
    let x := x1f
    let y := y1f
    let stopX := x2f - 1
    let stepY := deltaY / deltaX
    lineWalk (bitmapNormalBody tabPix startAddr) stepY stopX x y ram

/-- Loop body of `DrawBitmapLineToFillEvenOdd` (line_draw.go 169-176). -/
def bitmapEvenOddBody (tabPixEven tabPixOdd : List Nat) (startAddr rows : Nat) (x y : ℚ)
    (ram : C64RAM) : C64RAM :=
  let valAddr := (startAddr + ((f2u16 x &&& 0b11111100) <<< 1) + ((f2u16 y >>> 3) * 320)
    + (f2u16 y &&& 0b00000111)) % 65536
  let val := ram.CPUBusGetUByte8 valAddr
  let ram := ram.CPUBusSetUByte8 valAddr (val ^^^ tabPixEven.getD (f2u16 x &&& 3) 0)
  let yy := (f2u16 y + (rows / 2)) % 65536
  let valAddr := (startAddr + ((f2u16 x &&& 0b11111100) <<< 1) + ((yy >>> 3) * 320)
    + (yy &&& 0b00000111)) % 65536
  let val := ram.CPUBusGetUByte8 valAddr
  ram.CPUBusSetUByte8 valAddr (val ^^^ tabPixOdd.getD (f2u16 x &&& 3) 0)

/-- Go `func DrawBitmapLineToFillEvenOdd(x1, y1, x2, y2 uint16, patternValue byte,
startAddr uint16, cols uint16, rows uint16, ram *vc64.C64RAM)` -/
def DrawBitmapLineToFillEvenOdd (x1 y1 x2 y2 : Nat) (patternValue : Nat)
    (startAddr cols rows : Nat) (ram : C64RAM) : C64RAM :=
  let x1f : ℚ := x1
  let x2f : ℚ := x2
  let y1f : ℚ := y1
  let y2f : ℚ := y2
  let tabPixEven := (getMultiColorTabPixEvenOdd patternValue).1
  let tabPixOdd := (getMultiColorTabPixEvenOdd patternValue).2
  if x1f = x2f then
    ram
  else if x1f > x2f then
    let deltaX := x2f - x1f
    let deltaY := y2f - y1f
    let x := x2f
    let y := y2f
    let stopX := x1f - 1
    let stepY := deltaY / deltaX
    lineWalk (bitmapEvenOddBody tabPixEven tabPixOdd startAddr rows) stepY stopX x y ram
  else
    let deltaX := x1f - x2f
    let deltaY := y1f - y2f
    let x := x1f
    let y := y1f
    let stopX := x2f - 1
    let stepY := deltaY / deltaX
    lineWalk (bitmapEvenOddBody tabPixEven tabPixOdd startAddr rows) stepY stopX x y ram

/-- Loop body of `DrawBitmapLineToFillEvenOddWithClipping` (line_draw.go 231-250). -/
def bitmapEvenOddClipBody (tabPixEven tabPixOdd : List Nat) (startAddr rows maxX maxY : Nat)
    (oddBufferOffsetY : Nat) (x y : ℚ) (ram : C64RAM) : C64RAM :=
  let currY := y
  let currX := x
  let currY := if currY < 0 then 0 else currY
  let currY := if currY > (maxY : ℚ) then (maxY : ℚ) else currY
  if currX ≥ 0 ∧ currX < (maxX : ℚ) then
    let valAddr := (startAddr + ((f2u16 currX &&& 0b11111100) <<< 1)
      + ((f2u16 currY >>> 3) * 320) + (f2u16 currY &&& 0b00000111)) % 65536
    let val := ram.CPUBusGetUByte8 valAddr
    let ram := ram.CPUBusSetUByte8 valAddr (val ^^^ tabPixEven.getD (f2u16 currX &&& 3) 0)
    let yy := (f2u16 currY + (rows / 2) + oddBufferOffsetY) % 65536
    let valAddr := (startAddr + ((f2u16 currX &&& 0b11111100) <<< 1) + ((yy >>> 3) * 320)
      + (yy &&& 0b00000111)) % 65536
    let val := ram.CPUBusGetUByte8 valAddr
    ram.CPUBusSetUByte8 valAddr (val ^^^ tabPixOdd.getD (f2u16 x &&& 3) 0)
  else
    ram

/-- Go `func DrawBitmapLineToFillEvenOddWithClipping(x1, y1, x2, y2 int16,
patternValue byte, startAddr uint16, cols, rows uint16, maxX, maxY uint16,
ram *vc64.C64RAM)` -/
def DrawBitmapLineToFillEvenOddWithClipping (x1 y1 x2 y2 : Int) (patternValue : Nat)
    (startAddr cols rows maxX maxY : Nat) (ram : C64RAM) : C64RAM :=
  let x1f : ℚ := x1
  let x2f : ℚ := x2
  let y1f : ℚ := y1
  let y2f : ℚ := y2
  let tabPixEven := (getMultiColorTabPixEvenOdd patternValue).1
  let tabPixOdd := (getMultiColorTabPixEvenOdd patternValue).2
  if x1f = x2f then
    ram
  else if x1f > x2f then
    let deltaX := x2f - x1f
    let deltaY := y2f - y1f
    let x := x2f
    let y := y2f
    let stopX := x1f - 1
    let oddBufferOffsetY := 8
    let stepY := deltaY / deltaX
    lineWalk (bitmapEvenOddClipBody tabPixEven tabPixOdd startAddr rows maxX maxY
      oddBufferOffsetY) stepY stopX x y ram
  else
    let deltaX := x1f - x2f
    let deltaY := y1f - y2f
    let x := x1f
    let y := y1f
    let stopX := x2f - 1
    let oddBufferOffsetY := 8
    let stepY := deltaY / deltaX
    lineWalk (bitmapEvenOddClipBody tabPixEven tabPixOdd startAddr rows maxX maxY
      oddBufferOffsetY) stepY stopX x y ram

/-! ### XOR fill -/

/-- Body of the inner `for row` loop of `EORFillEvenOddBitmap` (filling.go
66-79); the state is `(evenValue, oddValue, ram)`. -/
def eorFillEvenOddRow (frameBufferAddr bitmapAddr rows oddBufferOffsetY column row : Nat)
    (st : Nat × Nat × C64RAM) : Nat × Nat × C64RAM :=
  let evenValue := st.1
  let oddValue := st.2.1
  let ram := st.2.2
  let inputRow := row
  let outputRow := ((row * 2) + 0) % 65536
  let fragInputAddr := (column * 8 + ((inputRow >>> 3) * 320) + (inputRow &&& 0x07)) % 65536
  let fragOutputAddr := (column * 8 + ((outputRow >>> 3) * 320) + (outputRow &&& 0x07)) % 65536
  let evenValue := evenValue ^^^ ram.CPUBusGetUByte8 ((frameBufferAddr + fragInputAddr) % 65536)
  let ram := ram.CPUBusSetUByte8 ((bitmapAddr + fragOutputAddr) % 65536) evenValue
  let inputRow := (row + (rows / 2) + oddBufferOffsetY) % 65536
  let outputRow := ((row * 2) + 1) % 65536
  let fragInputAddr := (column * 8 + ((inputRow >>> 3) * 320) + (inputRow &&& 0x07)) % 65536
  let fragOutputAddr := (column * 8 + ((outputRow >>> 3) * 320) + (outputRow &&& 0x07)) % 65536
  let oddValue := oddValue ^^^ ram.CPUBusGetUByte8 ((frameBufferAddr + fragInputAddr) % 65536)
  let ram := ram.CPUBusSetUByte8 ((bitmapAddr + fragOutputAddr) % 65536) oddValue
  (evenValue, oddValue, ram)

/-- Body of the outer `for column` loop of `EORFillEvenOddBitmap` (filling.go
63-80). -/
def eorFillEvenOddColumn (frameBufferAddr bitmapAddr initValue rows oddBufferOffsetY : Nat)
    (column : Nat) (ram : C64RAM) : C64RAM :=
  let evenValue := initValue
  let oddValue := initValue
  (countedLoop 0 rows
    (eorFillEvenOddRow frameBufferAddr bitmapAddr rows oddBufferOffsetY column)
    (evenValue, oddValue, ram)).2.2

/-- Go `func EORFillEvenOddBitmap(frameBufferAddr uint16, bitmapAddr uint16,
initValue byte, columns uint16, rows uint16, ram *vc64.C64RAM)` -/
def EORFillEvenOddBitmap (frameBufferAddr bitmapAddr initValue columns rows : Nat)
    (ram : C64RAM) : C64RAM :=
  let oddBufferOffsetY := 8
  countedLoop 0 columns
    (eorFillEvenOddColumn frameBufferAddr bitmapAddr initValue rows oddBufferOffsetY) ram

end Drawing

namespace Transform

/-- `type Vector3D struct { X, Y, Z float64 }`, over the scalars `K`. -/
structure Vector3D (K : Type) where
  X : K
  Y : K
  Z : K

/-- Go `func NewVector3D(x, y, z float64) Vector3D` -/
def NewVector3D {K : Type} (x y z : K) : Vector3D K :=
  { X := x, Y := y, Z := z }

/-- Go `func FaceVisibilityTest(v1 Vector3D, v2 Vector3D, v3 Vector3D) float64` -/
def FaceVisibilityTest {K : Type} [CommRing K] (v1 v2 v3 : Vector3D K) : K :=
  (v3.X - v2.X) * (v2.Y - v1.Y) - (v2.X - v1.X) * (v3.Y - v2.Y)

/-- The three items of Go's standard `math` package that `transform.go` and
`nested-cubes.go` use, as parameters of the embedding: `math.Sin`, `math.Cos`
and the constant `math.Pi`, over the scalars `K`. -/
structure GoMath (K : Type) where
  Sin : K → K
  Cos : K → K
  Pi : K

/-- Go `const piDiv180 = math.Pi / 180.0` -/
def piDiv180 {K : Type} [Field K] (m : GoMath K) : K :=
  m.Pi / 180

/-- Go `func ScaleVector3D(vector Vector3D, scale float64) Vector3D` -/
def ScaleVector3D {K : Type} [Field K] (vector : Vector3D K) (scale : K) : Vector3D K :=
  NewVector3D (vector.X * scale) (vector.Y * scale) (vector.Z * scale)

/-- Go `func TranslateVector3D(vector Vector3D, translate Vector3D) Vector3D` -/
def TranslateVector3D {K : Type} [Field K] (vector translate : Vector3D K) : Vector3D K :=
  NewVector3D (vector.X + translate.X) (vector.Y + translate.Y) (vector.Z + translate.Z)

/-- Go `func AngleToRadians(angle float64) float64` -/
def AngleToRadians {K : Type} [Field K] (m : GoMath K) (angle : K) : K :=
  piDiv180 m * angle

/-- Go `func Perspective(vertex Vector3D, zoom float64, distance float64) Vector3D` -/
def Perspective {K : Type} [Field K] (vertex : Vector3D K) (zoom distance : K) : Vector3D K :=
  let zPlusDist := vertex.Z + distance
  NewVector3D ((vertex.X / zPlusDist) * zoom) ((vertex.Y / zPlusDist) * zoom) vertex.Z

/-- Go `func PerspectiveInverse(vertex Vector3D, zoom float64, distance float64) Vector3D` -/
def PerspectiveInverse {K : Type} [Field K] (vertex : Vector3D K) (zoom distance : K) :
    Vector3D K :=
  let zPlusDist := vertex.Z + distance
  NewVector3D ((vertex.X / zoom) * zPlusDist) ((vertex.Y / zoom) * zPlusDist) vertex.Z

/-- Go `func RotateX(angle float64, vector Vector3D) Vector3D` -/
def RotateX {K : Type} [Field K] (m : GoMath K) (angle : K) (vector : Vector3D K) :
    Vector3D K :=
  let angleInRad := AngleToRadians m angle
  let sina := m.Sin angleInRad
  let cosa := m.Cos angleInRad
  NewVector3D vector.X (vector.Y * cosa - vector.Z * sina) (vector.Y * sina + vector.Z * cosa)

/-- Go `func RotateY(angle float64, vector Vector3D) Vector3D` -/
def RotateY {K : Type} [Field K] (m : GoMath K) (angle : K) (vector : Vector3D K) :
    Vector3D K :=
  let angleInRad := AngleToRadians m angle
  let sina := m.Sin angleInRad
  let cosa := m.Cos angleInRad
  NewVector3D (vector.Z * sina + vector.X * cosa) vector.Y (vector.Z * cosa - vector.X * sina)

/-- Go `func RotateZ(angle float64, vector Vector3D) Vector3D` -/
def RotateZ {K : Type} [Field K] (m : GoMath K) (angle : K) (vector : Vector3D K) :
    Vector3D K :=
  let angleInRad := AngleToRadians m angle
  let sina := m.Sin angleInRad
  let cosa := m.Cos angleInRad
  NewVector3D (vector.X * cosa - vector.Y * sina) (vector.X * sina + vector.Y * cosa) vector.Z

/-- Go `func RotateXYZ(angleX float64, angleY float64, angleZ float64,
vector Vector3D) Vector3D` -/
def RotateXYZ {K : Type} [Field K] (m : GoMath K) (angleX angleY angleZ : K)
    (vector : Vector3D K) : Vector3D K :=
  let angleXinRad := angleX * piDiv180 m
  let angleYinRad := angleY * piDiv180 m
  let angleZinRad := angleZ * piDiv180 m
  let sinax := m.Sin angleXinRad
  let cosax := m.Cos angleXinRad
  let sinay := m.Sin angleYinRad
  let cosay := m.Cos angleYinRad
  let sinaz := m.Sin angleZinRad
  let cosaz := m.Cos angleZinRad
  let tx1 := vector.X
  let ty1 := vector.Y * cosax - vector.Z * sinax
  let tz1 := vector.Y * sinax + vector.Z * cosax
  let tx2 := tx1 * cosay - tz1 * sinay
  let ty2 := ty1
  let tz2 := tx1 * sinay + tz1 * cosay
  NewVector3D (tx2 * cosaz - ty2 * sinaz) (tx2 * sinaz + ty2 * cosaz) tz2

end Transform

namespace Effects

open Vc64 Drawing Transform

/-- Go `const cubesCount = 9` -/
def cubesCount : Nat := 9

/-- Go `const facesCount = 6` -/
def facesCount : Nat := 6

/-- Go `const viewportHeight = 200` -/
def viewportHeight : Nat := 200

/-- Go `const viewportColumns = 40` -/
def viewportColumns : Nat := 40

/-- Go `const frontbufferFrameBufferSize = viewportColumns * viewportHeight` -/
def frontbufferFrameBufferSize : Nat := viewportColumns * viewportHeight

/-- Go `const backbufferFrameBufferSize = frontbufferFrameBufferSize + (viewportColumns * 16)` -/
def backbufferFrameBufferSize : Nat := frontbufferFrameBufferSize + (viewportColumns * 16)

/-- Go `var vertexes = []transform.Vector3D{...}`, the canonical cube. -/
def vertexes {K : Type} [Field K] : List (Vector3D K) :=
  [ { X := -1, Y := -1, Z := 1 },
    { X := 1, Y := -1, Z := 1 },
    { X := 1, Y := 1, Z := 1 },
    { X := -1, Y := 1, Z := 1 },
    { X := -1, Y := -1, Z := -1 },
    { X := 1, Y := -1, Z := -1 },
    { X := 1, Y := 1, Z := -1 },
    { X := -1, Y := 1, Z := -1 } ]

/-- Go `var faces = [][]byte{...}` -/
def faces : List (List Nat) :=
  [ [0, 1, 2, 3],
    [1, 5, 6, 2],
    [5, 4, 7, 6],
    [4, 0, 3, 7],
    [7, 3, 2, 6],
    [4, 5, 1, 0] ]

/-- The zero value of `transform.Vector3D`, which `make([]transform.Vector3D, 8)`
puts in every slot.  It is also what the embedding reads at an index outside a
slice, where Go panics; the tables passed by `DrawNestedCubes` are never
indexed outside their length. -/
def zeroVector3D {K : Type} [Field K] : Vector3D K :=
  { X := 0, Y := 0, Z := 0 }

/-- The Go conversion `int16(f)` of a `float64`: the fraction is discarded
(truncation toward zero).  For an integer part outside `-32768..32767` Go
leaves the result to the implementation; here it is wrapped to 16 bits in
two's complement. -/
def f2i16 {K : Type} [LinearOrderedField K] [FloorRing K] (f : K) : Int :=
  let t : Int := if 0 ≤ f then ⌊f⌋ else ⌈f⌉
  (t + 32768) % 65536 - 32768

/-- Go `func drawFaceC64NormalInt(patternValue byte, x1, y1, x2, y2, x3, y3,
x4, y4 int16, frameBufferAddr uint16, columns uint16, rows uint16,
ram *vc64.C64RAM)` -/
def drawFaceC64NormalInt (patternValue : Nat) (x1 y1 x2 y2 x3 y3 x4 y4 : Int)
    (frameBufferAddr columns rows : Nat) (ram : C64RAM) : C64RAM :=
  let viewPortWidth := 160
  let viewPortHeight := 100
  let ram := DrawBitmapLineToFillEvenOddWithClipping x1 y1 x2 y2 patternValue frameBufferAddr
    columns rows viewPortWidth viewPortHeight ram
  let ram := DrawBitmapLineToFillEvenOddWithClipping x2 y2 x3 y3 patternValue frameBufferAddr
    columns rows viewPortWidth viewPortHeight ram
  let ram := DrawBitmapLineToFillEvenOddWithClipping x3 y3 x4 y4 patternValue frameBufferAddr
    columns rows viewPortWidth viewPortHeight ram
  DrawBitmapLineToFillEvenOddWithClipping x4 y4 x1 y1 patternValue frameBufferAddr
    columns rows viewPortWidth viewPortHeight ram

/-- The vertex phase of `drawC64Cube` (nested-cubes.go 137-207): the pair
`(resVtx, allResVtxPersp)` as it stands when the face loop starts. -/
def drawC64CubeVertices {K : Type} [Field K] (m : GoMath K) (angleX angleY angleZ scale : K)
    (vertexes : List (Vector3D K)) : List (Vector3D K) × List (Vector3D K) :=
  let dist : K := 64
  let zoom : K := 140
  let resVtx : List (Vector3D K) := List.replicate 8 zeroVector3D
  let primIndexes : List Nat := [0, 1, 3, 4]
  let allResVtxPersp : List (Vector3D K) := List.replicate 8 zeroVector3D
  let st := countedLoop 0 4
    (fun c0 (st : List (Vector3D K) × List (Vector3D K)) =>
      let vIdx := primIndexes.getD c0 0
      let inputVertex := vertexes.getD vIdx zeroVector3D
      let inputVertex := ScaleVector3D inputVertex scale
      let inputVertex := RotateXYZ m angleX angleY angleZ inputVertex
      let perspVertex := Perspective inputVertex zoom dist
      (st.1.set vIdx inputVertex, st.2.set vIdx perspVertex))
    (resVtx, allResVtxPersp)
  let resVtx := st.1
  let allResVtxPersp := st.2
  let fVtx0 := resVtx.getD 0 zeroVector3D
  let fVtx3 := resVtx.getD 3 zeroVector3D
  let fVtx4 := resVtx.getD 4 zeroVector3D
  let fVtx1 := resVtx.getD 1 zeroVector3D
  let edge1LenX := fVtx4.X - fVtx0.X
  let edge1LenY := fVtx4.Y - fVtx0.Y
  let edge1LenZ := fVtx4.Z - fVtx0.Z
  let edge2LenX := fVtx3.X - fVtx0.X
  let edge2LenY := fVtx3.Y - fVtx0.Y
  let edge2LenZ := fVtx3.Z - fVtx0.Z
  let resVtx := resVtx.set 7
    { X := fVtx3.X + edge1LenX, Y := fVtx3.Y + edge1LenY, Z := fVtx3.Z + edge1LenZ }
  let resVtx := resVtx.set 2
    { X := fVtx1.X + edge2LenX, Y := fVtx1.Y + edge2LenY, Z := fVtx1.Z + edge2LenZ }
  let resVtx := resVtx.set 5
    { X := fVtx1.X + edge1LenX, Y := fVtx1.Y + edge1LenY, Z := fVtx1.Z + edge1LenZ }
  let fVtx5 := resVtx.getD 5 zeroVector3D
  let resVtx := resVtx.set 6
    { X := fVtx5.X + edge2LenX, Y := fVtx5.Y + edge2LenY, Z := fVtx5.Z + edge2LenZ }
  let allResVtxPersp := allResVtxPersp.set 2 (Perspective (resVtx.getD 2 zeroVector3D) zoom dist)
  let allResVtxPersp := allResVtxPersp.set 7 (Perspective (resVtx.getD 7 zeroVector3D) zoom dist)
  let allResVtxPersp := allResVtxPersp.set 5 (Perspective (resVtx.getD 5 zeroVector3D) zoom dist)
  let allResVtxPersp := allResVtxPersp.set 6 (Perspective (resVtx.getD 6 zeroVector3D) zoom dist)
  (resVtx, allResVtxPersp)

/-- The projected vertex number `k` of the face `c0`:
`allResVtxPersp[faces[c0][k]]`. -/
def faceVertex {K : Type} [Field K] (allResVtxPersp : List (Vector3D K))
    (faces : List (List Nat)) (c0 k : Nat) : Vector3D K :=
  allResVtxPersp.getD ((faces.getD c0 []).getD k 0) zeroVector3D

/-- Body of the face loop of `drawC64Cube` (nested-cubes.go 210-233) for the
face index `c0`; `vCenterX`, `vCenterY` are `float64(width / 2.0)` and
`float64(height / 2.0)`. -/
def drawC64CubeFace {K : Type} [LinearOrderedField K] [FloorRing K]
    (allResVtxPersp : List (Vector3D K)) (vCenterX vCenterY : K)
    (frameBufferAddr columns rows : Nat) (faces : List (List Nat)) (c64CubeColors : List Nat)
    (c0 : Nat) (ram : C64RAM) : C64RAM :=
  let fVtx1 := allResVtxPersp.getD ((faces.getD c0 []).getD 0 0) zeroVector3D
  let fVtx2 := allResVtxPersp.getD ((faces.getD c0 []).getD 1 0) zeroVector3D
  let fVtx3 := allResVtxPersp.getD ((faces.getD c0 []).getD 2 0) zeroVector3D
  let fVtx4 := allResVtxPersp.getD ((faces.getD c0 []).getD 3 0) zeroVector3D
  let patternValue := c64CubeColors.getD c0 0
  if FaceVisibilityTest fVtx1 fVtx2 fVtx3 > 0 then
    drawFaceC64NormalInt patternValue
      (f2i16 (fVtx1.X + vCenterX)) (f2i16 (fVtx1.Y + vCenterY))
      (f2i16 (fVtx2.X + vCenterX)) (f2i16 (fVtx2.Y + vCenterY))
      (f2i16 (fVtx3.X + vCenterX)) (f2i16 (fVtx3.Y + vCenterY))
      (f2i16 (fVtx4.X + vCenterX)) (f2i16 (fVtx4.Y + vCenterY))
      frameBufferAddr columns rows ram
  else
    ram

/-- Go `func drawC64Cube(angleX, angleY, angleZ, scale float64,
frameBufferAddr uint16, columns uint16, rows uint16,
vertexes []transform.Vector3D, faces [][]byte, c64CubeColors []byte,
ram *vc64.C64RAM)` -/
def drawC64Cube {K : Type} [LinearOrderedField K] [FloorRing K] (m : GoMath K)
    (angleX angleY angleZ scale : K) (frameBufferAddr columns rows : Nat)
    (vertexes : List (Vector3D K)) (faces : List (List Nat)) (c64CubeColors : List Nat)
    (ram : C64RAM) : C64RAM :=
  let width : Int := 160
  let height : Int := 100
  let vCenterX : K := ((Int.tdiv width 2 : Int) : K)
  let vCenterY : K := ((Int.tdiv height 2 : Int) : K)
  let allResVtxPersp := (drawC64CubeVertices m angleX angleY angleZ scale vertexes).2
  countedLoop 0 6
    (drawC64CubeFace allResVtxPersp vCenterX vCenterY frameBufferAddr columns rows faces
      c64CubeColors) ram

/-- A sample value of the package variable `c64CubeColors`: one pattern byte
for each of the 6 faces of each of the 9 cubes. -/
def cubeColorsSample : List (List Nat) :=
  List.replicate 9 [0x1B, 0x55, 0xE4, 0x27, 0x8D, 0xF0]

/-- The cube loop of `DrawNestedCubes` (nested-cubes.go 75-89): the RAM after
all `cubesCount` cubes are drawn.  The package variable `c64CubeColors`, filled
with random bytes by `init`, is a parameter. -/
def drawNestedCubesCubes {K : Type} [LinearOrderedField K] [FloorRing K] (m : GoMath K)
    (c64CubeColors : List (List Nat)) (currentTime : Int) (frameBufferAddr : Nat)
    (ram : C64RAM) : C64RAM :=
  let firstCubeSize : Int := 30
  let speedFactor : K := 1 / 2
  let frameWithSpeed : K := (currentTime : K) * speedFactor
  let amp : K := 180
  countedLoop 0 cubesCount
    (fun currC0 ram =>
      let cubeColors := c64CubeColors.getD currC0 []
      let angle : K := frameWithSpeed + (((currC0 : Int) * 2 : Int) : K)
      let angleX := amp * m.Cos (m.Pi / 180 * angle)
      let angleY := amp * m.Sin (m.Pi / 180 * angle)
      let angleZ := amp * m.Sin (m.Pi / 180 * angle)
      let scale : K :=
        ((firstCubeSize - (Int.tdiv firstCubeSize (cubesCount : Int)) * (currC0 : Int) : Int) : K)
      drawC64Cube m angleX angleY angleZ scale frameBufferAddr viewportColumns viewportHeight
        vertexes faces cubeColors ram)
    ram

/-- The RAM of `DrawNestedCubes` after the XOR-fold step (nested-cubes.go 92),
before the frame is copied out and the working buffer is cleared. -/
def drawNestedCubesFolded {K : Type} [LinearOrderedField K] [FloorRing K] (m : GoMath K)
    (c64CubeColors : List (List Nat)) (currentTime : Int) (frameBufferAddr bitmapAddr : Nat)
    (ram : C64RAM) : C64RAM :=
  EORFillEvenOddBitmap frameBufferAddr bitmapAddr 0 viewportColumns viewportHeight
    (drawNestedCubesCubes m c64CubeColors currentTime frameBufferAddr ram)

/-- Go `func DrawNestedCubes(currentTime int, frameBufferAddr uint16,
bitmapAddr uint16, ram *vc64.C64RAM) []byte`: the returned frame together with
the RAM after the call, or `none` when `CPUGetRAMSlice` panics. -/
def DrawNestedCubes {K : Type} [LinearOrderedField K] [FloorRing K] (m : GoMath K)
    (c64CubeColors : List (List Nat)) (currentTime : Int) (frameBufferAddr bitmapAddr : Nat)
    (ram : C64RAM) : Option (List Nat × C64RAM) :=
  let ram := drawNestedCubesFolded m c64CubeColors currentTime frameBufferAddr bitmapAddr ram
  let frameBuffer : List Nat := List.replicate backbufferFrameBufferSize 0
  match ram.CPUGetRAMSlice bitmapAddr backbufferFrameBufferSize with
  | none => none
  | some slice =>
    let frameBuffer := goCopy frameBuffer slice
    let ram := ram.CPUFillRAM 0 frameBufferAddr backbufferFrameBufferSize
    some (frameBuffer, ram)

end Effects

/-! ## Vocabulary of the statements -/

namespace Vc64

/-- One read-XOR-write step on the CPU bus: fetch the byte at `a`, XOR it with
`v`, store it back (`val := ram.CPUBusGetUByte8(a); ram.CPUBusSetUByte8(a, val^v)`). -/
def C64RAM.xorAt (ram : C64RAM) (a v : Nat) : C64RAM :=
  ram.CPUBusSetUByte8 a (ram.CPUBusGetUByte8 a ^^^ v)

/-- XOR of the CPU-visible RAM with a mask `g`, address by address. -/
def C64RAM.xorMask (g : Nat → Nat) (ram : C64RAM) : C64RAM :=
  { ram with ram := fun a => ram.ram a ^^^ g a }

/-- A RAM transformer that XORs the CPU-visible RAM with a mask which does not
depend on the RAM contents. -/
def IsXorMap (f : C64RAM → C64RAM) : Prop :=
  ∃ g : Nat → Nat, ∀ ram, f ram = ram.xorMask g

end Vc64

namespace Drawing
open Vc64

/-- The address of the byte at pixel column `x` and row `row` of the bitmap
that starts at `startAddr`, in the rasterizer's addressing convention
`startAddr + ((x & 0xFC) << 1) + (row >> 3)*320 + (row & 7)`, as a 16-bit
address. -/
def bitmapByteAddr (startAddr x row : Nat) : Nat :=
  (startAddr + ((x &&& 0xFC) <<< 1) + (row >>> 3) * 320 + (row &&& 7)) % 65536

/-- What one step of the unclipped even/odd rasterizer does at pixel column
`x` and integer row `row`: it XORs the even pattern entry into the byte at
column `x`, row `row`, and the odd pattern entry into the byte at column `x`,
row `row + rows/2`. -/
def evenOddStep (patternValue startAddr rows x row : Nat) (ram : C64RAM) : C64RAM :=
  (ram.xorAt (bitmapByteAddr startAddr x row)
      ((getMultiColorTabPixEvenOdd patternValue).1.getD (x &&& 3) 0)).xorAt
    (bitmapByteAddr startAddr x (row + rows / 2))
    ((getMultiColorTabPixEvenOdd patternValue).2.getD (x &&& 3) 0)

/-- What one step of the clipped even/odd rasterizer does at integer `x` and
running `y`: nothing when `x` is outside `[0, maxX)`; otherwise it XORs the
even pattern entry into the byte at column `x`, row `cy`, and the odd pattern
entry into the byte at column `x`, row `cy + rows/2 + 8`, where `cy` is the
integer part of `y` clamped into `[0, maxY]`. -/
def clippedStep (patternValue startAddr rows maxX maxY : Nat) (x : ℤ) (y : ℚ)
    (ram : C64RAM) : C64RAM :=
  let cy : Nat := ⌊max 0 (min y (maxY : ℚ))⌋₊
  if 0 ≤ x ∧ x < (maxX : ℤ) then
    (ram.xorAt (bitmapByteAddr startAddr x.toNat cy)
        ((getMultiColorTabPixEvenOdd patternValue).1.getD (x.toNat &&& 3) 0)).xorAt
      (bitmapByteAddr startAddr x.toNat (cy + rows / 2 + 8))
      ((getMultiColorTabPixEvenOdd patternValue).2.getD (x.toNat &&& 3) 0)
  else
    ram

end Drawing

namespace Drawing
open Vc64

/-- The 16-bit address of the byte at column `c` and row `q` of the region
that starts at `base`, in the addressing convention of the fill helpers:
offset `c*8 + (q >> 3)*320 + (q & 7)`. -/
def fillCellAddr (base c q : Nat) : Nat :=
  (base + (c * 8 + (q >>> 3) * 320 + (q &&& 7))) % 65536

/-- The running XOR `init ^ f 0 ^ f 1 ^ ... ^ f (n-1)`. -/
def xorUpTo (init : Nat) (f : Nat → Nat) (n : Nat) : Nat :=
  (List.range n).foldl (fun acc j => acc ^^^ f j) init

/-- One row step of the even/odd fill on the state `(evenValue, oddValue, ram)`,
with the four addresses it uses named: read `inEven`, write `outEven`, read
`inOdd`, write `outOdd`. -/
def eorCellStep (inEven outEven inOdd outOdd : Nat) (st : Nat × Nat × C64RAM) :
    Nat × Nat × C64RAM :=
  let evenValue := st.1 ^^^ st.2.2.CPUBusGetUByte8 inEven
  let ram := st.2.2.CPUBusSetUByte8 outEven evenValue
  let oddValue := st.2.1 ^^^ ram.CPUBusGetUByte8 inOdd
  (evenValue, oddValue, ram.CPUBusSetUByte8 outOdd oddValue)

/-- The even/odd fill over abstract cell addresses: `inE c r`, `outE c r`,
`inO c r`, `outO c r` are the four addresses of the row step `(c, r)`. -/
def eorCellFill (inE outE inO outO : Nat → Nat → Nat) (initValue columns rows : Nat)
    (ram : C64RAM) : C64RAM :=
  countedLoop 0 columns
    (fun c ram =>
      (countedLoop 0 rows
        (fun r st => eorCellStep (inE c r) (outE c r) (inO c r) (outO c r) st)
        (initValue, initValue, ram)).2.2) ram

/-- Two RAMs with the same contents outside the CPU-visible RAM area. -/
def sameOtherAreas (r s : C64RAM) : Prop :=
  r.vicRAM = s.vicRAM ∧ r.io = s.io ∧ r.basicROM = s.basicROM ∧ r.charROM = s.charROM ∧
    r.kernalROM = s.kernalROM

end Drawing

namespace Effects
open Vc64 Drawing Transform

/-- The arguments `(angleX, angleY, angleZ, scale)` of the `drawC64Cube` call
that the cube loop of `DrawNestedCubes` (nested-cubes.go 83-88) makes for the
cube index `currC0` at the time `currentTime`. -/
def nestedCubeArgs {K : Type} [Field K] (m : GoMath K) (currentTime : Int) (currC0 : Nat) :
    K × K × K × K :=
  let firstCubeSize : Int := 30
  let speedFactor : K := 1 / 2
  let frameWithSpeed : K := (currentTime : K) * speedFactor
  let amp : K := 180
  let angle : K := frameWithSpeed + (((currC0 : Int) * 2 : Int) : K)
  let angleX := amp * m.Cos (m.Pi / 180 * angle)
  let angleY := amp * m.Sin (m.Pi / 180 * angle)
  let angleZ := amp * m.Sin (m.Pi / 180 * angle)
  let scale : K :=
    ((firstCubeSize - (Int.tdiv firstCubeSize (cubesCount : Int)) * (currC0 : Int) : Int) : K)
  (angleX, angleY, angleZ, scale)

/-- The pair `(resVtx, allResVtxPersp)` of the `drawC64Cube` call that
`DrawNestedCubes` makes for the cube index `currC0` at the time `currentTime`:
`resVtx[i]` is the vertex handed to `Perspective`, `allResVtxPersp[i]` the
result. -/
def sceneCubeVertices {K : Type} [Field K] (m : GoMath K) (currentTime : Int) (currC0 : Nat) :
    List (Vector3D K) × List (Vector3D K) :=
  drawC64CubeVertices m (nestedCubeArgs m currentTime currC0).1
    (nestedCubeArgs m currentTime currC0).2.1 (nestedCubeArgs m currentTime currC0).2.2.1
    (nestedCubeArgs m currentTime currC0).2.2.2 vertexes

end Effects

/-! ## The WebSocket client `c64dws`

Conventions of this part of the embedding:

* A Go `string` is a `String`, a `[]byte` a list of byte values; the `nil`
  slice and the empty slice are both the empty list.
* `int` and `int64` values are integers; the one `int64` that the client
  increments wraps at 64 bits (`wrapInt64`).
* A Go `error` is its message; a result `(value, error)` is a pair whose
  second component is `none` for the `nil` error.
* Functions of the Go standard library that the client calls (`fmt.Sprintf`,
  `strings.Contains`, `url.URL.String`) are modelled in `GoStd`, each on the
  part of its input space that its description names.  `json.Unmarshal`, the
  WebSocket connection and `uuid.New` are parameters.
-/

namespace GoStd

/-- Go `strings.Contains(s, substr)` on the characters of the two strings. -/
def stringsContainsChars (substr : List Char) : List Char → Bool
  | [] => substr.isEmpty
  | c :: cs => substr.isPrefixOf (c :: cs) || stringsContainsChars substr cs

/-- Go `strings.Contains(s, substr)` -/
def stringsContains (s substr : String) : Bool :=
  stringsContainsChars substr.data s.data

/-- An operand of `fmt.Sprintf`, for the two kinds of operand the client
passes: a value of a string type and a value of a signed integer type.
`typeName` is the name of the Go type of the operand as `fmt` prints it. -/
inductive Operand where
  | str (typeName : String) (value : String)
  | int (typeName : String) (value : Int)

/-- The name of the Go type of an operand. -/
def Operand.typeName : Operand → String
  | Operand.str t _ => t
  | Operand.int t _ => t

/-- The operand as the verb `%v` prints it: a string as it is, an integer in
decimal. -/
def Operand.printV : Operand → List Char
  | Operand.str _ v => v.data
  | Operand.int _ n => (toString n).data

/-- The text `%!verb(type=value)` that `fmt` writes for a verb that does not
fit its operand. -/
def badVerb (verb : Char) (a : Operand) : List Char :=
  ['%', '!', verb, '('] ++ a.typeName.data ++ ['='] ++ a.printV ++ [')']

/-- What `fmt` writes for the operand `a` under the verb `verb`, where `verb`
is one of `s`, `d`, `v`: `%s` prints a string and `%d` an integer, `%v` either,
and `%d` of a string or `%s` of an integer is a bad verb. -/
def printArg (a : Operand) (verb : Char) : List Char :=
  match a with
  | Operand.str _ v => if verb = 's' ∨ verb = 'v' then v.data else badVerb verb a
  | Operand.int _ n => if verb = 'd' ∨ verb = 'v' then (toString n).data else badVerb verb a

/-- The items `type=value` of the operands left over, separated by `, `. -/
def extraItems : List Operand → List Char
  | [] => []
  | [a] => a.typeName.data ++ ['='] ++ a.printV
  | a :: b :: rest => a.typeName.data ++ ['='] ++ a.printV ++ [',', ' '] ++ extraItems (b :: rest)

/-- The text `%!(EXTRA type=value, ...)` that `fmt` appends when operands are
left over at the end of the format; nothing when none is left. -/
def extraArgs (args : List Operand) : List Char :=
  if args.isEmpty then [] else "%!(EXTRA ".data ++ extraItems args ++ [')']

/-- The formatting loop of `fmt.Sprintf` on the characters of the format.
Modelled are plain text, `%%`, and the verbs `%s`, `%d`, `%v` without flags,
width, precision or argument index, including the texts `fmt` writes for a
missing operand, a verb that does not fit, a `%` at the end of the format and
operands left over.  The result is `none` for a format with any other
directive, which this model does not describe. -/
def doPrintf : List Char → List Operand → Option (List Char)
  | [], args => some (extraArgs args)
  | c :: cs, args =>
    if c = '%' then
      match cs with
      | [] => some ("%!(NOVERB)".data ++ extraArgs args)
      | verb :: rest =>
        if verb = '%' then
          (doPrintf rest args).map (fun out => '%' :: out)
        else if verb = 's' ∨ verb = 'd' ∨ verb = 'v' then
          match args with
          | [] => (doPrintf rest []).map (fun out => ['%', '!', verb] ++ "(MISSING)".data ++ out)
          | a :: more => (doPrintf rest more).map (fun out => printArg a verb ++ out)
        else
          none
    else
      (doPrintf cs args).map (fun out => c :: out)

/-- Go `fmt.Sprintf(format, args...)`, on the formats that `doPrintf`
describes. -/
def Sprintf (format : String) (args : List Operand) : Option String :=
  (doPrintf format.data args).map String.mk

/-- The bytes of the UTF-8 encoding of a character. -/
def utf8Bytes (c : Char) : List Nat :=
  let v := c.toNat
  if v < 0x80 then [v]
  else if v < 0x800 then [0xC0 + v / 64, 0x80 + v % 64]
  else if v < 0x10000 then [0xE0 + v / 4096, 0x80 + v / 64 % 64, 0x80 + v % 64]
  else [0xF0 + v / 262144, 0x80 + v / 4096 % 64, 0x80 + v / 64 % 64, 0x80 + v % 64]

/-- The two escaping modes of `net/url` that `URL.String` uses for a URL with
a host and a path. -/
inductive Encoding where
  | encodePath
  | encodeHost
deriving DecidableEq

/-- Go `func shouldEscape(c byte, mode encoding) bool` of `net/url`, for the
modes `encodePath` and `encodeHost`: letters, digits and `-_.~` are never
escaped; a host also keeps the characters listed below and a path keeps the
reserved characters except `?`; every other byte is escaped. -/
def shouldEscape (c : Nat) (mode : Encoding) : Bool :=
  if ('a'.toNat ≤ c ∧ c ≤ 'z'.toNat) ∨ ('A'.toNat ≤ c ∧ c ≤ 'Z'.toNat) ∨
      ('0'.toNat ≤ c ∧ c ≤ '9'.toNat) then false
  else if mode = Encoding.encodeHost ∧
      c ∈ ['!'.toNat, '$'.toNat, '&'.toNat, 39, '('.toNat, ')'.toNat, '*'.toNat, '+'.toNat,
        ','.toNat, ';'.toNat, '='.toNat, ':'.toNat, '['.toNat, ']'.toNat, '<'.toNat, '>'.toNat,
        34] then false
  else if c ∈ ['-'.toNat, '_'.toNat, '.'.toNat, '~'.toNat] then false
  else if c ∈ ['$'.toNat, '&'.toNat, '+'.toNat, ','.toNat, '/'.toNat, ':'.toNat, ';'.toNat,
      '='.toNat, '?'.toNat, '@'.toNat] ∧ mode = Encoding.encodePath then
    decide (c = '?'.toNat)
  else true

/-- The hexadecimal digit of a value below 16, in upper case. -/
def upperhex (n : Nat) : Char :=
  "0123456789ABCDEF".data.getD n '0'

/-- Go `func escape(s string, mode encoding) string` of `net/url`, for the
modes `encodePath` and `encodeHost`: every byte of `s` that `shouldEscape`
selects becomes `%XX`, every other byte stays. -/
def escape (s : String) (mode : Encoding) : String :=
  String.mk ((s.data.flatMap utf8Bytes).flatMap
    (fun b => if shouldEscape b mode then ['%', upperhex (b / 16), upperhex (b % 16)]
      else [Char.ofNat b]))

/-- The fields of a Go `url.URL` that the client sets; every other field of
the URL has its zero value. -/
structure URL where
  Scheme : String
  Host : String
  Path : String

/-- Go `func (u *URL) EscapedPath() string` for a URL whose `RawPath` is
empty. -/
def URL.EscapedPath (u : URL) : String :=
  if u.Path = "*" then "*" else escape u.Path Encoding.encodePath

/-- Go `func (u *URL) String() string` for a URL that has only `Scheme`,
`Host` and `Path` set: `scheme:`, then `//` and the escaped host, then the
escaped path, with a `/` put before a relative path that follows a host and a
`./` put before a path whose first segment has a colon when nothing precedes
it. -/
def URL.String (u : URL) : String :=
  let buf := if u.Scheme ≠ "" then u.Scheme ++ ":" else ""
  let buf :=
    if u.Scheme ≠ "" ∨ u.Host ≠ "" then
      let buf := if u.Host ≠ "" ∨ u.Path ≠ "" then buf ++ "//" else buf
      if u.Host ≠ "" then buf ++ escape u.Host Encoding.encodeHost else buf
    else buf
  let path := u.EscapedPath
  let buf := if path ≠ "" ∧ path.data.head? ≠ some '/' ∧ u.Host ≠ "" then buf ++ "/" else buf
  let buf :=
    if buf = "" ∧ (path.data.takeWhile (fun c => c ≠ '/')).contains ':' then buf ++ "./"
    else buf
  buf ++ path

end GoStd

namespace C64dws
open GoStd

/-- Go `const WS_SCHEME = "ws"` -/
def WS_SCHEME : String := "ws"

/-- Go `const WS_HOST = "localhost"` -/
def WS_HOST : String := "localhost"

/-- Go `const WS_PORT_0x0DEB = 3563` -/
def WS_PORT_0x0DEB : Int := 3563

/-- Go `const WS_DEFAULT_TOKEN_FORMAT = "id-%d"` -/
def WS_DEFAULT_TOKEN_FORMAT : String := "id-%d"

/-- Go `type APIType string` -/
abbrev APIType := String

/-- Go `StreamAPI APIType = "/stream"` -/
def StreamAPI : APIType := "/stream"

/-- Go `type APIFn string` -/
abbrev APIFn := String

/-- Go `type EmulatorType string` -/
abbrev EmulatorType := String

/-- Go `type TokenType string` -/
abbrev TokenType := String

/-- Go `type C64DMessageType string` -/
abbrev C64DMessageType := String

def APIFnLoad : APIFn := "load"
def APIFnDetachEverything : APIFn := "%s/detachEverything"
def APIFnContinue : APIFn := "%s/continue"
def APIFnPause : APIFn := "%s/pause"
def APIFnCPUBreakpointAdd : APIFn := "%s/cpu/breakpoint/add"
def APIFnCPUBreakpointRemove : APIFn := "%s/cpu/breakpoint/remove"
def APIFnCPUCountersRead : APIFn := "%s/cpu/counters/read"
def APIFnCPUMakeJmp : APIFn := "%s/cpu/makejmp"
def APIFnCPUMemoryBreakpointAdd : APIFn := "%s/cpu/memory/breakpoint/add"
def APIFnCPUMemoryBreakpointRemove : APIFn := "%s/cpu/memory/breakpoint/remove"
def APIFnCPUMemoryReadBlock : APIFn := "%s/cpu/memory/readBlock"
def APIFnCPUMemoryWriteBlock : APIFn := "%s/cpu/memory/writeBlock"
def APIFnCPUStatus : APIFn := "%s/cpu/status"
def APIFnDrive1541CPUMemoryReadBlock : APIFn := "%s/drive1541/cpu/memory/readBlock"
def APIFnDrive1541CPUMemoryWriteBlock : APIFn := "%s/drive1541/cpu/memory/writeBlock"
def APIFnDrive1541RAMClear : APIFn := "%s/drive1541/ram/clear"
def APIFnDrive1541RAMReadBlock : APIFn := "%s/drive1541/ram/readBlock"
def APIFnDrive1541RAMWriteBlock : APIFn := "%s/drive1541/ram/writeBlock"
def APIFnDrive1541VIARead : APIFn := "%s/drive1541/via/read"
def APIFnDrive1541VIAWrite : APIFn := "%s/drive1541/via/write"
def APIFnInputJoystickDown : APIFn := "%s/input/joystick/down"
def APIFnInputJoystickUp : APIFn := "%s/input/joystick/up"
def APIFnInputKeyDown : APIFn := "%s/input/key/down"
def APIFnInputKeyUp : APIFn := "%s/input/key/up"
def APIFnRAMClear : APIFn := "%s/ram/clear"
def APIFnRAMReadBlock : APIFn := "%s/ram/readBlock"
def APIFnRAMWriteBlock : APIFn := "%s/ram/writeBlock"
def APIFnResetHard : APIFn := "%s/reset/hard"
def APIFnResetSoft : APIFn := "%s/reset/soft"
def APIFnSavePRG : APIFn := "%s/savePrg"
def APIFnSegmentRead : APIFn := "%s/segment/read"
def APIFnSegmentWrite : APIFn := "%s/segment/write"
def APIFnStepCycle : APIFn := "%s/step/cycle"
def APIFnStepInstruction : APIFn := "%s/step/instruction"
def APIFnStepSubroutine : APIFn := "%s/step/subroutine"
def APIFnCIARead : APIFn := "%s/cia/read"
def APIFnCIAWrite : APIFn := "%s/cia/write"
def APIFnSIDRead : APIFn := "%s/sid/read"
def APIFnSIDWrite : APIFn := "%s/sid/write"
def APIFnVICAddRasterBreakpoint : APIFn := "%s/vic/breakpoint/add"
def APIFnVICRemoveRasterBreakpoint : APIFn := "%s/vic/breakpoint/remove"
def APIFnVICRead : APIFn := "%s/vic/read"
def APIFnVICWrite : APIFn := "%s/vic/write"
def APIFnWarpSet : APIFn := "%s/warp/set"

/-- The API function path constants of client.go 45-90, in the order of their
declaration. -/
def apiFnConstants : List APIFn :=
  [APIFnLoad, APIFnDetachEverything, APIFnContinue, APIFnPause, APIFnCPUBreakpointAdd,
    APIFnCPUBreakpointRemove, APIFnCPUCountersRead, APIFnCPUMakeJmp,
    APIFnCPUMemoryBreakpointAdd, APIFnCPUMemoryBreakpointRemove, APIFnCPUMemoryReadBlock,
    APIFnCPUMemoryWriteBlock, APIFnCPUStatus, APIFnDrive1541CPUMemoryReadBlock,
    APIFnDrive1541CPUMemoryWriteBlock, APIFnDrive1541RAMClear, APIFnDrive1541RAMReadBlock,
    APIFnDrive1541RAMWriteBlock, APIFnDrive1541VIARead, APIFnDrive1541VIAWrite,
    APIFnInputJoystickDown, APIFnInputJoystickUp, APIFnInputKeyDown, APIFnInputKeyUp,
    APIFnRAMClear, APIFnRAMReadBlock, APIFnRAMWriteBlock, APIFnResetHard, APIFnResetSoft,
    APIFnSavePRG, APIFnSegmentRead, APIFnSegmentWrite, APIFnStepCycle, APIFnStepInstruction,
    APIFnStepSubroutine, APIFnCIARead, APIFnCIAWrite, APIFnSIDRead, APIFnSIDWrite,
    APIFnVICAddRasterBreakpoint, APIFnVICRemoveRasterBreakpoint, APIFnVICRead, APIFnVICWrite,
    APIFnWarpSet]

def EmulatorC64 : EmulatorType := "c64"
def EmulatorATARI800 : EmulatorType := "atari800"
def EmulatorNES : EmulatorType := "nes"

def TokenTypeAutoIncrement : TokenType := "autoincrement"
def TokenTypeUUID : TokenType := "uuid"

def C64DRequestResponse : C64DMessageType := "RequestResponse"
def C64DServerEvent : C64DMessageType := "ServerEvent"
def C64DUnknown : C64DMessageType := "Unknown"

/-- Go `websocket.TextMessage` -/
def TextMessage : Int := 1

/-- Go `websocket.BinaryMessage` -/
def BinaryMessage : Int := 2

/-- Go `type HostDesc struct` -/
structure HostDesc where
  hostName : String
  port : Int
  scheme : String
deriving DecidableEq

/-- Go `func GetDefaultHost() HostDesc` -/
def GetDefaultHost : HostDesc :=
  { hostName := WS_HOST, port := WS_PORT_0x0DEB, scheme := WS_SCHEME }

/-- Go `func GetCustomHost(hostName string, port int, scheme string)
(HostDesc, error)` -/
def GetCustomHost (hostName : String) (port : Int) (scheme : String) :
    HostDesc × Option String :=
  if scheme = "" ∨ port = 0 ∨ hostName = "" then
    ({ hostName := "", port := 0, scheme := "" }, some "Invalid host description")
  else if scheme ≠ "ws" then
    ({ hostName := "", port := 0, scheme := "" },
      some "Currently only 'ws' scheme is supported")
  else
    ({ hostName := hostName, port := port, scheme := scheme }, none)

/-- Go `type Client struct`, without the connection `conn`: what is read from
the connection is an argument of the functions that read. -/
structure Client where
  emulator : EmulatorType
  host : HostDesc
  apiType : APIType
  tokenType : TokenType
  tokenFormat : String
  autoincrement : Int

/-- Go `func NewCustomClient(emulator EmulatorType, apiType APIType,
tokenType TokenType, tokenFormat string, host HostDesc) *Client` -/
def NewCustomClient (emulator : EmulatorType) (apiType : APIType) (tokenType : TokenType)
    (tokenFormat : String) (host : HostDesc) : Client :=
  { emulator := emulator, apiType := apiType, host := host, tokenType := tokenType,
    tokenFormat := tokenFormat, autoincrement := 0 }

/-- Go `func NewDefaultClient(emulator EmulatorType, apiType APIType) *Client` -/
def NewDefaultClient (emulator : EmulatorType) (apiType : APIType) : Client :=
  NewCustomClient emulator apiType TokenTypeAutoIncrement WS_DEFAULT_TOKEN_FORMAT GetDefaultHost

/-- Go `func (c *Client) GetAPIAddr(host string, port int) string` -/
def Client.GetAPIAddr (c : Client) (host : String) (port : Int) : Option String :=
  Sprintf "%s:%d" [Operand.str "string" host, Operand.int "int" port]

/-- Go `func (c *Client) GetAPIEndpoint(api APIType) string` -/
def Client.GetAPIEndpoint (c : Client) (api : APIType) : String :=
  api

/-- Go `func (c *Client) GetURL() string` -/
def Client.GetURL (c : Client) : Option String :=
  (c.GetAPIAddr c.host.hostName c.host.port).map (fun addr =>
    URL.String
      { Scheme := c.host.scheme, Host := addr, Path := c.GetAPIEndpoint c.apiType })

/-- Go `func (c *Client) GetAPIFn(apiPathFmt APIFn) string` -/
def Client.GetAPIFn (c : Client) (apiPathFmt : APIFn) : Option String :=
  if stringsContains apiPathFmt "%s" then
    Sprintf apiPathFmt [Operand.str "c64dws.EmulatorType" c.emulator]
  else
    some apiPathFmt

/-- The value of an `int64` after an operation whose exact result is `z`:
`z` wrapped into `-2^63 .. 2^63 - 1`. -/
def wrapInt64 (z : Int) : Int :=
  (z + 2 ^ 63) % 2 ^ 64 - 2 ^ 63

/-- Go `func (c *Client) GetToken(tokenFormat ...string) string`: the token
and the client after the call.  `uuidNew` is the value of
`uuid.New().String()` at the call; the result `Except.error` is the panic with
the given message. -/
def Client.GetToken (c : Client) (tokenFormat : List String) (uuidNew : String) :
    Except String (Option String × Client) :=
  let tokenFormatStr := if tokenFormat.length > 0 then tokenFormat.getD 0 "" else c.tokenFormat
  if c.tokenType = TokenTypeUUID then
    Except.ok (Sprintf tokenFormatStr [Operand.str "string" uuidNew], c)
  else if c.tokenType = TokenTypeAutoIncrement then
    let c := { c with autoincrement := wrapInt64 (c.autoincrement + 1) }
    Except.ok (Sprintf tokenFormatStr [Operand.int "int64" c.autoincrement], c)
  else
    Except.error "Unknown token type"

end C64dws

namespace C64dws
open GoStd

/-- Go `ServerEventTypeBreakpoint ServerEventType = "breakpoint"` -/
def ServerEventTypeBreakpoint : String := "breakpoint"

/-- Go `BreakpointEventRaster BreakpointEventType = "rasterLine"` -/
def BreakpointEventRaster : String := "rasterLine"

/-- Go `BreakpointEventCPUData BreakpointEventType = "data"` -/
def BreakpointEventCPUData : String := "data"

/-- Go `BreakpointEventCPUAddr BreakpointEventType = "addr"` -/
def BreakpointEventCPUAddr : String := "addr"

/-- Go `type ServerEventBase struct` -/
structure ServerEventBase where
  Event : String
deriving DecidableEq

/-- Go `type BreakpointEventBase struct`; the field `Type` of the Go struct is
`Typ` here. -/
structure BreakpointEventBase extends ServerEventBase where
  Typ : String
  BreakpointId : Nat
  Platform : String
deriving DecidableEq

/-- Go `type RasterBreakpointEvent struct` -/
structure RasterBreakpointEvent extends BreakpointEventBase where
  RasterLine : Nat
deriving DecidableEq

/-- Go `type CPUAddrBreakpointEvent struct` (CPU Address breakpoint event) -/
structure CPUAddrBreakpointEvent extends BreakpointEventBase where
  Segment : Nat
deriving DecidableEq

/-- Go `type CPUDataBreakpointEvent struct` (CPU Data breakpoint event) -/
structure CPUDataBreakpointEvent extends BreakpointEventBase where
  Segment : Nat
deriving DecidableEq

/-- A decoded JSON value as `encoding/json` stores it in an `any`: `nil`, a
`bool`, a `float64` (read as an exact number), a `string`, a `[]any` or a
`map[string]any`. -/
inductive JSONValue where
  | null
  | bool (b : Bool)
  | number (x : ℚ)
  | string (s : String)
  | array (items : List JSONValue)
  | object (fields : List (String × JSONValue))

/-- Go `type Result map[string]any` -/
abbrev Result := List (String × JSONValue)

/-- Go `type RequestResultBase struct` -/
structure RequestResultBase where
  Status : Int

/-- Go `type RequestResult struct` -/
structure RequestResult extends RequestResultBase where
  Token : String
  Result : Option Result
  BinaryData : List Nat

/-- Go `type RequestError struct` -/
structure RequestError extends RequestResultBase where
  Error : String

/-- A value of the Go type `any` as `ReceiveMessage` returns it and
`GetResultOrError` receives it: `nil`, a value of one of the six struct types,
or a value of some other dynamic type. -/
inductive Message where
  | nil
  | BreakpointEventBase (v : BreakpointEventBase)
  | RasterBreakpointEvent (v : RasterBreakpointEvent)
  | CPUAddrBreakpointEvent (v : CPUAddrBreakpointEvent)
  | CPUDataBreakpointEvent (v : CPUDataBreakpointEvent)
  | RequestResult (v : RequestResult)
  | RequestError (v : RequestError)
  | other (typeName : String)

/-- What `json.Unmarshal(data, &v)` of the Go standard library does for a
zero-valued `v` of each struct type that `ReceiveMessage` decodes into: the
decoded value, or the message of the error. -/
structure Unmarshal where
  intoServerEventBase : List Nat → Except String ServerEventBase
  intoBreakpointEventBase : List Nat → Except String BreakpointEventBase
  intoRasterBreakpointEvent : List Nat → Except String RasterBreakpointEvent
  intoCPUAddrBreakpointEvent : List Nat → Except String CPUAddrBreakpointEvent
  intoCPUDataBreakpointEvent : List Nat → Except String CPUDataBreakpointEvent
  intoRequestResultBase : List Nat → Except String RequestResultBase
  intoRequestResult : List Nat → Except String RequestResult
  intoRequestError : List Nat → Except String RequestError

/-- Go `bytes.IndexByte(b, c)`: the index of the first `c` in `b`, or `-1`. -/
def bytesIndexByte (b : List Nat) (c : Nat) : Int :=
  if c ∈ b then (b.indexOf c : Int) else -1

/-- Go `func (c *Client) getRAWMessage() (WSMessageType, []byte, []byte,
error)`; `read` is the result `(messageType, message, err)` of
`c.conn.ReadMessage()`. -/
def Client.getRAWMessage (c : Client) (read : Int × List Nat × Option String) :
    Int × List Nat × List Nat × Option String :=
  let messageType := read.1
  let message := read.2.1
  match read.2.2 with
  | some err => (messageType, [], [], some err)
  | none =>
    if messageType = TextMessage then
      (messageType, message, [], none)
    else if messageType = BinaryMessage then
      let endOfTextPartOffset := bytesIndexByte message 0
      if endOfTextPartOffset = -1 then
        (messageType, message, [], none)
      else
        let textPart := message.take endOfTextPartOffset.toNat
        let binaryPart :=
          if endOfTextPartOffset < (message.length : Int) - 1 then
            message.drop (endOfTextPartOffset.toNat + 1)
          else []
        (messageType, textPart, binaryPart, none)
    else
      (messageType, [], [], none)

/-- Go `func (c *Client) ReceiveMessage() (C64DMessageType, any, error)`;
`json` is the behaviour of `json.Unmarshal` and `read` the result of
`c.conn.ReadMessage()`. -/
def Client.ReceiveMessage (c : Client) (json : Unmarshal)
    (read : Int × List Nat × Option String) : C64DMessageType × Message × Option String :=
  match c.getRAWMessage read with
  | (_, _, _, some err) => (C64DUnknown, Message.nil, some err)
  | (msgType, textPart, binaryPart, none) =>
    if msgType = TextMessage then
      match json.intoServerEventBase textPart with
      | Except.error err => (C64DUnknown, Message.nil, some err)
      | Except.ok serverEvent =>
        if serverEvent.Event = ServerEventTypeBreakpoint then
          match json.intoBreakpointEventBase textPart with
          | Except.error err => (C64DServerEvent, Message.nil, some err)
          | Except.ok breakpointEvent =>
            if breakpointEvent.Typ = BreakpointEventRaster then
              match json.intoRasterBreakpointEvent textPart with
              | Except.error err => (C64DServerEvent, Message.nil, some err)
              | Except.ok rasterBreakpointEvent =>
                (C64DServerEvent, Message.RasterBreakpointEvent rasterBreakpointEvent, none)
            else if breakpointEvent.Typ = BreakpointEventCPUData then
              match json.intoCPUAddrBreakpointEvent textPart with
              | Except.error err => (C64DServerEvent, Message.nil, some err)
              | Except.ok cpuAddrBreakpointEvent =>
                (C64DServerEvent, Message.CPUAddrBreakpointEvent cpuAddrBreakpointEvent, none)
            else if breakpointEvent.Typ = BreakpointEventCPUAddr then
              match json.intoCPUDataBreakpointEvent textPart with
              | Except.error err => (C64DServerEvent, Message.nil, some err)
              | Except.ok cpuDataBreakpointEvent =>
                (C64DServerEvent, Message.CPUDataBreakpointEvent cpuDataBreakpointEvent, none)
            else
              (C64DServerEvent, Message.BreakpointEventBase breakpointEvent, none)
        else
          (C64DUnknown, Message.nil, none)
    else if msgType = BinaryMessage then
      match json.intoRequestResultBase textPart with
      | Except.error err => (C64DRequestResponse, Message.nil, some err)
      | Except.ok requestResultBase =>
        if requestResultBase.Status = 200 then
          match json.intoRequestResult textPart with
          | Except.error err => (C64DRequestResponse, Message.nil, some err)
          | Except.ok requestResult =>
            (C64DRequestResponse,
              Message.RequestResult { requestResult with BinaryData := binaryPart }, none)
        else
          match json.intoRequestError textPart with
          | Except.error err => (C64DRequestResponse, Message.nil, some err)
          | Except.ok requestError =>
            (C64DRequestResponse, Message.RequestError requestError, none)
    else
      (C64DUnknown, Message.nil, some "Unknown message type")

/-- Go `func GetResultOrError(msg any) (*RequestResult, *RequestError)`; a
`nil` pointer is `none`. -/
def GetResultOrError (msg : Message) : Option RequestResult × Option RequestError :=
  match msg with
  | Message.RequestResult v => (some v, none)
  | Message.RequestError v => (none, some v)
  | _ => (none, none)

end C64dws

namespace C64dws
open GoStd

/-- The client after the first `n` calls of a sequence of `GetToken` calls on
`c`.  The call number `k` (`k = 1, 2, ...`) has the arguments `calls k`: the
format arguments and the value of `uuid.New().String()`.  A call that panics
leaves the client as it was. -/
def Client.afterGetTokenCalls (c : Client) (calls : Nat → List String × String) : Nat → Client
  | 0 => c
  | n + 1 =>
    match (Client.afterGetTokenCalls c calls n).GetToken (calls (n + 1)).1 (calls (n + 1)).2 with
    | Except.ok r => r.2
    | Except.error _ => Client.afterGetTokenCalls c calls n

/-- The result of the call number `n` (`n ≥ 1`) of a sequence of `GetToken`
calls on `c`. -/
def Client.nthGetToken (c : Client) (calls : Nat → List String × String) (n : Nat) :
    Except String (Option String × Client) :=
  (c.afterGetTokenCalls calls (n - 1)).GetToken (calls n).1 (calls n).2

/-- The bytes of a text of ASCII characters. -/
def asciiBytes (s : String) : List Nat :=
  s.data.map Char.toNat

/-- A behaviour of `json.Unmarshal` that is given by its answers on the one
input `text`, and that reports an error on every other input. -/
def Unmarshal.single (text : List Nat) (serverEventBase : ServerEventBase)
    (breakpointEventBase : BreakpointEventBase) (rasterBreakpointEvent : RasterBreakpointEvent)
    (cpuAddrBreakpointEvent : CPUAddrBreakpointEvent)
    (cpuDataBreakpointEvent : CPUDataBreakpointEvent) (requestResultBase : RequestResultBase)
    (requestResult : RequestResult) (requestError : RequestError) : Unmarshal :=
  { intoServerEventBase := fun data =>
      if data = text then Except.ok serverEventBase else Except.error "invalid input"
    intoBreakpointEventBase := fun data =>
      if data = text then Except.ok breakpointEventBase else Except.error "invalid input"
    intoRasterBreakpointEvent := fun data =>
      if data = text then Except.ok rasterBreakpointEvent else Except.error "invalid input"
    intoCPUAddrBreakpointEvent := fun data =>
      if data = text then Except.ok cpuAddrBreakpointEvent else Except.error "invalid input"
    intoCPUDataBreakpointEvent := fun data =>
      if data = text then Except.ok cpuDataBreakpointEvent else Except.error "invalid input"
    intoRequestResultBase := fun data =>
      if data = text then Except.ok requestResultBase else Except.error "invalid input"
    intoRequestResult := fun data =>
      if data = text then Except.ok requestResult else Except.error "invalid input"
    intoRequestError := fun data =>
      if data = text then Except.ok requestError else Except.error "invalid input" }

/-- The fields that every breakpoint event struct decodes from
`sampleDataBreakpointText`. -/
def sampleDataBreakpointBase : BreakpointEventBase :=
  { Event := "breakpoint", Typ := "data", BreakpointId := 1, Platform := "c64" }

/-- The text of a server event for a CPU data breakpoint:
an object with the members `event` = `breakpoint`, `type` = `data`,
`breakpointId` = 1, `platform` = `c64` and `segment` = 2. -/
def sampleDataBreakpointText : List Nat :=
  asciiBytes
    "\x7b\"event\":\"breakpoint\",\"type\":\"data\",\"breakpointId\":1,\"platform\":\"c64\",\"segment\":2\x7d"

/-- The answers of `json.Unmarshal` on `sampleDataBreakpointText`: each struct
receives the members that it declares, every other field keeps its zero
value. -/
def sampleDataBreakpointJSON : Unmarshal :=
  Unmarshal.single sampleDataBreakpointText { Event := "breakpoint" } sampleDataBreakpointBase
    { sampleDataBreakpointBase with RasterLine := 0 }
    { sampleDataBreakpointBase with Segment := 2 }
    { sampleDataBreakpointBase with Segment := 2 }
    { Status := 0 } { Status := 0, Token := "", Result := none, BinaryData := [] }
    { Status := 0, Error := "" }

/-- The zero value of `BreakpointEventBase`. -/
def zeroBreakpointEventBase : BreakpointEventBase :=
  { Event := "", Typ := "", BreakpointId := 0, Platform := "" }

/-- The text part of a successful response: an object with the members
`status` = 200, `token` = `id-1` and `result` = an object with `pc` = 2049. -/
def sampleResultText : List Nat :=
  asciiBytes "\x7b\"status\":200,\"token\":\"id-1\",\"result\":\x7b\"pc\":2049\x7d\x7d"

/-- The answers of `json.Unmarshal` on `sampleResultText`. -/
def sampleResultJSON : Unmarshal :=
  Unmarshal.single sampleResultText { Event := "" } zeroBreakpointEventBase
    { zeroBreakpointEventBase with RasterLine := 0 }
    { zeroBreakpointEventBase with Segment := 0 }
    { zeroBreakpointEventBase with Segment := 0 }
    { Status := 200 }
    { Status := 200, Token := "id-1", Result := some [("pc", JSONValue.number 2049)],
      BinaryData := [] }
    { Status := 200, Error := "" }

/-- The text part of an error response: an object with the members
`status` = 400 and `error` = `unknown function`. -/
def sampleErrorText : List Nat :=
  asciiBytes "\x7b\"status\":400,\"error\":\"unknown function\"\x7d"

/-- The answers of `json.Unmarshal` on `sampleErrorText`. -/
def sampleErrorJSON : Unmarshal :=
  Unmarshal.single sampleErrorText { Event := "" } zeroBreakpointEventBase
    { zeroBreakpointEventBase with RasterLine := 0 }
    { zeroBreakpointEventBase with Segment := 0 }
    { zeroBreakpointEventBase with Segment := 0 }
    { Status := 400 }
    { Status := 400, Token := "", Result := none, BinaryData := [] }
    { Status := 400, Error := "unknown function" }

end C64dws

namespace Effects
open Vc64 Drawing Transform

/-- The directed edges of a face: the pairs of cyclically consecutive entries
of its vertex list. -/
def faceEdges (f : List Nat) : List (Nat × Nat) :=
  (List.range f.length).map (fun k => (f.getD k 0, f.getD ((k + 1) % f.length) 0))

/-- The directed edges of all faces of a face table, each with the index of
its face: `(face, a, b)` for the edge `a -> b`. -/
def directedFaceEdges (fs : List (List Nat)) : List (Nat × Nat × Nat) :=
  (List.range fs.length).flatMap
    (fun i => (faceEdges (fs.getD i [])).map (fun e => (i, e.1, e.2)))

/-- Two vectors that differ in exactly one coordinate. -/
def differInOneCoordinate {K : Type} (v w : Vector3D K) : Prop :=
  (v.X ≠ w.X ∧ v.Y = w.Y ∧ v.Z = w.Z) ∨ (v.X = w.X ∧ v.Y ≠ w.Y ∧ v.Z = w.Z) ∨
    (v.X = w.X ∧ v.Y = w.Y ∧ v.Z ≠ w.Z)

end Effects

namespace C64dws
open GoStd

/-- Go `type RequestPayloadBase struct`.  The type `Params` of the Go struct,
a `map[string]any`, is the type parameter; a `nil` pointer is `none`. -/
structure RequestPayloadBase (Params : Type) where
  Fn : String
  Params : Option Params

/-- Go `type RequestPayloadWithToken struct` -/
structure RequestPayloadWithToken (Params : Type) extends RequestPayloadBase Params where
  Token : String

/-- The value of `var requestPayload any` in `prepareMessage`: a
`RequestPayloadBase` or a `RequestPayloadWithToken`. -/
inductive RequestPayload (Params : Type) where
  | base (v : RequestPayloadBase Params)
  | withToken (v : RequestPayloadWithToken Params)

/-- Go `func (c *Client) prepareMessage(apiFn APIFn, params *Params,
binaryData []byte, token string) ([]byte, error)`.  `marshal` is the behaviour
of `json.Marshal` on the payload; `binaryData` is `none` for the `nil` slice.
The result is `none` when the path format is outside the formats that the
model of `fmt.Sprintf` describes. -/
def Client.prepareMessage {Params : Type} (c : Client)
    (marshal : RequestPayload Params → Except String (List Nat)) (apiFn : APIFn)
    (params : Option Params) (binaryData : Option (List Nat)) (token : String) :
    Option (List Nat × Option String) :=
  (c.GetAPIFn apiFn).map (fun fn =>
    let requestPayloadBase : RequestPayloadBase Params := { Fn := fn, Params := params }
    let requestPayload : RequestPayload Params :=
      if token = "" then RequestPayload.base requestPayloadBase
      else RequestPayload.withToken
        { toRequestPayloadBase := requestPayloadBase, Token := token }
    match marshal requestPayload with
    | Except.error err => ([], some err)
    | Except.ok requestPayloadBytes =>
      match binaryData with
      | some data => (requestPayloadBytes ++ [0] ++ data, none)
      | none => (requestPayloadBytes, none))

end C64dws

namespace GoStd

/-- Go `fmt.Sprintf("%x", v)` for an operand of an unsigned integer type: the
digits of `v` in base 16, in lower case and without padding (`0` for zero). -/
def sprintfHex (v : Nat) : String :=
  String.mk (Nat.toDigits 16 v)

end GoStd

namespace Vc64
open GoStd

/-- Go `func UInt8ToHexString(inputValue byte, prefix string, postfix string)
string`; the parameters `prefix` and `postfix` are `pre` and `post` here. -/
def UInt8ToHexString (inputValue : Nat) (pre post : String) : String :=
  let bytesReadHexStr := sprintfHex inputValue
  if bytesReadHexStr.length = 1 then
    pre ++ "0" ++ bytesReadHexStr
  else
    pre ++ bytesReadHexStr ++ post

/-- Go `func UInt16ToHexString(inputValue uint16, prefix string, postfix
string) string`; the parameters `prefix` and `postfix` are `pre` and `post`
here. -/
def UInt16ToHexString (inputValue : Nat) (pre post : String) : String :=
  let bytesReadHexStr := sprintfHex inputValue
  let length := bytesReadHexStr.length
  let bytesReadHexStr :=
    if bytesReadHexStr.length < 4 then
      countedLoop 0 (4 - length) (fun _ s => "0" ++ s) bytesReadHexStr
    else bytesReadHexStr
  pre ++ bytesReadHexStr ++ post

/-- The lower-case hexadecimal digit of a value below 16. -/
def lowerHexDigit (d : Nat) : Char :=
  "0123456789abcdef".data.getD d '0'

/-- The `width`-digit, zero-padded, lower-case hexadecimal form of `v` in the
words of the specification: the digit number `i` from the left is the value of
`v / 16^(width-1-i)` modulo 16. -/
def zeroPaddedHex (width v : Nat) : String :=
  String.mk ((List.range width).map (fun i => lowerHexDigit (v / 16 ^ (width - 1 - i) % 16)))

end Vc64

namespace Drawing
open Vc64

/-! ### The clipped rasterizer with the float64 rounding explicit -/

/-- Rounding of an exact value to the nearest integer, a tie going to the even
integer. -/
def roundHalfEven (r : ℚ) : ℤ :=
  if r - ⌊r⌋ < 1 / 2 then ⌊r⌋
  else if r - ⌊r⌋ > 1 / 2 then ⌊r⌋ + 1
  else if ⌊r⌋ % 2 = 0 then ⌊r⌋ else ⌊r⌋ + 1

/-- The IEEE 754 binary64 rounding of an exact value, round to nearest with ties
to even: the value is scaled so that the 53-bit significand is an integer,
rounded, and scaled back; below `2^-1022` the spacing of the subnormal numbers
is used.  This is the rounding of the Go `float64` operations `+` and `/`.
Infinities are not modelled: above the `float64` range the value is rounded
like a normal number. -/
def float64Round (q : ℚ) : ℚ :=
  let e : ℤ := max (Int.log 2 |q|) (-1022)
  (roundHalfEven (q / 2 ^ (e - 52)) : ℚ) * 2 ^ (e - 52)

/-- The loop of `lineWalk` with the rounding of the `float64` addition explicit:
`for { if x <= stopX { BODY; y = float64(y) + stepY; x++; continue }; break }`
where the sum `y + stepY` is rounded by `fl` to the `float64` that Go stores.
The increment `x++` is left exact: `x` runs over integers below `2^53`, which
`float64` holds exactly (`float64Round_intCast`). -/
def lineWalkRounded {σ : Type} (fl : ℚ → ℚ) (body : ℚ → ℚ → σ → σ) (stepY stopX : ℚ)
    (x y : ℚ) (s : σ) : σ :=
  if x ≤ stopX then
    lineWalkRounded fl body stepY stopX (x + 1) (fl (y + stepY)) (body x y s)
  else s
termination_by (⌊stopX - x⌋ + 1).toNat
decreasing_by
  simp_wf
  have h : (0 : ℤ) ≤ ⌊stopX - x⌋ := Int.floor_nonneg.mpr (by linarith)
  have e : stopX - (x + 1) = stopX - x - 1 := by ring
  rw [e, Int.floor_sub_one]
  omega

/-- Go `func DrawBitmapLineToFillEvenOddWithClipping(x1, y1, x2, y2 int16,
patternValue byte, startAddr uint16, cols, rows uint16, maxX, maxY uint16,
ram *vc64.C64RAM)` (line_draw.go 201-257) with the `float64` arithmetic read as
IEEE arithmetic: a `float64` is the rational number it stands for, and `fl`
rounds the exact result of an operation to the `float64` that Go stores.  The
two operations whose exact result need not be a `float64` are rounded, the
quotient `deltaY / deltaX` and the sum `y + stepY`; the conversions
`float64(x1)`, the differences `x2f - x1f`, `y2f - y1f`, `x1f - 1` and the
increment `x++` have integer results below `2^53` for `int16` endpoints, which
`float64` holds exactly (`float64Round_intCast`).  With `fl` the identity this
is `DrawBitmapLineToFillEvenOddWithClipping`. -/
def DrawBitmapLineToFillEvenOddWithClippingRounded (fl : ℚ → ℚ) (x1 y1 x2 y2 : Int)
    (patternValue : Nat) (startAddr cols rows maxX maxY : Nat) (ram : C64RAM) : C64RAM :=
  let x1f : ℚ := x1
  let x2f : ℚ := x2
  let y1f : ℚ := y1
  let y2f : ℚ := y2
  let tabPixEven := (getMultiColorTabPixEvenOdd patternValue).1
  let tabPixOdd := (getMultiColorTabPixEvenOdd patternValue).2
  if x1f = x2f then
    ram
  else if x1f > x2f then
    let deltaX := x2f - x1f
    let deltaY := y2f - y1f
    let x := x2f
    let y := y2f
    let stopX := x1f - 1
    let oddBufferOffsetY := 8
    let stepY := fl (deltaY / deltaX)
    lineWalkRounded fl (bitmapEvenOddClipBody tabPixEven tabPixOdd startAddr rows maxX maxY
      oddBufferOffsetY) stepY stopX x y ram
  else
    let deltaX := x1f - x2f
    let deltaY := y1f - y2f
    let x := x1f
    let y := y1f
    let stopX := x2f - 1
    let oddBufferOffsetY := 8
    let stepY := fl (deltaY / deltaX)
    lineWalkRounded fl (bitmapEvenOddClipBody tabPixEven tabPixOdd startAddr rows maxX maxY
      oddBufferOffsetY) stepY stopX x y ram

end Drawing

/-! ## Auxiliary lemmas -/

namespace Vc64

theorem C64RAM.xorAt_eq_xorMask (ram : C64RAM) (a v : Nat) :
    ram.xorAt a v = ram.xorMask (fun b => if b = a then v else 0) := by
  simp only [C64RAM.xorAt, C64RAM.xorMask, C64RAM.CPUBusSetUByte8, C64RAM.CPUBusGetUByte8]
  congr 1
  funext b
  by_cases h : b = a
  · simp [h]
  · simp [h]

theorem C64RAM.xorMask_xorMask (g h : Nat → Nat) (ram : C64RAM) :
    (ram.xorMask h).xorMask g = ram.xorMask (fun a => h a ^^^ g a) := by
  simp only [C64RAM.xorMask, Nat.xor_assoc]

theorem C64RAM.xorMask_self (g : Nat → Nat) (ram : C64RAM) :
    (ram.xorMask g).xorMask g = ram := by
  simp only [C64RAM.xorMask, Nat.xor_assoc, Nat.xor_self, Nat.xor_zero]

theorem C64RAM.xorMask_comm (g h : Nat → Nat) (ram : C64RAM) :
    (ram.xorMask h).xorMask g = (ram.xorMask g).xorMask h := by
  rw [C64RAM.xorMask_xorMask, C64RAM.xorMask_xorMask]
  congr 1
  funext a
  exact Nat.xor_comm _ _

theorem IsXorMap.ident : IsXorMap (fun ram => ram) :=
  ⟨fun _ => 0, fun ram => by simp [C64RAM.xorMask]⟩

theorem IsXorMap.xorAt (a v : Nat) : IsXorMap (fun ram => ram.xorAt a v) :=
  ⟨_, fun ram => ram.xorAt_eq_xorMask a v⟩

theorem IsXorMap.comp {f g : C64RAM → C64RAM} (hf : IsXorMap f) (hg : IsXorMap g) :
    IsXorMap (fun ram => g (f ram)) := by
  obtain ⟨mf, hmf⟩ := hf
  obtain ⟨mg, hmg⟩ := hg
  exact ⟨fun a => mf a ^^^ mg a, fun ram => by show g (f ram) = _; rw [hmf, hmg, C64RAM.xorMask_xorMask]⟩

theorem IsXorMap.xorAt2 (a1 v1 a2 v2 : Nat) :
    IsXorMap (fun ram => (ram.xorAt a1 v1).xorAt a2 v2) :=
  @IsXorMap.comp (fun ram => ram.xorAt a1 v1) (fun ram => ram.xorAt a2 v2)
    (IsXorMap.xorAt a1 v1) (IsXorMap.xorAt a2 v2)

theorem IsXorMap.foldl {ι : Type} (step : ι → C64RAM → C64RAM) (hstep : ∀ i, IsXorMap (step i))
    (l : List ι) : IsXorMap (fun ram => l.foldl (fun r i => step i r) ram) := by
  induction l with
  | nil => exact IsXorMap.ident
  | cons i l ih => exact IsXorMap.comp (hstep i) ih

theorem IsXorMap.twice {f : C64RAM → C64RAM} (hf : IsXorMap f) (ram : C64RAM) :
    f (f ram) = ram := by
  obtain ⟨m, hm⟩ := hf
  rw [hm, hm, C64RAM.xorMask_self]

theorem IsXorMap.commute {f g : C64RAM → C64RAM} (hf : IsXorMap f) (hg : IsXorMap g)
    (ram : C64RAM) : g (f ram) = f (g ram) := by
  obtain ⟨mf, hmf⟩ := hf
  obtain ⟨mg, hmg⟩ := hg
  rw [hmf, hmg, hmg, hmf, C64RAM.xorMask_comm]

end Vc64

namespace Drawing
open Vc64

theorem lineWalk_eq_foldl {σ : Type} (body : ℚ → ℚ → σ → σ) (stepY stopX : ℚ) (n : Nat) :
    ∀ (x y : ℚ) (s : σ), (⌊stopX - x⌋ + 1).toNat = n →
      lineWalk body stepY stopX x y s =
        (List.range n).foldl (fun s (k : Nat) => body (x + (k : ℚ)) (y + (k : ℚ) * stepY) s) s := by
  induction n with
  | zero =>
    intro x y s h
    have hx : ¬ x ≤ stopX := by
      intro hle
      have : (0:ℤ) ≤ ⌊stopX - x⌋ := Int.floor_nonneg.mpr (by linarith)
      omega
    rw [lineWalk, if_neg hx]
    rfl
  | succ n ih =>
    intro x y s h
    have hfl : (0:ℤ) ≤ ⌊stopX - x⌋ := by omega
    have hx : x ≤ stopX := by
      have := Int.floor_nonneg.mp hfl
      linarith
    have hrec : (⌊stopX - (x + 1)⌋ + 1).toNat = n := by
      have : stopX - (x + 1) = stopX - x - 1 := by ring
      rw [this, Int.floor_sub_one]
      omega
    rw [lineWalk, if_pos hx, ih (x + 1) (y + stepY) (body x y s) hrec,
      List.range_succ_eq_map, List.foldl_cons, List.foldl_map]
    simp only [Nat.cast_zero, add_zero, zero_mul, Nat.cast_succ]
    congr 1
    funext s k
    congr 1 <;> ring

theorem lineWalk_isXorMap (body : ℚ → ℚ → C64RAM → C64RAM) (hbody : ∀ x y, IsXorMap (body x y))
    (stepY stopX x y : ℚ) : IsXorMap (lineWalk body stepY stopX x y) := by
  have h := IsXorMap.foldl (fun (k : Nat) => body (x + (k : ℚ)) (y + (k : ℚ) * stepY))
    (fun k => hbody _ _) (List.range (⌊stopX - x⌋ + 1).toNat)
  obtain ⟨m, hm⟩ := h
  exact ⟨m, fun ram => by rw [lineWalk_eq_foldl body stepY stopX _ x y ram rfl]; exact hm ram⟩

theorem charsNormalBody_isXorMap (tabPix : List Nat) (startAddr rows : Nat) (x y : ℚ) :
    IsXorMap (charsNormalBody tabPix startAddr rows x y) :=
  IsXorMap.xorAt _ _

theorem bitmapNormalBody_isXorMap (tabPix : List Nat) (startAddr : Nat) (x y : ℚ) :
    IsXorMap (bitmapNormalBody tabPix startAddr x y) :=
  IsXorMap.xorAt _ _

theorem bitmapEvenOddBody_isXorMap (te tb : List Nat) (startAddr rows : Nat) (x y : ℚ) :
    IsXorMap (bitmapEvenOddBody te tb startAddr rows x y) :=
  IsXorMap.xorAt2 _ _ _ _

theorem bitmapEvenOddClipBody_isXorMap (te tb : List Nat) (startAddr rows maxX maxY off : Nat)
    (x y : ℚ) : IsXorMap (bitmapEvenOddClipBody te tb startAddr rows maxX maxY off x y) := by
  unfold bitmapEvenOddClipBody
  by_cases h : x ≥ 0 ∧ x < (maxX : ℚ)
  · simp only [h, and_self, if_true]
    exact IsXorMap.xorAt2 _ _ _ _
  · simp only [h, if_false]
    exact IsXorMap.ident

theorem DrawCharsLineToFillNormal_isXorMap (x1 y1 x2 y2 color startAddr rows : Nat) :
    IsXorMap (DrawCharsLineToFillNormal x1 y1 x2 y2 color startAddr rows) := by
  unfold DrawCharsLineToFillNormal
  simp only
  split_ifs
  · exact IsXorMap.ident
  · exact lineWalk_isXorMap _ (charsNormalBody_isXorMap _ _ _) _ _ _ _
  · exact lineWalk_isXorMap _ (charsNormalBody_isXorMap _ _ _) _ _ _ _

theorem f2u16_of_nonneg (q : ℚ) (h : 0 ≤ q) : f2u16 q = ⌊q⌋₊ % 65536 := by
  have hnum : 0 ≤ q.num := Rat.num_nonneg.mpr h
  have h1 : truncQ q = ⌊q⌋ := by
    rw [truncQ, Int.tdiv_eq_ediv hnum (Int.ofNat_nonneg _), Rat.floor_def]
  have h2 : ⌊q⌋ = ((⌊q⌋₊ : ℕ) : ℤ) := (Int.natCast_floor_eq_floor h).symm
  rw [f2u16, h1, h2]
  omega

theorem f2u16_intCast (z : ℤ) (hz : 0 ≤ z) : f2u16 (z : ℚ) = z.toNat % 65536 := by
  rw [f2u16_of_nonneg _ (by exact_mod_cast hz), ← Int.floor_toNat, Int.floor_intCast]

theorem mod_and_of_lt (n m : Nat) (hm : m < 65536) : (n % 65536) &&& m = n &&& m := by
  have e : n % 65536 = n &&& (2 ^ 16 - 1) := (Nat.and_pow_two_sub_one_eq_mod n 16).symm
  rw [e, Nat.and_assoc]
  congr 1
  have hm' : m < 2 ^ 16 := hm
  rw [Nat.and_comm]
  exact Nat.and_pow_two_sub_one_of_lt_two_pow hm'

theorem rowOffset_mod (s a r r' : Nat) (h : r % 65536 = r' % 65536) :
    (s + a + ((r >>> 3) * 320) + (r &&& 0b00000111)) % 65536 =
      (s + a + ((r' >>> 3) * 320) + (r' &&& 0b00000111)) % 65536 := by
  have e7 : ∀ n : Nat, n &&& 0b00000111 = n % 8 := fun n => Nat.and_pow_two_sub_one_eq_mod n 3
  rw [e7, e7, Nat.shiftRight_eq_div_pow, Nat.shiftRight_eq_div_pow]
  norm_num
  omega


/-- The endpoint ordering shared by the four rasterizers followed by the walk,
as a fold over the steps. -/
theorem orderedWalk_eq_foldl {σ : Type} (body : ℚ → ℚ → σ → σ) (x1 y1 x2 y2 : ℤ) (s : σ) :
    (if (x1 : ℚ) = (x2 : ℚ) then s
      else if (x1 : ℚ) > (x2 : ℚ) then
        lineWalk body (((y2 : ℚ) - (y1 : ℚ)) / ((x2 : ℚ) - (x1 : ℚ))) ((x1 : ℚ) - 1) x2 y2 s
      else
        lineWalk body (((y1 : ℚ) - (y2 : ℚ)) / ((x1 : ℚ) - (x2 : ℚ))) ((x2 : ℚ) - 1) x1 y1 s) =
      (List.range (max x1 x2 - min x1 x2).toNat).foldl
        (fun s (k : ℕ) =>
          body (((min x1 x2 + (k : ℤ) : ℤ)) : ℚ)
            ((if x1 < x2 then (y1 : ℚ) else (y2 : ℚ))
              + (k : ℚ) * (((y2 : ℚ) - (y1 : ℚ)) / ((x2 : ℚ) - (x1 : ℚ)))) s) s := by
  have hmeasure : ∀ lo hi : ℤ, lo < hi →
      (⌊((hi : ℚ) - 1) - (lo : ℚ)⌋ + 1).toNat = (hi - lo).toNat := by
    intro lo hi _
    have e : ((hi : ℚ) - 1) - (lo : ℚ) = ((hi - 1 - lo : ℤ) : ℚ) := by push_cast; ring
    rw [e, Int.floor_intCast]
    congr 1
    ring
  rcases lt_trichotomy x1 x2 with h | h | h
  · have hq : (x1 : ℚ) < (x2 : ℚ) := by exact_mod_cast h
    rw [if_neg (ne_of_lt hq), if_neg (not_lt.mpr (le_of_lt hq)),
      lineWalk_eq_foldl body _ _ _ _ _ _ (hmeasure x1 x2 h), max_eq_right (le_of_lt h),
      min_eq_left (le_of_lt h)]
    have e : ((y1 : ℚ) - (y2 : ℚ)) / ((x1 : ℚ) - (x2 : ℚ)) =
        ((y2 : ℚ) - (y1 : ℚ)) / ((x2 : ℚ) - (x1 : ℚ)) := by
      rw [← neg_sub (y2 : ℚ), ← neg_sub (x2 : ℚ), neg_div_neg_eq]
    simp only [if_pos h, Int.cast_add, Int.cast_natCast, e]
  · subst h
    simp
  · have hq : (x2 : ℚ) < (x1 : ℚ) := by exact_mod_cast h
    rw [if_neg (ne_of_gt hq), if_pos hq,
      lineWalk_eq_foldl body _ _ _ _ _ _ (hmeasure x2 x1 h), max_eq_left (le_of_lt h),
      min_eq_right (le_of_lt h)]
    simp only [if_neg (not_lt.mpr (le_of_lt h)), Int.cast_add, Int.cast_natCast]


theorem bitmapByteAddr_congr (s xa xb ra rb : Nat) (hx : xa % 65536 = xb % 65536)
    (hr : ra % 65536 = rb % 65536) :
    (s + ((xa &&& 0b11111100) <<< 1) + ((ra >>> 3) * 320) + (ra &&& 0b00000111)) % 65536 =
      bitmapByteAddr s xb rb := by
  have hx' : xa &&& 0b11111100 = xb &&& 0xFC := by
    rw [← mod_and_of_lt xa _ (by decide), hx, mod_and_of_lt xb _ (by decide)]
  rw [hx', bitmapByteAddr]
  exact rowOffset_mod s _ ra rb hr

theorem clamp_eq (y : ℚ) (maxY : Nat) :
    (if (if y < 0 then 0 else y) > (maxY : ℚ) then (maxY : ℚ) else (if y < 0 then 0 else y)) =
      max 0 (min y (maxY : ℚ)) := by
  have hm : (0 : ℚ) ≤ (maxY : ℚ) := Nat.cast_nonneg _
  by_cases h0 : y < 0
  · rw [if_pos h0, if_neg (not_lt.mpr hm), min_eq_left (le_trans (le_of_lt h0) hm),
      max_eq_left (le_of_lt h0)]
  · rw [if_neg h0]
    by_cases h1 : y > (maxY : ℚ)
    · rw [if_pos h1, min_eq_right (le_of_lt h1), max_eq_right hm]
    · rw [if_neg h1, min_eq_left (not_lt.mp h1), max_eq_right (not_lt.mp h0)]

theorem bitmapEvenOddClipBody_eq (p startAddr rows maxX maxY : Nat) (z : ℤ) (y : ℚ)
    (ram : C64RAM) :
    bitmapEvenOddClipBody (getMultiColorTabPixEvenOdd p).1 (getMultiColorTabPixEvenOdd p).2
        startAddr rows maxX maxY 8 (z : ℚ) y ram =
      clippedStep p startAddr rows maxX maxY z y ram := by
  unfold bitmapEvenOddClipBody clippedStep
  simp only [clamp_eq]
  by_cases hz : 0 ≤ z ∧ z < (maxX : ℤ)
  · have hq : (z : ℚ) ≥ 0 ∧ (z : ℚ) < (maxX : ℚ) := by
      constructor
      · exact_mod_cast hz.1
      · exact_mod_cast hz.2
    have hx := f2u16_intCast z hz.1
    have hy := f2u16_of_nonneg (max 0 (min y (maxY : ℚ))) (le_max_left _ _)
    rw [if_pos hq, if_pos hz]
    have hi : f2u16 (z : ℚ) &&& 3 = z.toNat &&& 3 := by
      rw [hx, mod_and_of_lt _ _ (by decide)]
    have ha1 := bitmapByteAddr_congr startAddr (f2u16 (z : ℚ)) z.toNat
      (f2u16 (max 0 (min y (maxY : ℚ)))) ⌊max 0 (min y (maxY : ℚ))⌋₊
      (by rw [hx, Nat.mod_mod]) (by rw [hy, Nat.mod_mod])
    have ha2 := bitmapByteAddr_congr startAddr (f2u16 (z : ℚ)) z.toNat
      ((f2u16 (max 0 (min y (maxY : ℚ))) + rows / 2 + 8) % 65536)
      (⌊max 0 (min y (maxY : ℚ))⌋₊ + rows / 2 + 8)
      (by rw [hx, Nat.mod_mod]) (by rw [hy]; omega)
    simp only [C64RAM.xorAt, ha1, ha2, hi]
  · have hq : ¬ ((z : ℚ) ≥ 0 ∧ (z : ℚ) < (maxX : ℚ)) := by
      intro h
      apply hz
      constructor
      · exact_mod_cast h.1
      · exact_mod_cast h.2
    rw [if_neg hq, if_neg hz]

theorem clipped_eq_foldl (x1 y1 x2 y2 : ℤ) (p startAddr cols rows maxX maxY : Nat)
    (ram : C64RAM) :
    DrawBitmapLineToFillEvenOddWithClipping x1 y1 x2 y2 p startAddr cols rows maxX maxY ram =
      (List.range (max x1 x2 - min x1 x2).toNat).foldl
        (fun r (k : ℕ) =>
          clippedStep p startAddr rows maxX maxY (min x1 x2 + (k : ℤ))
            ((if x1 < x2 then (y1 : ℚ) else (y2 : ℚ))
              + (k : ℚ) * (((y2 : ℚ) - (y1 : ℚ)) / ((x2 : ℚ) - (x1 : ℚ)))) r) ram := by
  unfold DrawBitmapLineToFillEvenOddWithClipping
  simp only
  rw [orderedWalk_eq_foldl]
  simp only [bitmapEvenOddClipBody_eq]


theorem runningY_nonneg_aux (a b d k : ℚ) (ha : 0 ≤ a) (hb : 0 ≤ b) (hd : 0 < d) (hk0 : 0 ≤ k)
    (hkd : k ≤ d) : 0 ≤ a + k * ((b - a) / d) := by
  have e : a + k * ((b - a) / d) = (a * (d - k) + k * b) / d := by
    field_simp
    ring
  rw [e]
  exact div_nonneg (add_nonneg (mul_nonneg ha (by linarith)) (mul_nonneg hk0 hb)) (le_of_lt hd)

theorem runningY_nonneg (x1 y1 x2 y2 k : ℕ) (hk : k < max x1 x2 - min x1 x2) :
    0 ≤ (if (x1 : ℤ) < (x2 : ℤ) then (y1 : ℚ) else (y2 : ℚ))
      + (k : ℚ) * (((y2 : ℚ) - (y1 : ℚ)) / ((x2 : ℚ) - (x1 : ℚ))) := by
  have hk0 : (0 : ℚ) ≤ (k : ℚ) := Nat.cast_nonneg _
  by_cases h : x1 < x2
  · rw [if_pos (by exact_mod_cast h)]
    have hkd : k < x2 - x1 := by omega
    have hd : (0 : ℚ) < (x2 : ℚ) - (x1 : ℚ) := by
      have : (x1 : ℚ) < (x2 : ℚ) := by exact_mod_cast h
      linarith
    have hkq : (k : ℚ) ≤ (x2 : ℚ) - (x1 : ℚ) := by
      have : ((k + x1 : ℕ) : ℚ) ≤ (x2 : ℚ) := by exact_mod_cast (by omega : k + x1 ≤ x2)
      push_cast at this
      linarith
    exact runningY_nonneg_aux _ _ _ _ (Nat.cast_nonneg _) (Nat.cast_nonneg _) hd hk0 hkq
  · rw [if_neg (by exact_mod_cast h)]
    have hlt : x2 < x1 := by omega
    have hd : (0 : ℚ) < (x1 : ℚ) - (x2 : ℚ) := by
      have : (x2 : ℚ) < (x1 : ℚ) := by exact_mod_cast hlt
      linarith
    have hkq : (k : ℚ) ≤ (x1 : ℚ) - (x2 : ℚ) := by
      have : ((k + x2 : ℕ) : ℚ) ≤ (x1 : ℚ) := by exact_mod_cast (by omega : k + x2 ≤ x1)
      push_cast at this
      linarith
    have e : ((y2 : ℚ) - (y1 : ℚ)) / ((x2 : ℚ) - (x1 : ℚ)) =
        ((y1 : ℚ) - (y2 : ℚ)) / ((x1 : ℚ) - (x2 : ℚ)) := by
      rw [← neg_sub (y1 : ℚ), ← neg_sub (x1 : ℚ), neg_div_neg_eq]
    rw [e]
    exact runningY_nonneg_aux _ _ _ _ (Nat.cast_nonneg _) (Nat.cast_nonneg _) hd hk0 hkq

/-- The walk of a rasterizer on `uint16` endpoints as a fold over its steps. -/
theorem natWalk_eq_foldl (body : ℚ → ℚ → C64RAM → C64RAM) (step : ℕ → ℕ → C64RAM → C64RAM)
    (hstep : ∀ (x : ℕ) (y : ℚ) (r : C64RAM), 0 ≤ y → body (x : ℚ) y r = step x ⌊y⌋₊ r)
    (x1 y1 x2 y2 : ℕ) (ram : C64RAM) :
    (if (x1 : ℚ) = (x2 : ℚ) then ram
      else if (x1 : ℚ) > (x2 : ℚ) then
        lineWalk body (((y2 : ℚ) - (y1 : ℚ)) / ((x2 : ℚ) - (x1 : ℚ))) ((x1 : ℚ) - 1) x2 y2 ram
      else
        lineWalk body (((y1 : ℚ) - (y2 : ℚ)) / ((x1 : ℚ) - (x2 : ℚ))) ((x2 : ℚ) - 1) x1 y1 ram) =
      (List.range (max x1 x2 - min x1 x2)).foldl
        (fun r (k : ℕ) =>
          step (min x1 x2 + k)
            ⌊(if x1 < x2 then (y1 : ℚ) else (y2 : ℚ))
              + (k : ℚ) * (((y2 : ℚ) - (y1 : ℚ)) / ((x2 : ℚ) - (x1 : ℚ)))⌋₊ r) ram := by
  have h := orderedWalk_eq_foldl body (x1 : ℤ) (y1 : ℤ) (x2 : ℤ) (y2 : ℤ) ram
  simp only [Int.cast_natCast] at h
  rw [h]
  have hn : (max (x1 : ℤ) (x2 : ℤ) - min (x1 : ℤ) (x2 : ℤ)).toNat = max x1 x2 - min x1 x2 := by
    omega
  rw [hn]
  apply List.foldl_ext
  intro r k hk
  have hk' : k < max x1 x2 - min x1 x2 := List.mem_range.mp hk
  have hx : ((min (x1 : ℤ) (x2 : ℤ) + (k : ℤ) : ℤ) : ℚ) = ((min x1 x2 + k : ℕ) : ℚ) := by
    have : min (x1 : ℤ) (x2 : ℤ) + (k : ℤ) = ((min x1 x2 + k : ℕ) : ℤ) := by omega
    rw [this, Int.cast_natCast]
  rw [hx, hstep _ _ _ (runningY_nonneg x1 y1 x2 y2 k hk')]
  simp only [Nat.cast_lt]

theorem f2u16_natCast (n : ℕ) : f2u16 (n : ℚ) = n % 65536 := by
  rw [f2u16_of_nonneg _ (Nat.cast_nonneg _), Nat.floor_natCast]

theorem bitmapNormalBody_eq (tabPix : List Nat) (startAddr x : ℕ) (y : ℚ) (r : C64RAM)
    (hy : 0 ≤ y) :
    bitmapNormalBody tabPix startAddr (x : ℚ) y r =
      r.xorAt (bitmapByteAddr startAddr x ⌊y⌋₊) (tabPix.getD (x &&& 3) 0) := by
  unfold bitmapNormalBody
  have hx := f2u16_natCast x
  have hyy := f2u16_of_nonneg y hy
  have hi : f2u16 (x : ℚ) &&& 3 = x &&& 3 := by rw [hx, mod_and_of_lt _ _ (by decide)]
  have ha := bitmapByteAddr_congr startAddr (f2u16 (x : ℚ)) x (f2u16 y) ⌊y⌋₊
    (by rw [hx, Nat.mod_mod]) (by rw [hyy, Nat.mod_mod])
  simp only [C64RAM.xorAt, ha, hi]

theorem normal_eq_foldl (x1 y1 x2 y2 color startAddr cols rows : ℕ) (ram : C64RAM) :
    DrawBitmapLineToFillNormal x1 y1 x2 y2 color startAddr cols rows ram =
      (List.range (max x1 x2 - min x1 x2)).foldl
        (fun r (k : ℕ) =>
          r.xorAt
            (bitmapByteAddr startAddr (min x1 x2 + k)
              ⌊(if x1 < x2 then (y1 : ℚ) else (y2 : ℚ))
                + (k : ℚ) * (((y2 : ℚ) - (y1 : ℚ)) / ((x2 : ℚ) - (x1 : ℚ)))⌋₊)
            ((getMultiColorTabPix color).getD ((min x1 x2 + k) &&& 3) 0)) ram := by
  unfold DrawBitmapLineToFillNormal
  simp only
  exact natWalk_eq_foldl _
    (fun x row r => r.xorAt (bitmapByteAddr startAddr x row)
      ((getMultiColorTabPix color).getD (x &&& 3) 0))
    (fun x y r hy => bitmapNormalBody_eq _ startAddr x y r hy) x1 y1 x2 y2 ram


theorem bitmapEvenOddBody_eq (te tb : List Nat) (startAddr rows x : ℕ) (y : ℚ) (r : C64RAM)
    (hy : 0 ≤ y) :
    bitmapEvenOddBody te tb startAddr rows (x : ℚ) y r =
      (r.xorAt (bitmapByteAddr startAddr x ⌊y⌋₊) (te.getD (x &&& 3) 0)).xorAt
        (bitmapByteAddr startAddr x (⌊y⌋₊ + rows / 2)) (tb.getD (x &&& 3) 0) := by
  unfold bitmapEvenOddBody
  have hx := f2u16_natCast x
  have hyy := f2u16_of_nonneg y hy
  have hi : f2u16 (x : ℚ) &&& 3 = x &&& 3 := by rw [hx, mod_and_of_lt _ _ (by decide)]
  have ha1 := bitmapByteAddr_congr startAddr (f2u16 (x : ℚ)) x (f2u16 y) ⌊y⌋₊
    (by rw [hx, Nat.mod_mod]) (by rw [hyy, Nat.mod_mod])
  have ha2 := bitmapByteAddr_congr startAddr (f2u16 (x : ℚ)) x
    ((f2u16 y + rows / 2) % 65536) (⌊y⌋₊ + rows / 2)
    (by rw [hx, Nat.mod_mod]) (by rw [hyy]; omega)
  simp only [C64RAM.xorAt, ha1, ha2, hi]

theorem evenOdd_eq_foldl (x1 y1 x2 y2 p startAddr cols rows : ℕ) (ram : C64RAM) :
    DrawBitmapLineToFillEvenOdd x1 y1 x2 y2 p startAddr cols rows ram =
      (List.range (max x1 x2 - min x1 x2)).foldl
        (fun r (k : ℕ) =>
          evenOddStep p startAddr rows (min x1 x2 + k)
            ⌊(if x1 < x2 then (y1 : ℚ) else (y2 : ℚ))
              + (k : ℚ) * (((y2 : ℚ) - (y1 : ℚ)) / ((x2 : ℚ) - (x1 : ℚ)))⌋₊ r) ram := by
  unfold DrawBitmapLineToFillEvenOdd
  simp only
  exact natWalk_eq_foldl _ (evenOddStep p startAddr rows)
    (fun x y r hy => bitmapEvenOddBody_eq _ _ startAddr rows x y r hy) x1 y1 x2 y2 ram

theorem DrawBitmapLineToFillNormal_isXorMap (x1 y1 x2 y2 color startAddr cols rows : Nat) :
    IsXorMap (DrawBitmapLineToFillNormal x1 y1 x2 y2 color startAddr cols rows) := by
  unfold DrawBitmapLineToFillNormal
  simp only
  split_ifs
  · exact IsXorMap.ident
  · exact lineWalk_isXorMap _ (bitmapNormalBody_isXorMap _ _) _ _ _ _
  · exact lineWalk_isXorMap _ (bitmapNormalBody_isXorMap _ _) _ _ _ _

theorem DrawBitmapLineToFillEvenOdd_isXorMap (x1 y1 x2 y2 p startAddr cols rows : Nat) :
    IsXorMap (DrawBitmapLineToFillEvenOdd x1 y1 x2 y2 p startAddr cols rows) := by
  unfold DrawBitmapLineToFillEvenOdd
  simp only
  split_ifs
  · exact IsXorMap.ident
  · exact lineWalk_isXorMap _ (bitmapEvenOddBody_isXorMap _ _ _ _) _ _ _ _
  · exact lineWalk_isXorMap _ (bitmapEvenOddBody_isXorMap _ _ _ _) _ _ _ _

theorem DrawBitmapLineToFillEvenOddWithClipping_isXorMap (x1 y1 x2 y2 : Int)
    (p startAddr cols rows maxX maxY : Nat) :
    IsXorMap (DrawBitmapLineToFillEvenOddWithClipping x1 y1 x2 y2 p startAddr cols rows
      maxX maxY) := by
  unfold DrawBitmapLineToFillEvenOddWithClipping
  simp only
  split_ifs
  · exact IsXorMap.ident
  · exact lineWalk_isXorMap _ (bitmapEvenOddClipBody_isXorMap _ _ _ _ _ _ _) _ _ _ _
  · exact lineWalk_isXorMap _ (bitmapEvenOddClipBody_isXorMap _ _ _ _ _ _ _) _ _ _ _

theorem clipped_unit_segment (ram : C64RAM) :
    DrawBitmapLineToFillEvenOddWithClipping 0 0 1 0 0x55 0 40 200 160 100 ram =
      (ram.xorAt 0 64).xorAt 4164 64 := by
  rw [clipped_eq_foldl]
  norm_num [clippedStep, List.range_succ]
  rfl

theorem evenOdd_unit_segment (ram : C64RAM) :
    DrawBitmapLineToFillEvenOdd 0 0 1 0 0x55 0 40 200 ram =
      (ram.xorAt 0 64).xorAt 3844 64 := by
  rw [evenOdd_eq_foldl]
  norm_num [evenOddStep, List.range_succ]
  rfl

/-! ### Pixel encoder -/

theorem and_three_eq_mod (n : Nat) : n &&& 3 = n % 4 :=
  Nat.and_pow_two_sub_one_eq_mod n 2

theorem shl_and_three_mod (c k : Nat) (hk : k ≤ 6) :
    ((c &&& 3) <<< k) % 256 = (c &&& 3) <<< k := by
  apply Nat.mod_eq_of_lt
  rw [and_three_eq_mod, Nat.shiftLeft_eq]
  have h : c % 4 < 4 := Nat.mod_lt _ (by decide)
  interval_cases k <;> omega

theorem getMultiColorTabPix_eq (c : Nat) :
    getMultiColorTabPix c =
      [(c &&& 3) <<< 6, (c &&& 3) <<< 4, (c &&& 3) <<< 2, (c &&& 3) <<< 0] := by
  simp only [getMultiColorTabPix]
  rw [shl_and_three_mod c 6 (by decide), shl_and_three_mod c 4 (by decide),
    shl_and_three_mod c 2 (by decide), shl_and_three_mod c 0 (by decide)]

theorem getMultiColorTabPixEvenOdd_eq (p : Nat) :
    getMultiColorTabPixEvenOdd p =
      ([((p >>> 2) &&& 3) <<< 6, (p &&& 3) <<< 4, ((p >>> 2) &&& 3) <<< 2, (p &&& 3) <<< 0],
       [((p >>> 6) &&& 3) <<< 6, ((p >>> 4) &&& 3) <<< 4, ((p >>> 6) &&& 3) <<< 2,
        ((p >>> 4) &&& 3) <<< 0]) := by
  simp only [getMultiColorTabPixEvenOdd, Nat.shiftRight_zero]
  rw [shl_and_three_mod _ 6 (by decide), shl_and_three_mod p 4 (by decide),
    shl_and_three_mod _ 2 (by decide), shl_and_three_mod p 0 (by decide),
    shl_and_three_mod _ 6 (by decide), shl_and_three_mod _ 4 (by decide),
    shl_and_three_mod _ 2 (by decide), shl_and_three_mod _ 0 (by decide)]

theorem shiftRight_and_three (p m k : Nat) :
    (p &&& m) >>> k &&& 3 = p >>> k &&& (m >>> k &&& 3) := by
  rw [← Nat.and_assoc]
  congr 1
  apply Nat.eq_of_testBit_eq
  intro i
  simp [Nat.testBit_and, Nat.testBit_shiftRight]

/-- A pattern whose four entries carry the two-bit values `a, b, a, b` is a
single-colour pattern exactly when `a = b`. -/
theorem interleaved_eq_single_iff (a b : Nat) (ha : a < 4) (hb : b < 4) :
    (∃ c, [a <<< 6, b <<< 4, a <<< 2, b <<< 0] = getMultiColorTabPix c) ↔ a = b := by
  constructor
  · rintro ⟨c, h⟩
    rw [getMultiColorTabPix_eq, and_three_eq_mod] at h
    simp only [List.cons.injEq, Nat.shiftLeft_eq, and_true] at h
    omega
  · intro h
    refine ⟨a, ?_⟩
    have e : a &&& 3 = a := by rw [and_three_eq_mod]; exact Nat.mod_eq_of_lt ha
    rw [getMultiColorTabPix_eq, e, h]

end Drawing

/-! ## Line rasterizer: XOR algebra -/

namespace Drawing
open Vc64

/-- Claim C1: for every RAM state, all endpoints, every pattern value and
every start address, calling a line rasterizer twice in a row with the same
arguments gives back the RAM it started from; this holds for
`DrawBitmapLineToFillEvenOddWithClipping`, `DrawBitmapLineToFillNormal`,
`DrawBitmapLineToFillEvenOdd` and `DrawCharsLineToFillNormal`. -/
theorem draw_same_line_twice_restores_ram (ram : C64RAM) (x1 y1 x2 y2 : Int)
    (u1 v1 u2 v2 : Nat) (pattern startAddr cols rows maxX maxY : Nat) :
    DrawBitmapLineToFillEvenOddWithClipping x1 y1 x2 y2 pattern startAddr cols rows maxX maxY
        (DrawBitmapLineToFillEvenOddWithClipping x1 y1 x2 y2 pattern startAddr cols rows
          maxX maxY ram) = ram ∧
    DrawBitmapLineToFillNormal u1 v1 u2 v2 pattern startAddr cols rows
        (DrawBitmapLineToFillNormal u1 v1 u2 v2 pattern startAddr cols rows ram) = ram ∧
    DrawBitmapLineToFillEvenOdd u1 v1 u2 v2 pattern startAddr cols rows
        (DrawBitmapLineToFillEvenOdd u1 v1 u2 v2 pattern startAddr cols rows ram) = ram ∧
    DrawCharsLineToFillNormal u1 v1 u2 v2 pattern startAddr rows
        (DrawCharsLineToFillNormal u1 v1 u2 v2 pattern startAddr rows ram) = ram :=
  ⟨(DrawBitmapLineToFillEvenOddWithClipping_isXorMap x1 y1 x2 y2 pattern startAddr cols rows
      maxX maxY).twice ram,
    (DrawBitmapLineToFillNormal_isXorMap u1 v1 u2 v2 pattern startAddr cols rows).twice ram,
    (DrawBitmapLineToFillEvenOdd_isXorMap u1 v1 u2 v2 pattern startAddr cols rows).twice ram,
    (DrawCharsLineToFillNormal_isXorMap u1 v1 u2 v2 pattern startAddr rows).twice ram⟩

/-- Claim C2: each of the four line rasterizers, called with `x1 = x2` (any
`y1`, `y2`, pattern and start address), performs no write: the RAM after the
call is the RAM before it. -/
theorem draw_equal_x_no_write (ram : C64RAM) (xi yi1 yi2 : Int) (x y1 y2 : Nat)
    (pattern startAddr cols rows maxX maxY : Nat) :
    DrawCharsLineToFillNormal x y1 x y2 pattern startAddr rows ram = ram ∧
    DrawBitmapLineToFillNormal x y1 x y2 pattern startAddr cols rows ram = ram ∧
    DrawBitmapLineToFillEvenOdd x y1 x y2 pattern startAddr cols rows ram = ram ∧
    DrawBitmapLineToFillEvenOddWithClipping xi yi1 xi yi2 pattern startAddr cols rows
      maxX maxY ram = ram := by
  refine ⟨?_, ?_, ?_, ?_⟩
  · simp only [DrawCharsLineToFillNormal, if_true]
  · simp only [DrawBitmapLineToFillNormal, if_true]
  · simp only [DrawBitmapLineToFillEvenOdd, if_true]
  · simp only [DrawBitmapLineToFillEvenOddWithClipping, if_true]

/-- Claim C3: line draws commute.  For every RAM state and any two edges A and
B, each with its own endpoints and pattern and both with the same start
address, rasterizing A then B with `DrawBitmapLineToFillEvenOddWithClipping`
yields the same RAM as rasterizing B then A. -/
theorem clipped_draws_commute (ram : C64RAM) (ax1 ay1 ax2 ay2 bx1 by1 bx2 by2 : Int)
    (patternA patternB startAddr cols rows maxX maxY : Nat) :
    DrawBitmapLineToFillEvenOddWithClipping bx1 by1 bx2 by2 patternB startAddr cols rows
        maxX maxY
        (DrawBitmapLineToFillEvenOddWithClipping ax1 ay1 ax2 ay2 patternA startAddr cols rows
          maxX maxY ram) =
      DrawBitmapLineToFillEvenOddWithClipping ax1 ay1 ax2 ay2 patternA startAddr cols rows
        maxX maxY
        (DrawBitmapLineToFillEvenOddWithClipping bx1 by1 bx2 by2 patternB startAddr cols rows
          maxX maxY ram) :=
  IsXorMap.commute
    (DrawBitmapLineToFillEvenOddWithClipping_isXorMap ax1 ay1 ax2 ay2 patternA startAddr cols
      rows maxX maxY)
    (DrawBitmapLineToFillEvenOddWithClipping_isXorMap bx1 by1 bx2 by2 patternB startAddr cols
      rows maxX maxY) ram

/-! ## Line rasterizer: the steps -/

/-- Claim C4: `DrawBitmapLineToFillNormal` performs exactly `|x2 - x1|`
read-XOR-write steps, one for each integer `x` from `min x1 x2` to
`max x1 x2 - 1` in increasing order (none when `x1 = x2`).  The step at `x`
XORs the byte at the 16-bit address
`startAddr + ((x & 0xFC) << 1) + (r >> 3)*320 + (r & 7)` with
`getMultiColorTabPix(color)[x & 3]`, where `r` is the integer part of the
running `y`, which starts at the `y` of the lower-`x` endpoint and grows by
`stepY = (y2 - y1)/(x2 - x1)` per step, in exact arithmetic. -/
theorem DrawBitmapLineToFillNormal_steps (x1 y1 x2 y2 color startAddr cols rows : Nat)
    (ram : C64RAM) :
    DrawBitmapLineToFillNormal x1 y1 x2 y2 color startAddr cols rows ram =
      (List.range (max x1 x2 - min x1 x2)).foldl
        (fun r (k : Nat) =>
          let x : Nat := min x1 x2 + k
          let stepY : ℚ := ((y2 : ℚ) - (y1 : ℚ)) / ((x2 : ℚ) - (x1 : ℚ))
          let row : Nat := ⌊(if x1 < x2 then (y1 : ℚ) else (y2 : ℚ)) + (k : ℚ) * stepY⌋₊
          r.xorAt
            ((startAddr + ((x &&& 0xFC) <<< 1) + (row >>> 3) * 320 + (row &&& 7)) % 65536)
            ((getMultiColorTabPix color).getD (x &&& 3) 0)) ram :=
  normal_eq_foldl x1 y1 x2 y2 color startAddr cols rows ram

theorem roundHalfEven_of_lt (r : ℚ) (f : ℤ) (h1 : (f : ℚ) ≤ r) (h2 : r - f < 1 / 2) :
    roundHalfEven r = f := by
  have hf : ⌊r⌋ = f := by
    rw [Int.floor_eq_iff]
    constructor
    · exact h1
    · linarith
  rw [roundHalfEven, hf, if_pos h2]

theorem roundHalfEven_of_gt (r : ℚ) (f : ℤ) (h1 : r < (f : ℚ) + 1) (h2 : 1 / 2 < r - f) :
    roundHalfEven r = f + 1 := by
  have hf : ⌊r⌋ = f := by
    rw [Int.floor_eq_iff]
    constructor
    · linarith
    · exact h1
  rw [roundHalfEven, hf, if_neg (not_lt.mpr (le_of_lt h2)), if_pos h2]

theorem roundHalfEven_of_tie (r : ℚ) (f : ℤ) (h : r = (f : ℚ) + 1 / 2) :
    roundHalfEven r = if f % 2 = 0 then f else f + 1 := by
  have hf : ⌊r⌋ = f := by
    rw [Int.floor_eq_iff]
    constructor
    · linarith
    · linarith
  have e : r - (f : ℚ) = 1 / 2 := by linarith
  rw [roundHalfEven, hf, e, if_neg (lt_irrefl _), if_neg (lt_irrefl _)]

/-- The rounding of a value `q` with `2^e ≤ |q| < 2^(e+1)` in the normal range:
the significand `q / 2^(e-52)` rounded to an integer, times `2^(e-52)`. -/
theorem float64Round_of_log (q : ℚ) (e n : ℤ) (he : -1022 ≤ e) (hlo : (2 : ℚ) ^ e ≤ |q|)
    (hhi : |q| < (2 : ℚ) ^ (e + 1)) (hn : roundHalfEven (q / 2 ^ (e - 52)) = n) :
    float64Round q = (n : ℚ) * 2 ^ (e - 52) := by
  have hpos : 0 < |q| := lt_of_lt_of_le (zpow_pos (by norm_num) e) hlo
  have hlog : Int.log 2 |q| = e := by
    apply le_antisymm
    · have := (Int.lt_zpow_iff_log_lt (by norm_num : 1 < 2) hpos (x := e + 1)).mp
        (by exact_mod_cast hhi)
      omega
    · exact (Int.zpow_le_iff_le_log (by norm_num : 1 < 2) hpos).mp (by exact_mod_cast hlo)
  unfold float64Round
  simp only [hlog, max_eq_left he, hn]

theorem roundHalfEven_intCast (n : ℤ) : roundHalfEven (n : ℚ) = n := by
  apply roundHalfEven_of_lt
  · exact le_refl _
  · norm_num

/-- An integer below `2^53` in magnitude is a `float64`: rounding leaves it as
it is. -/
theorem float64Round_intCast (z : ℤ) (hz : |z| < 2 ^ 53) : float64Round (z : ℚ) = (z : ℚ) := by
  by_cases h0 : z = 0
  · subst h0
    simp [float64Round, roundHalfEven_intCast]
    left
    exact roundHalfEven_intCast 0
  · have hpos : (0 : ℚ) < |(z : ℚ)| := abs_pos.mpr (by exact_mod_cast h0)
    have h1 : (1 : ℚ) ≤ |(z : ℚ)| := by
      have : (1 : ℤ) ≤ |z| := Int.one_le_abs h0
      exact_mod_cast this
    have hlt : |(z : ℚ)| < (2 : ℚ) ^ (53 : ℤ) := by
      have : ((|z| : ℤ) : ℚ) < ((2 ^ 53 : ℤ) : ℚ) := by exact_mod_cast hz
      rw [Int.cast_abs] at this
      calc |(z : ℚ)| < ((2 ^ 53 : ℤ) : ℚ) := this
        _ = (2 : ℚ) ^ (53 : ℤ) := by norm_num
    have he0 : 0 ≤ Int.log 2 |(z : ℚ)| := by
      have := (Int.zpow_le_iff_le_log (by norm_num : 1 < 2) hpos (x := 0)).mp (by simpa using h1)
      exact this
    have he1 : Int.log 2 |(z : ℚ)| < 53 :=
      (Int.lt_zpow_iff_log_lt (by norm_num : 1 < 2) hpos).mp (by exact_mod_cast hlt)
    obtain ⟨d, hd⟩ : ∃ d : ℕ, Int.log 2 |(z : ℚ)| - 52 = -(d : ℤ) :=
      ⟨(52 - Int.log 2 |(z : ℚ)|).toNat, by omega⟩
    unfold float64Round
    simp only [max_eq_left (by omega : (-1022 : ℤ) ≤ Int.log 2 |(z : ℚ)|), hd]
    have e : (z : ℚ) / 2 ^ (-(d : ℤ)) = ((z * 2 ^ d : ℤ) : ℚ) := by
      rw [zpow_neg, zpow_natCast]
      push_cast
      field_simp
    rw [e, roundHalfEven_intCast, zpow_neg, zpow_natCast]
    push_cast
    field_simp

/-- The rounding is visible in the rasterizer.  On the segment from `(0,0)` to
`(20,2)` the step is the `float64` nearest to `1/10`, and the running `y` of
the step at `x = 10`, after ten rounded additions, is `1 - 2^-53`: the row
is 0.  Without rounding the running `y` of that step is `1`: row 1. -/
theorem float64Round_running_y_example :
    (fun y : ℚ => float64Round (y + float64Round ((2 - 0) / (20 - 0))))^[10] 0 =
        1 - 1 / 2 ^ 53 ∧
      ⌊max 0 (min ((fun y : ℚ => float64Round (y + float64Round ((2 - 0) / (20 - 0))))^[10] 0)
        ((100 : Nat) : ℚ))⌋₊ = 0 ∧
      (fun y : ℚ => id (y + id ((2 - 0) / (20 - 0))))^[10] 0 = 1 ∧
      ⌊max 0 (min ((fun y : ℚ => id (y + id ((2 - 0) / (20 - 0))))^[10] 0)
        ((100 : Nat) : ℚ))⌋₊ = 1 := by
  have hs :
      float64Round
          ((2 - 0) / (20 - 0)) =
        3602879701896397 / 36028797018963968 := by
    rw [float64Round_of_log _ (-4) 7205759403792794 (by norm_num) (by norm_num [abs_of_pos])
      (by norm_num [abs_of_pos])
      (roundHalfEven_of_gt _ 7205759403792793 (by norm_num) (by norm_num))]
    norm_num
  have h1 :
      float64Round
          (0 + 3602879701896397 / 36028797018963968) =
        3602879701896397 / 36028797018963968 := by
    rw [float64Round_of_log _ (-4) 7205759403792794 (by norm_num) (by norm_num [abs_of_pos])
      (by norm_num [abs_of_pos])
      (roundHalfEven_of_lt _ 7205759403792794 (by norm_num) (by norm_num))]
    norm_num
  have h2 :
      float64Round
          (3602879701896397 / 36028797018963968 + 3602879701896397 / 36028797018963968) =
        3602879701896397 / 18014398509481984 := by
    rw [float64Round_of_log _ (-3) 7205759403792794 (by norm_num) (by norm_num [abs_of_pos])
      (by norm_num [abs_of_pos])
      (roundHalfEven_of_lt _ 7205759403792794 (by norm_num) (by norm_num))]
    norm_num
  have h3 :
      float64Round
          (3602879701896397 / 18014398509481984 + 3602879701896397 / 36028797018963968) =
        1351079888211149 / 4503599627370496 := by
    rw [float64Round_of_log _ (-2) 5404319552844596 (by norm_num) (by norm_num [abs_of_pos])
      (by norm_num [abs_of_pos])
      ((roundHalfEven_of_tie _ 5404319552844595 (by norm_num)).trans (by norm_num))]
    norm_num
  have h4 :
      float64Round
          (1351079888211149 / 4503599627370496 + 3602879701896397 / 36028797018963968) =
        3602879701896397 / 9007199254740992 := by
    rw [float64Round_of_log _ (-2) 7205759403792794 (by norm_num) (by norm_num [abs_of_pos])
      (by norm_num [abs_of_pos])
      ((roundHalfEven_of_tie _ 7205759403792794 (by norm_num)).trans (by norm_num))]
    norm_num
  have h5 :
      float64Round
          (3602879701896397 / 9007199254740992 + 3602879701896397 / 36028797018963968) =
        1 / 2 := by
    rw [float64Round_of_log _ (-1) 4503599627370496 (by norm_num) (by norm_num [abs_of_pos])
      (by norm_num [abs_of_pos])
      (roundHalfEven_of_lt _ 4503599627370496 (by norm_num) (by norm_num))]
    norm_num
  have h6 :
      float64Round
          (1 / 2 + 3602879701896397 / 36028797018963968) =
        5404319552844595 / 9007199254740992 := by
    rw [float64Round_of_log _ (-1) 5404319552844595 (by norm_num) (by norm_num [abs_of_pos])
      (by norm_num [abs_of_pos])
      (roundHalfEven_of_lt _ 5404319552844595 (by norm_num) (by norm_num))]
    norm_num
  have h7 :
      float64Round
          (5404319552844595 / 9007199254740992 + 3602879701896397 / 36028797018963968) =
        3152519739159347 / 4503599627370496 := by
    rw [float64Round_of_log _ (-1) 6305039478318694 (by norm_num) (by norm_num [abs_of_pos])
      (by norm_num [abs_of_pos])
      (roundHalfEven_of_lt _ 6305039478318694 (by norm_num) (by norm_num))]
    norm_num
  have h8 :
      float64Round
          (3152519739159347 / 4503599627370496 + 3602879701896397 / 36028797018963968) =
        7205759403792793 / 9007199254740992 := by
    rw [float64Round_of_log _ (-1) 7205759403792793 (by norm_num) (by norm_num [abs_of_pos])
      (by norm_num [abs_of_pos])
      (roundHalfEven_of_lt _ 7205759403792793 (by norm_num) (by norm_num))]
    norm_num
  have h9 :
      float64Round
          (7205759403792793 / 9007199254740992 + 3602879701896397 / 36028797018963968) =
        2026619832316723 / 2251799813685248 := by
    rw [float64Round_of_log _ (-1) 8106479329266892 (by norm_num) (by norm_num [abs_of_pos])
      (by norm_num [abs_of_pos])
      (roundHalfEven_of_lt _ 8106479329266892 (by norm_num) (by norm_num))]
    norm_num
  have h10 :
      float64Round
          (2026619832316723 / 2251799813685248 + 3602879701896397 / 36028797018963968) =
        9007199254740991 / 9007199254740992 := by
    rw [float64Round_of_log _ (-1) 9007199254740991 (by norm_num) (by norm_num [abs_of_pos])
      (by norm_num [abs_of_pos])
      (roundHalfEven_of_lt _ 9007199254740991 (by norm_num) (by norm_num))]
    norm_num
  have hr : (fun y : ℚ => float64Round (y + float64Round ((2 - 0) / (20 - 0))))^[10] 0 =
      1 - 1 / 2 ^ 53 := by
    simp only [Function.iterate_succ, Function.iterate_zero, Function.comp_apply, id_eq, hs,
      h1, h2, h3, h4, h5, h6, h7, h8, h9, h10]
    norm_num
  have he : (fun y : ℚ => id (y + id ((2 - 0) / (20 - 0))))^[10] 0 = 1 := by
    simp only [Function.iterate_succ, Function.iterate_zero, Function.comp_apply, id_eq]
    norm_num
  refine ⟨hr, ?_, he, ?_⟩
  · rw [hr, Nat.floor_eq_zero]
    norm_num
  · rw [he]
    norm_num

theorem lineWalkRounded_eq_foldl {σ : Type} (fl : ℚ → ℚ) (body : ℚ → ℚ → σ → σ)
    (stepY stopX : ℚ) (n : Nat) :
    ∀ (x y : ℚ) (s : σ), (⌊stopX - x⌋ + 1).toNat = n →
      lineWalkRounded fl body stepY stopX x y s =
        (List.range n).foldl
          (fun s (k : Nat) => body (x + (k : ℚ)) ((fun y => fl (y + stepY))^[k] y) s) s := by
  induction n with
  | zero =>
    intro x y s h
    have hx : ¬ x ≤ stopX := by
      intro hle
      have : (0:ℤ) ≤ ⌊stopX - x⌋ := Int.floor_nonneg.mpr (by linarith)
      omega
    rw [lineWalkRounded, if_neg hx]
    rfl
  | succ n ih =>
    intro x y s h
    have hfl : (0:ℤ) ≤ ⌊stopX - x⌋ := by omega
    have hx : x ≤ stopX := by
      have := Int.floor_nonneg.mp hfl
      linarith
    have hrec : (⌊stopX - (x + 1)⌋ + 1).toNat = n := by
      have : stopX - (x + 1) = stopX - x - 1 := by ring
      rw [this, Int.floor_sub_one]
      omega
    rw [lineWalkRounded, if_pos hx, ih (x + 1) (fl (y + stepY)) (body x y s) hrec,
      List.range_succ_eq_map, List.foldl_cons, List.foldl_map]
    simp only [Nat.cast_zero, add_zero, Function.iterate_zero, id_eq, Nat.cast_succ,
      Function.iterate_succ, Function.comp_apply]
    congr 1
    funext s k
    congr 1
    ring

/-- With no rounding the loop is `lineWalk`. -/
theorem lineWalkRounded_id {σ : Type} (body : ℚ → ℚ → σ → σ) (stepY stopX : ℚ) (n : Nat) :
    ∀ (x y : ℚ) (s : σ), (⌊stopX - x⌋ + 1).toNat = n →
      lineWalkRounded id body stepY stopX x y s = lineWalk body stepY stopX x y s := by
  induction n with
  | zero =>
    intro x y s h
    have hx : ¬ x ≤ stopX := by
      intro hle
      have : (0:ℤ) ≤ ⌊stopX - x⌋ := Int.floor_nonneg.mpr (by linarith)
      omega
    rw [lineWalkRounded, if_neg hx, lineWalk, if_neg hx]
  | succ n ih =>
    intro x y s h
    have hfl : (0:ℤ) ≤ ⌊stopX - x⌋ := by omega
    have hx : x ≤ stopX := by
      have := Int.floor_nonneg.mp hfl
      linarith
    have hrec : (⌊stopX - (x + 1)⌋ + 1).toNat = n := by
      have : stopX - (x + 1) = stopX - x - 1 := by ring
      rw [this, Int.floor_sub_one]
      omega
    rw [lineWalkRounded, if_pos hx, lineWalk, if_pos hx]
    exact ih (x + 1) (y + stepY) (body x y s) hrec

/-- The unrounded reading of the clipped rasterizer is the rounded one with the
identity as rounding. -/
theorem DrawBitmapLineToFillEvenOddWithClippingRounded_id (x1 y1 x2 y2 : ℤ)
    (p startAddr cols rows maxX maxY : Nat) (ram : C64RAM) :
    DrawBitmapLineToFillEvenOddWithClippingRounded id x1 y1 x2 y2 p startAddr cols rows maxX
        maxY ram =
      DrawBitmapLineToFillEvenOddWithClipping x1 y1 x2 y2 p startAddr cols rows maxX maxY
        ram := by
  unfold DrawBitmapLineToFillEvenOddWithClippingRounded DrawBitmapLineToFillEvenOddWithClipping
  simp only [id_eq]
  split_ifs
  · rfl
  · exact lineWalkRounded_id _ _ _ _ _ _ _ rfl
  · exact lineWalkRounded_id _ _ _ _ _ _ _ rfl

/-- The endpoint ordering of the rasterizer followed by the rounded walk, as a
fold over the steps. -/
theorem orderedWalkRounded_eq_foldl {σ : Type} (fl : ℚ → ℚ) (body : ℚ → ℚ → σ → σ)
    (x1 y1 x2 y2 : ℤ) (s : σ) :
    (if (x1 : ℚ) = (x2 : ℚ) then s
      else if (x1 : ℚ) > (x2 : ℚ) then
        lineWalkRounded fl body (fl (((y2 : ℚ) - (y1 : ℚ)) / ((x2 : ℚ) - (x1 : ℚ))))
          ((x1 : ℚ) - 1) x2 y2 s
      else
        lineWalkRounded fl body (fl (((y1 : ℚ) - (y2 : ℚ)) / ((x1 : ℚ) - (x2 : ℚ))))
          ((x2 : ℚ) - 1) x1 y1 s) =
      (List.range (max x1 x2 - min x1 x2).toNat).foldl
        (fun s (k : ℕ) =>
          body (((min x1 x2 + (k : ℤ) : ℤ)) : ℚ)
            ((fun y => fl (y + fl (((y2 : ℚ) - (y1 : ℚ)) / ((x2 : ℚ) - (x1 : ℚ)))))^[k]
              (if x1 < x2 then (y1 : ℚ) else (y2 : ℚ))) s) s := by
  have hmeasure : ∀ lo hi : ℤ, lo < hi →
      (⌊((hi : ℚ) - 1) - (lo : ℚ)⌋ + 1).toNat = (hi - lo).toNat := by
    intro lo hi _
    have e : ((hi : ℚ) - 1) - (lo : ℚ) = ((hi - 1 - lo : ℤ) : ℚ) := by push_cast; ring
    rw [e, Int.floor_intCast]
    congr 1
    ring
  rcases lt_trichotomy x1 x2 with h | h | h
  · have hq : (x1 : ℚ) < (x2 : ℚ) := by exact_mod_cast h
    rw [if_neg (ne_of_lt hq), if_neg (not_lt.mpr (le_of_lt hq)),
      lineWalkRounded_eq_foldl fl body _ _ _ _ _ _ (hmeasure x1 x2 h),
      max_eq_right (le_of_lt h), min_eq_left (le_of_lt h)]
    have e : ((y1 : ℚ) - (y2 : ℚ)) / ((x1 : ℚ) - (x2 : ℚ)) =
        ((y2 : ℚ) - (y1 : ℚ)) / ((x2 : ℚ) - (x1 : ℚ)) := by
      rw [← neg_sub (y2 : ℚ), ← neg_sub (x2 : ℚ), neg_div_neg_eq]
    simp only [if_pos h, Int.cast_add, Int.cast_natCast, e]
  · subst h
    simp
  · have hq : (x2 : ℚ) < (x1 : ℚ) := by exact_mod_cast h
    rw [if_neg (ne_of_gt hq), if_pos hq,
      lineWalkRounded_eq_foldl fl body _ _ _ _ _ _ (hmeasure x2 x1 h),
      max_eq_left (le_of_lt h), min_eq_right (le_of_lt h)]
    simp only [if_neg (not_lt.mpr (le_of_lt h)), Int.cast_add, Int.cast_natCast]

theorem clippedRounded_eq_foldl (fl : ℚ → ℚ) (x1 y1 x2 y2 : ℤ)
    (p startAddr cols rows maxX maxY : Nat) (ram : C64RAM) :
    DrawBitmapLineToFillEvenOddWithClippingRounded fl x1 y1 x2 y2 p startAddr cols rows maxX
        maxY ram =
      (List.range (max x1 x2 - min x1 x2).toNat).foldl
        (fun r (k : ℕ) =>
          clippedStep p startAddr rows maxX maxY (min x1 x2 + (k : ℤ))
            ((fun y => fl (y + fl (((y2 : ℚ) - (y1 : ℚ)) / ((x2 : ℚ) - (x1 : ℚ)))))^[k]
              (if x1 < x2 then (y1 : ℚ) else (y2 : ℚ))) r) ram := by
  unfold DrawBitmapLineToFillEvenOddWithClippingRounded
  simp only
  rw [orderedWalkRounded_eq_foldl]
  simp only [bitmapEvenOddClipBody_eq]

/-- Claim C5: in `DrawBitmapLineToFillEvenOddWithClipping`, with the `float64`
arithmetic rounded by `fl` as Go does (whatever the rounding `fl` is, the
IEEE rounding `float64Round` and the exact reading `id` included), the walk
visits the integers `x` from `min x1 x2` to `max x1 x2 - 1`.  The running `y`
starts at the `y` of the left endpoint and becomes `fl (y + stepY)` after every
step, skipped or not, with `stepY = fl ((y2 - y1) / (x2 - x1))`.  A step whose
`x` is outside `[0, maxX)` writes nothing; a step whose `x` is inside performs
two read-XOR-writes: `tabPixEven[x & 3]` at column `x`, row `cy`, and
`tabPixOdd[x & 3]` at column `x`, row `cy + rows/2 + 8`, where `cy` is the
integer part of the running `y` clamped into `[0, maxY]`.  The function
`DrawBitmapLineToFillEvenOddWithClipping` of the exact reading is the case
where `fl` is the identity. -/
theorem DrawBitmapLineToFillEvenOddWithClipping_rounded_steps (fl : ℚ → ℚ) (x1 y1 x2 y2 : Int)
    (patternValue startAddr cols rows maxX maxY : Nat) (ram : C64RAM) :
    DrawBitmapLineToFillEvenOddWithClippingRounded fl x1 y1 x2 y2 patternValue startAddr cols
        rows maxX maxY ram =
      (List.range (max x1 x2 - min x1 x2).toNat).foldl
        (fun r (k : Nat) =>
          let x : Int := min x1 x2 + (k : Int)
          let stepY : ℚ := fl (((y2 : ℚ) - (y1 : ℚ)) / ((x2 : ℚ) - (x1 : ℚ)))
          let y : ℚ := (fun y => fl (y + stepY))^[k] (if x1 < x2 then (y1 : ℚ) else (y2 : ℚ))
          let cy : Nat := ⌊max 0 (min y (maxY : ℚ))⌋₊
          if 0 ≤ x ∧ x < (maxX : Int) then
            (r.xorAt (bitmapByteAddr startAddr x.toNat cy)
                ((getMultiColorTabPixEvenOdd patternValue).1.getD (x.toNat &&& 3) 0)).xorAt
              (bitmapByteAddr startAddr x.toNat (cy + rows / 2 + 8))
              ((getMultiColorTabPixEvenOdd patternValue).2.getD (x.toNat &&& 3) 0)
          else
            r) ram ∧
    DrawBitmapLineToFillEvenOddWithClipping x1 y1 x2 y2 patternValue startAddr cols rows maxX
        maxY ram =
      DrawBitmapLineToFillEvenOddWithClippingRounded id x1 y1 x2 y2 patternValue startAddr cols
        rows maxX maxY ram :=
  ⟨clippedRounded_eq_foldl fl x1 y1 x2 y2 patternValue startAddr cols rows maxX maxY ram,
    (DrawBitmapLineToFillEvenOddWithClippingRounded_id x1 y1 x2 y2 patternValue startAddr cols
      rows maxX maxY ram).symm⟩

/-- Claim C6, evaluated on the code: for the one-pixel segment from `(0,0)` to
`(1,0)` with pattern `0x55`, start address 0, 40 columns and 200 rows, inside
the clip window `maxX = 160`, `maxY = 100`, the clipped rasterizer XORs the
odd pattern into the byte at address 4164 (row `0 + 200/2 + 8`), while
`DrawBitmapLineToFillEvenOdd` leaves that byte alone and XORs the byte at
address 3844 (row `0 + 200/2`) instead; so the two calls leave different RAM,
whatever the RAM before. -/
theorem evenOdd_misses_odd_buffer_offset (ram : C64RAM) :
    (DrawBitmapLineToFillEvenOddWithClipping 0 0 1 0 0x55 0 40 200 160 100
        ram).CPUBusGetUByte8 4164 = ram.CPUBusGetUByte8 4164 ^^^ 64 ∧
    (DrawBitmapLineToFillEvenOdd 0 0 1 0 0x55 0 40 200 ram).CPUBusGetUByte8 4164 =
      ram.CPUBusGetUByte8 4164 ∧
    (DrawBitmapLineToFillEvenOdd 0 0 1 0 0x55 0 40 200 ram).CPUBusGetUByte8 3844 =
      ram.CPUBusGetUByte8 3844 ^^^ 64 ∧
    DrawBitmapLineToFillEvenOddWithClipping 0 0 1 0 0x55 0 40 200 160 100 ram ≠
      DrawBitmapLineToFillEvenOdd 0 0 1 0 0x55 0 40 200 ram := by
  rw [clipped_unit_segment, evenOdd_unit_segment]
  have h1 : ((ram.xorAt 0 64).xorAt 4164 64).CPUBusGetUByte8 4164 =
      ram.CPUBusGetUByte8 4164 ^^^ 64 := by
    simp [C64RAM.xorAt, C64RAM.CPUBusSetUByte8, C64RAM.CPUBusGetUByte8]
  have h2 : ((ram.xorAt 0 64).xorAt 3844 64).CPUBusGetUByte8 4164 =
      ram.CPUBusGetUByte8 4164 := by
    simp [C64RAM.xorAt, C64RAM.CPUBusSetUByte8, C64RAM.CPUBusGetUByte8]
  have h3 : ((ram.xorAt 0 64).xorAt 3844 64).CPUBusGetUByte8 3844 =
      ram.CPUBusGetUByte8 3844 ^^^ 64 := by
    simp [C64RAM.xorAt, C64RAM.CPUBusSetUByte8, C64RAM.CPUBusGetUByte8]
  refine ⟨h1, h2, h3, fun h => ?_⟩
  have h4 := congrArg (fun r => r.CPUBusGetUByte8 4164) h
  simp only [h1, h2] at h4
  have h5 : ram.CPUBusGetUByte8 4164 ^^^ 64 = ram.CPUBusGetUByte8 4164 ^^^ 0 := by
    rw [h4, Nat.xor_zero]
  exact absurd (Nat.xor_right_injective h5) (by decide)

/-! ## Pixel encoder -/

/-- Claim C7: for every byte `c` and every sub-pixel index `i` in `0..3`,
`getMultiColorTabPix(c)[i] = (c & 3) << (6 - 2*i)`; hence two colour values
`c`, `c'` with `c & 3 = c' & 3` give equal 4-element patterns. -/
theorem getMultiColorTabPix_entry (c c' i : Nat) (hi : i < 4) (hc : c &&& 3 = c' &&& 3) :
    (getMultiColorTabPix c).getD i 0 = (c &&& 3) <<< (6 - 2 * i) ∧
    (getMultiColorTabPix c).length = 4 ∧
    getMultiColorTabPix c = getMultiColorTabPix c' := by
  refine ⟨?_, rfl, ?_⟩
  · rw [getMultiColorTabPix_eq]
    interval_cases i <;> rfl
  · rw [getMultiColorTabPix_eq, getMultiColorTabPix_eq, hc]

/-- Claim C7 at `c = 0xFE`, `c' = 0x02`, `i = 2`. -/
theorem getMultiColorTabPix_entry_witness :
    (2 : Nat) < 4 ∧ (0xFE &&& 3 = 0x02 &&& 3) ∧
    ((getMultiColorTabPix 0xFE).getD 2 0 = (0xFE &&& 3) <<< (6 - 2 * 2) ∧
      (getMultiColorTabPix 0xFE).length = 4 ∧
      getMultiColorTabPix 0xFE = getMultiColorTabPix 0x02) :=
  ⟨by decide, by decide, getMultiColorTabPix_entry 0xFE 0x02 2 (by decide) (by decide)⟩

/-- Claim C8: for every byte `p`, the even pattern of
`getMultiColorTabPixEvenOdd(p)` depends only on the low 4 bits of `p` and the
odd pattern only on the high 4 bits: `even(p) = even(p & 0x0F)`,
`odd(p) = odd(p & 0xF0)` and `odd(p) = even(p >> 4)`. -/
theorem getMultiColorTabPixEvenOdd_nibbles (p : Nat) :
    (getMultiColorTabPixEvenOdd p).1 = (getMultiColorTabPixEvenOdd (p &&& 0x0F)).1 ∧
    (getMultiColorTabPixEvenOdd p).2 = (getMultiColorTabPixEvenOdd (p &&& 0xF0)).2 ∧
    (getMultiColorTabPixEvenOdd p).2 = (getMultiColorTabPixEvenOdd (p >>> 4)).1 := by
  have e15_2 : (0x0F >>> 2 &&& 3) = 3 := by decide
  have e15_0 : (0x0F >>> 0 &&& 3) = 3 := by decide
  have e240_6 : (0xF0 >>> 6 &&& 3) = 3 := by decide
  have e240_4 : (0xF0 >>> 4 &&& 3) = 3 := by decide
  refine ⟨?_, ?_, ?_⟩
  · simp only [getMultiColorTabPixEvenOdd, shiftRight_and_three, e15_2, e15_0]
  · simp only [getMultiColorTabPixEvenOdd, shiftRight_and_three, e240_6, e240_4]
  · simp only [getMultiColorTabPixEvenOdd, ← Nat.shiftRight_add]

/-- Claim C9 fails at `p = 0x41`: neither the even half `[0, 16, 0, 1]` nor the
odd half `[64, 0, 4, 0]` of `getMultiColorTabPixEvenOdd(0x41)` is
`getMultiColorTabPix(c)` for any colour value `c`. -/
theorem evenOdd_halves_not_single_colour :
    (¬ ∃ c, (getMultiColorTabPixEvenOdd 0x41).1 = getMultiColorTabPix c) ∧
    (¬ ∃ c, (getMultiColorTabPixEvenOdd 0x41).2 = getMultiColorTabPix c) := by
  rw [getMultiColorTabPixEvenOdd_eq]
  exact ⟨(interleaved_eq_single_iff _ _ (by decide) (by decide)).not.mpr (by decide),
    (interleaved_eq_single_iff _ _ (by decide) (by decide)).not.mpr (by decide)⟩

/-- Claim C9, amended: for every byte `p`, each half of
`getMultiColorTabPixEvenOdd(p)` interleaves two colour values of its nibble.
The even half takes entries 0 and 2 from `getMultiColorTabPix(p >> 2)` and
entries 1 and 3 from `getMultiColorTabPix(p)`; the odd half takes entries 0
and 2 from `getMultiColorTabPix(p >> 6)` and entries 1 and 3 from
`getMultiColorTabPix(p >> 4)`.  A half equals `getMultiColorTabPix(c)` for a
single colour value `c` exactly when the two 2-bit fields of its nibble are
equal. -/
theorem getMultiColorTabPixEvenOdd_interleaves (p : Nat) :
    (getMultiColorTabPixEvenOdd p).1 =
      [(getMultiColorTabPix (p >>> 2)).getD 0 0, (getMultiColorTabPix p).getD 1 0,
       (getMultiColorTabPix (p >>> 2)).getD 2 0, (getMultiColorTabPix p).getD 3 0] ∧
    (getMultiColorTabPixEvenOdd p).2 =
      [(getMultiColorTabPix (p >>> 6)).getD 0 0, (getMultiColorTabPix (p >>> 4)).getD 1 0,
       (getMultiColorTabPix (p >>> 6)).getD 2 0, (getMultiColorTabPix (p >>> 4)).getD 3 0] ∧
    ((∃ c, (getMultiColorTabPixEvenOdd p).1 = getMultiColorTabPix c) ↔
      (p >>> 2) &&& 3 = p &&& 3) ∧
    ((∃ c, (getMultiColorTabPixEvenOdd p).2 = getMultiColorTabPix c) ↔
      (p >>> 6) &&& 3 = (p >>> 4) &&& 3) := by
  have hlt : ∀ n : Nat, n &&& 3 < 4 := fun n => by
    rw [and_three_eq_mod]
    exact Nat.mod_lt _ (by decide)
  refine ⟨?_, ?_, ?_, ?_⟩
  · rw [getMultiColorTabPixEvenOdd_eq, getMultiColorTabPix_eq, getMultiColorTabPix_eq]
    rfl
  · rw [getMultiColorTabPixEvenOdd_eq, getMultiColorTabPix_eq, getMultiColorTabPix_eq]
    rfl
  · rw [getMultiColorTabPixEvenOdd_eq]
    exact interleaved_eq_single_iff _ _ (hlt _) (hlt _)
  · rw [getMultiColorTabPixEvenOdd_eq]
    exact interleaved_eq_single_iff _ _ (hlt _) (hlt _)

end Drawing

/-! ## Face visibility -/

namespace Transform

/-- Claim C10: `FaceVisibilityTest` is antisymmetric.  In exact arithmetic,
swapping any two of its three arguments negates the result, and the result is
0 when two arguments coincide. -/
theorem FaceVisibilityTest_antisymm {K : Type} [CommRing K] (v1 v2 v3 : Vector3D K) :
    FaceVisibilityTest v2 v1 v3 = - FaceVisibilityTest v1 v2 v3 ∧
    FaceVisibilityTest v3 v2 v1 = - FaceVisibilityTest v1 v2 v3 ∧
    FaceVisibilityTest v1 v3 v2 = - FaceVisibilityTest v1 v2 v3 ∧
    FaceVisibilityTest v1 v1 v3 = 0 ∧
    FaceVisibilityTest v1 v2 v2 = 0 ∧
    FaceVisibilityTest v1 v2 v1 = 0 := by
  simp only [FaceVisibilityTest]
  refine ⟨?_, ?_, ?_, ?_, ?_, ?_⟩ <;> ring

end Transform

/-! ## Vector algebra -/

namespace Transform

theorem Vector3D.eq_of_components {K : Type} {v w : Vector3D K} (hx : v.X = w.X)
    (hy : v.Y = w.Y) (hz : v.Z = w.Z) : v = w := by
  cases v
  cases w
  simp only at hx hy hz
  rw [hx, hy, hz]

/-- Claim C11 fails at the angles `(0, 90, 0)` and the vector `(0, 0, 1)`, with
the real sine and cosine: `RotateXYZ` returns `(-1, 0, 0)`, while
`RotateZ(0, RotateY(90, RotateX(0, v)))` is `(1, 0, 0)`. -/
theorem RotateXYZ_ne_RotateZ_RotateY_RotateX :
    RotateXYZ (GoMath.mk Real.sin Real.cos Real.pi) 0 90 0 (NewVector3D 0 0 1) =
      NewVector3D (-1) 0 0 ∧
    RotateZ (GoMath.mk Real.sin Real.cos Real.pi) 0
        (RotateY (GoMath.mk Real.sin Real.cos Real.pi) 90
          (RotateX (GoMath.mk Real.sin Real.cos Real.pi) 0 (NewVector3D 0 0 1))) =
      NewVector3D 1 0 0 ∧
    RotateXYZ (GoMath.mk Real.sin Real.cos Real.pi) 0 90 0 (NewVector3D 0 0 1) ≠
      RotateZ (GoMath.mk Real.sin Real.cos Real.pi) 0
        (RotateY (GoMath.mk Real.sin Real.cos Real.pi) 90
          (RotateX (GoMath.mk Real.sin Real.cos Real.pi) 0 (NewVector3D 0 0 1))) := by
  have e1 : (90 : ℝ) * (Real.pi / 180) = Real.pi / 2 := by ring
  have e2 : Real.pi / 180 * (90 : ℝ) = Real.pi / 2 := by ring
  have h1 : RotateXYZ (GoMath.mk Real.sin Real.cos Real.pi) 0 90 0 (NewVector3D 0 0 1) =
      NewVector3D (-1) 0 0 := by
    simp [RotateXYZ, piDiv180, NewVector3D, e1]
  have h2 : RotateZ (GoMath.mk Real.sin Real.cos Real.pi) 0
        (RotateY (GoMath.mk Real.sin Real.cos Real.pi) 90
          (RotateX (GoMath.mk Real.sin Real.cos Real.pi) 0 (NewVector3D 0 0 1))) =
      NewVector3D 1 0 0 := by
    simp [RotateX, RotateY, RotateZ, AngleToRadians, piDiv180, NewVector3D, e2]
  refine ⟨h1, h2, ?_⟩
  rw [h1, h2]
  intro h
  have hx := congrArg Vector3D.X h
  simp only [NewVector3D] at hx
  norm_num at hx

/-- Claim C11, amended: `RotateXYZ` applies the X rotation, then the Y rotation
by the opposite angle, then the Z rotation.  For a sine that is odd and a
cosine that is even, `RotateXYZ(ax, ay, az, v) =
RotateZ(az, RotateY(-ay, RotateX(ax, v)))` for all angles and every vector, in
exact arithmetic. -/
theorem RotateXYZ_eq_RotateZ_RotateY_neg_RotateX {K : Type} [Field K] (m : GoMath K)
    (ax ay az : K) (v : Vector3D K) (hsin : ∀ x, m.Sin (-x) = - m.Sin x)
    (hcos : ∀ x, m.Cos (-x) = m.Cos x) :
    RotateXYZ m ax ay az v = RotateZ m az (RotateY m (-ay) (RotateX m ax v)) := by
  have e : piDiv180 m * -ay = -(ay * piDiv180 m) := by ring
  simp only [RotateXYZ, RotateX, RotateY, RotateZ, AngleToRadians, NewVector3D, e, hsin, hcos,
    mul_comm (piDiv180 m)]
  apply Vector3D.eq_of_components <;> simp only <;> ring

/-- Claim C11, amended, at the real sine and cosine, the angles `(10, 20, 30)`
and the vector `(1, 2, 3)`. -/
theorem RotateXYZ_eq_RotateZ_RotateY_neg_RotateX_witness :
    (∀ x : ℝ, Real.sin (-x) = - Real.sin x) ∧ (∀ x : ℝ, Real.cos (-x) = Real.cos x) ∧
    RotateXYZ (GoMath.mk Real.sin Real.cos Real.pi) 10 20 30 (NewVector3D 1 2 3) =
      RotateZ (GoMath.mk Real.sin Real.cos Real.pi) 30
        (RotateY (GoMath.mk Real.sin Real.cos Real.pi) (-20)
          (RotateX (GoMath.mk Real.sin Real.cos Real.pi) 10 (NewVector3D 1 2 3))) :=
  ⟨Real.sin_neg, Real.cos_neg,
    RotateXYZ_eq_RotateZ_RotateY_neg_RotateX (GoMath.mk Real.sin Real.cos Real.pi) 10 20 30
      (NewVector3D 1 2 3) Real.sin_neg Real.cos_neg⟩

/-- Claim C12: `Perspective` and `PerspectiveInverse` are mutually inverse.
For every vector `v` and all `zoom`, `distance` with `zoom ≠ 0` and
`v.Z + distance ≠ 0`, in exact arithmetic,
`PerspectiveInverse(Perspective(v)) = v` and
`Perspective(PerspectiveInverse(v)) = v`, and both leave `Z` unchanged. -/
theorem Perspective_PerspectiveInverse {K : Type} [Field K] (v : Vector3D K)
    (zoom distance : K) (hz : zoom ≠ 0) (hd : v.Z + distance ≠ 0) :
    PerspectiveInverse (Perspective v zoom distance) zoom distance = v ∧
    Perspective (PerspectiveInverse v zoom distance) zoom distance = v ∧
    (Perspective v zoom distance).Z = v.Z ∧
    (PerspectiveInverse v zoom distance).Z = v.Z := by
  refine ⟨?_, ?_, rfl, rfl⟩
  · apply Vector3D.eq_of_components <;> simp only [Perspective, PerspectiveInverse, NewVector3D]
    · field_simp
      ring
    · field_simp
      ring
  · apply Vector3D.eq_of_components <;> simp only [Perspective, PerspectiveInverse, NewVector3D]
    · field_simp
      ring
    · field_simp
      ring

/-- Claim C12 at `v = (1, 2, 3)`, `zoom = 140`, `distance = 64` over the
rationals. -/
theorem Perspective_PerspectiveInverse_witness :
    (140 : ℚ) ≠ 0 ∧ (NewVector3D (1 : ℚ) 2 3).Z + 64 ≠ 0 ∧
    (PerspectiveInverse (Perspective (NewVector3D (1 : ℚ) 2 3) 140 64) 140 64 =
        NewVector3D (1 : ℚ) 2 3 ∧
      Perspective (PerspectiveInverse (NewVector3D (1 : ℚ) 2 3) 140 64) 140 64 =
        NewVector3D (1 : ℚ) 2 3 ∧
      (Perspective (NewVector3D (1 : ℚ) 2 3) 140 64).Z = (NewVector3D (1 : ℚ) 2 3).Z ∧
      (PerspectiveInverse (NewVector3D (1 : ℚ) 2 3) 140 64).Z = (NewVector3D (1 : ℚ) 2 3).Z) :=
  ⟨by norm_num, by norm_num [NewVector3D],
    Perspective_PerspectiveInverse (NewVector3D (1 : ℚ) 2 3) 140 64 (by norm_num)
      (by norm_num [NewVector3D])⟩

end Transform

/-! ## Cube geometry -/

theorem countedLoop_zero_succ {σ : Type} (n : Nat) (body : Nat → σ → σ) (s : σ) :
    countedLoop 0 (n + 1) body s = body n (countedLoop 0 n body s) := by
  simp only [countedLoop, Nat.sub_zero, List.range_succ, List.foldl_append, List.foldl_cons,
    List.foldl_nil, Nat.zero_add]

theorem countedLoop_zero_zero {σ : Type} (body : Nat → σ → σ) (s : σ) :
    countedLoop 0 0 body s = s := rfl

theorem countedLoop_zero_eq_foldl {σ : Type} (n : Nat) (body : Nat → σ → σ) (s : σ) :
    countedLoop 0 n body s = (List.range n).foldl (fun s i => body i s) s := by
  simp only [countedLoop, Nat.sub_zero, Nat.zero_add]

theorem foldl_ite_eq_foldl_filter {σ ι : Type} (p : ι → Bool) (f : ι → σ → σ) (l : List ι) :
    ∀ s : σ, l.foldl (fun s i => if p i = true then f i s else s) s =
      (l.filter p).foldl (fun s i => f i s) s := by
  induction l with
  | nil => intro s; rfl
  | cons i l ih =>
    intro s
    by_cases h : p i = true
    · rw [List.foldl_cons, if_pos h, List.filter_cons_of_pos h, List.foldl_cons, ih]
    · rw [List.foldl_cons, if_neg h, List.filter_cons_of_neg h, ih]

namespace Effects
open Vc64 Drawing Transform

/-- The vertex phase of `drawC64Cube` with the four directly transformed
vertices named: the other four are sums and differences of these. -/
theorem drawC64CubeVertices_eq {K : Type} [Field K] (m : GoMath K) (ax ay az s : K)
    (vs : List (Vector3D K)) (t0 t1 t3 t4 : Vector3D K)
    (h0 : t0 = RotateXYZ m ax ay az (ScaleVector3D (vs.getD 0 zeroVector3D) s))
    (h1 : t1 = RotateXYZ m ax ay az (ScaleVector3D (vs.getD 1 zeroVector3D) s))
    (h3 : t3 = RotateXYZ m ax ay az (ScaleVector3D (vs.getD 3 zeroVector3D) s))
    (h4 : t4 = RotateXYZ m ax ay az (ScaleVector3D (vs.getD 4 zeroVector3D) s)) :
    drawC64CubeVertices m ax ay az s vs =
      ([ t0, t1,
        { X := t1.X + (t3.X - t0.X), Y := t1.Y + (t3.Y - t0.Y), Z := t1.Z + (t3.Z - t0.Z) },
        t3, t4,
        { X := t1.X + (t4.X - t0.X), Y := t1.Y + (t4.Y - t0.Y), Z := t1.Z + (t4.Z - t0.Z) },
        { X := t1.X + (t4.X - t0.X) + (t3.X - t0.X), Y := t1.Y + (t4.Y - t0.Y) + (t3.Y - t0.Y),
          Z := t1.Z + (t4.Z - t0.Z) + (t3.Z - t0.Z) },
        { X := t3.X + (t4.X - t0.X), Y := t3.Y + (t4.Y - t0.Y), Z := t3.Z + (t4.Z - t0.Z) } ],
       [ Perspective t0 140 64, Perspective t1 140 64,
        Perspective
          { X := t1.X + (t3.X - t0.X), Y := t1.Y + (t3.Y - t0.Y), Z := t1.Z + (t3.Z - t0.Z) }
          140 64,
        Perspective t3 140 64, Perspective t4 140 64,
        Perspective
          { X := t1.X + (t4.X - t0.X), Y := t1.Y + (t4.Y - t0.Y), Z := t1.Z + (t4.Z - t0.Z) }
          140 64,
        Perspective
          { X := t1.X + (t4.X - t0.X) + (t3.X - t0.X),
            Y := t1.Y + (t4.Y - t0.Y) + (t3.Y - t0.Y),
            Z := t1.Z + (t4.Z - t0.Z) + (t3.Z - t0.Z) } 140 64,
        Perspective
          { X := t3.X + (t4.X - t0.X), Y := t3.Y + (t4.Y - t0.Y), Z := t3.Z + (t4.Z - t0.Z) }
          140 64 ]) := by
  subst h0 h1 h3 h4
  rfl

theorem resVtx_eq_map {K : Type} [Field K] (m : GoMath K) (ax ay az s : K) :
    (drawC64CubeVertices m ax ay az s vertexes).1 =
      vertexes.map (fun v => RotateXYZ m ax ay az (ScaleVector3D v s)) := by
  rw [drawC64CubeVertices_eq m ax ay az s vertexes _ _ _ _ rfl rfl rfl rfl]
  simp only [vertexes, List.map_cons, List.map_nil, List.getD_cons_zero, List.getD_cons_succ,
    List.cons.injEq, and_true, true_and]
  simp only [RotateXYZ, ScaleVector3D, NewVector3D, Vector3D.mk.injEq]
  refine ⟨⟨?_, ?_, ?_⟩, ⟨?_, ?_, ?_⟩, ⟨?_, ?_, ?_⟩, ⟨?_, ?_, ?_⟩⟩ <;> ring

/-- Claim C13: for every angle triple and every scale `s`, the eight
unprojected vertices `resVtx[0..7]` that `drawC64Cube` computes from the
canonical vertex table (four transformed directly, `{2,5,6,7}` derived from the
edge vectors `v4-v0` and `v3-v0`) are the direct transforms
`RotateXYZ(ax, ay, az, ScaleVector3D(vertexes[i], s))` of the canonical
vertices, in exact arithmetic and for any sine and cosine. -/
theorem drawC64Cube_resVtx_eq_direct_transform {K : Type} [Field K] (m : GoMath K)
    (ax ay az s : K) :
    (drawC64CubeVertices m ax ay az s vertexes).1 =
      vertexes.map (fun v => RotateXYZ m ax ay az (ScaleVector3D v s)) ∧
    (drawC64CubeVertices m ax ay az s vertexes).1.length = 8 := by
  refine ⟨resVtx_eq_map m ax ay az s, ?_⟩
  rw [resVtx_eq_map]
  rfl

/-- Claim C14: for rotation `(0,0,0)` and every scale `s`, the eight
unprojected vertices computed by `drawC64Cube` are the canonical unit-cube
vertices multiplied componentwise by `s`, given `sin 0 = 0` and `cos 0 = 1`. -/
theorem drawC64Cube_resVtx_at_zero_rotation {K : Type} [Field K] (m : GoMath K) (s : K)
    (hsin : m.Sin 0 = 0) (hcos : m.Cos 0 = 1) :
    (drawC64CubeVertices m 0 0 0 s vertexes).1 =
      vertexes.map (fun v => { X := s * v.X, Y := s * v.Y, Z := s * v.Z }) := by
  rw [resVtx_eq_map]
  apply List.map_congr_left
  intro v _
  simp only [RotateXYZ, ScaleVector3D, NewVector3D, zero_mul, hsin, hcos, Vector3D.mk.injEq]
  refine ⟨?_, ?_, ?_⟩ <;> ring

/-- Claim C14 with the real sine and cosine at scale 30. -/
theorem drawC64Cube_resVtx_at_zero_rotation_witness :
    Real.sin 0 = 0 ∧ Real.cos 0 = 1 ∧
    (drawC64CubeVertices (GoMath.mk Real.sin Real.cos Real.pi) 0 0 0 30 vertexes).1 =
      vertexes.map (fun v => { X := 30 * v.X, Y := 30 * v.Y, Z := 30 * v.Z }) :=
  ⟨Real.sin_zero, Real.cos_zero,
    drawC64Cube_resVtx_at_zero_rotation (GoMath.mk Real.sin Real.cos Real.pi) 30 Real.sin_zero
      Real.cos_zero⟩

end Effects

namespace Effects
open Vc64 Drawing Transform

theorem drawC64Cube_eq_foldl_filter {K : Type} [LinearOrderedField K] [FloorRing K]
    (m : GoMath K) (ax ay az scale : K) (frameBufferAddr columns rows : Nat)
    (vs : List (Vector3D K)) (fs : List (List Nat)) (colors : List Nat) (ram : C64RAM) :
    drawC64Cube m ax ay az scale frameBufferAddr columns rows vs fs colors ram =
      ((List.range 6).filter
        (fun c0 => decide (0 < FaceVisibilityTest
          (faceVertex (drawC64CubeVertices m ax ay az scale vs).2 fs c0 0)
          (faceVertex (drawC64CubeVertices m ax ay az scale vs).2 fs c0 1)
          (faceVertex (drawC64CubeVertices m ax ay az scale vs).2 fs c0 2)))).foldl
        (fun r c0 =>
          drawFaceC64NormalInt (colors.getD c0 0)
            (f2i16 ((faceVertex (drawC64CubeVertices m ax ay az scale vs).2 fs c0 0).X + 80))
            (f2i16 ((faceVertex (drawC64CubeVertices m ax ay az scale vs).2 fs c0 0).Y + 50))
            (f2i16 ((faceVertex (drawC64CubeVertices m ax ay az scale vs).2 fs c0 1).X + 80))
            (f2i16 ((faceVertex (drawC64CubeVertices m ax ay az scale vs).2 fs c0 1).Y + 50))
            (f2i16 ((faceVertex (drawC64CubeVertices m ax ay az scale vs).2 fs c0 2).X + 80))
            (f2i16 ((faceVertex (drawC64CubeVertices m ax ay az scale vs).2 fs c0 2).Y + 50))
            (f2i16 ((faceVertex (drawC64CubeVertices m ax ay az scale vs).2 fs c0 3).X + 80))
            (f2i16 ((faceVertex (drawC64CubeVertices m ax ay az scale vs).2 fs c0 3).Y + 50))
            frameBufferAddr columns rows r) ram := by
  have e80 : ((Int.tdiv 160 2 : Int) : K) = 80 := by
    have : Int.tdiv 160 2 = 80 := by decide
    rw [this]
    norm_num
  have e50 : ((Int.tdiv 100 2 : Int) : K) = 50 := by
    have : Int.tdiv 100 2 = 50 := by decide
    rw [this]
    norm_num
  rw [← foldl_ite_eq_foldl_filter]
  simp only [drawC64Cube, countedLoop_zero_eq_foldl, drawC64CubeFace, faceVertex, e80, e50,
    gt_iff_lt, decide_eq_true_eq]

theorem getD_eq_zero_of_all_zero {K : Type} [Field K] (l : List (Vector3D K))
    (h : ∀ v ∈ l, v = zeroVector3D) (i : Nat) : l.getD i zeroVector3D = zeroVector3D := by
  by_cases hi : i < l.length
  · rw [List.getD_eq_getElem l zeroVector3D hi]
    exact h _ (List.getElem_mem hi)
  · rw [List.getD_eq_default l zeroVector3D (not_lt.mp hi)]

theorem allResVtxPersp_scale_zero {K : Type} [Field K] (m : GoMath K) (ax ay az : K)
    (vs : List (Vector3D K)) :
    ∀ v ∈ (drawC64CubeVertices m ax ay az 0 vs).2, v = zeroVector3D := by
  rw [drawC64CubeVertices_eq m ax ay az 0 vs _ _ _ _ rfl rfl rfl rfl]
  intro v hv
  simp only [ScaleVector3D, RotateXYZ, NewVector3D, Perspective, mul_zero, zero_mul, sub_zero,
    add_zero, zero_div, List.mem_cons, List.mem_singleton, List.not_mem_nil, or_false,
    or_self] at hv
  rw [hv]
  rfl

theorem faceTest_scale_zero {K : Type} [LinearOrderedField K] (m : GoMath K) (ax ay az : K)
    (vs : List (Vector3D K)) (fs : List (List Nat)) (c0 : Nat) :
    FaceVisibilityTest (faceVertex (drawC64CubeVertices m ax ay az 0 vs).2 fs c0 0)
      (faceVertex (drawC64CubeVertices m ax ay az 0 vs).2 fs c0 1)
      (faceVertex (drawC64CubeVertices m ax ay az 0 vs).2 fs c0 2) ≤ 0 := by
  have h := getD_eq_zero_of_all_zero _ (allResVtxPersp_scale_zero m ax ay az vs)
  simp only [faceVertex, h]
  simp only [FaceVisibilityTest, zeroVector3D, sub_zero, mul_zero, le_refl]

/-- Claim C15: in `drawC64Cube` a face is rasterized if and only if
`FaceVisibilityTest` of its first three projected vertices is strictly
positive.  The RAM after the call is the RAM obtained by rasterizing, in face
order, exactly the faces that pass the test; a face with result `<= 0` causes
no write, so when all six faces fail the test the RAM is unchanged. -/
theorem drawC64Cube_rasterizes_exactly_visible_faces {K : Type} [LinearOrderedField K]
    [FloorRing K] (m : GoMath K) (ax ay az scale : K) (frameBufferAddr columns rows : Nat)
    (vs : List (Vector3D K)) (fs : List (List Nat)) (colors : List Nat) (ram : C64RAM) :
    let P := (drawC64CubeVertices m ax ay az scale vs).2
    drawC64Cube m ax ay az scale frameBufferAddr columns rows vs fs colors ram =
      ((List.range 6).filter
        (fun c0 => decide (0 < FaceVisibilityTest (faceVertex P fs c0 0)
          (faceVertex P fs c0 1) (faceVertex P fs c0 2)))).foldl
        (fun r c0 =>
          drawFaceC64NormalInt (colors.getD c0 0)
            (f2i16 ((faceVertex P fs c0 0).X + 80)) (f2i16 ((faceVertex P fs c0 0).Y + 50))
            (f2i16 ((faceVertex P fs c0 1).X + 80)) (f2i16 ((faceVertex P fs c0 1).Y + 50))
            (f2i16 ((faceVertex P fs c0 2).X + 80)) (f2i16 ((faceVertex P fs c0 2).Y + 50))
            (f2i16 ((faceVertex P fs c0 3).X + 80)) (f2i16 ((faceVertex P fs c0 3).Y + 50))
            frameBufferAddr columns rows r) ram ∧
    ((∀ c0, c0 < 6 → FaceVisibilityTest (faceVertex P fs c0 0) (faceVertex P fs c0 1)
        (faceVertex P fs c0 2) ≤ 0) →
      drawC64Cube m ax ay az scale frameBufferAddr columns rows vs fs colors ram = ram) := by
  intro P
  have h := drawC64Cube_eq_foldl_filter m ax ay az scale frameBufferAddr columns rows vs fs
    colors ram
  refine ⟨h, fun hall => ?_⟩
  rw [h]
  have hnil : (List.range 6).filter
      (fun c0 => decide (0 < FaceVisibilityTest
        (faceVertex (drawC64CubeVertices m ax ay az scale vs).2 fs c0 0)
        (faceVertex (drawC64CubeVertices m ax ay az scale vs).2 fs c0 1)
        (faceVertex (drawC64CubeVertices m ax ay az scale vs).2 fs c0 2))) = [] := by
    rw [List.filter_eq_nil_iff]
    intro c0 hc0
    rw [decide_eq_true_eq]
    exact not_lt.mpr (hall c0 (List.mem_range.mp hc0))
  rw [hnil]
  rfl

end Effects

namespace Effects
open Vc64 Drawing Transform

/-- Claim C15 at scale 0 with the real sine and cosine, the canonical tables
and the angles `(10, 20, 30)`: every face has test value `<= 0` and the
all-zero RAM is returned unchanged. -/
theorem drawC64Cube_rasterizes_exactly_visible_faces_witness :
    (∀ c0, c0 < 6 →
      FaceVisibilityTest
        (faceVertex (drawC64CubeVertices (GoMath.mk Real.sin Real.cos Real.pi) 10 20 30 0
          vertexes).2 faces c0 0)
        (faceVertex (drawC64CubeVertices (GoMath.mk Real.sin Real.cos Real.pi) 10 20 30 0
          vertexes).2 faces c0 1)
        (faceVertex (drawC64CubeVertices (GoMath.mk Real.sin Real.cos Real.pi) 10 20 30 0
          vertexes).2 faces c0 2) ≤ 0) ∧
    drawC64Cube (GoMath.mk Real.sin Real.cos Real.pi) 10 20 30 0 0x8000 40 200 vertexes faces
      [1, 2, 3, 4, 5, 6] C64RAM.zero = C64RAM.zero :=
  ⟨fun c0 _ => faceTest_scale_zero _ 10 20 30 vertexes faces c0,
    (drawC64Cube_rasterizes_exactly_visible_faces (GoMath.mk Real.sin Real.cos Real.pi)
      10 20 30 0 0x8000 40 200 vertexes faces [1, 2, 3, 4, 5, 6] C64RAM.zero).2
      (fun c0 _ => faceTest_scale_zero _ 10 20 30 vertexes faces c0)⟩

end Effects

/-! ## Scene composer: frame copy and buffer clear -/

namespace Vc64

theorem foldl_set_ram (v lo : Nat) (n : Nat) :
    ∀ (ram : C64RAM) (a : Nat),
      ((List.range n).foldl (fun r i => r.CPUBusSetUByte8 (lo + i) v) ram).ram a =
        if lo ≤ a ∧ a < lo + n then v else ram.ram a := by
  induction n with
  | zero =>
    intro ram a
    have h : ¬ (lo ≤ a ∧ a < lo + 0) := by omega
    rw [if_neg h]
    rfl
  | succ n ih =>
    intro ram a
    rw [List.range_succ, List.foldl_append, List.foldl_cons, List.foldl_nil]
    show (if a = lo + n then v else _) = _
    by_cases ha : a = lo + n
    · rw [if_pos ha, if_pos (by omega)]
    · rw [if_neg ha, ih]
      by_cases h : lo ≤ a ∧ a < lo + n
      · rw [if_pos h, if_pos (by omega)]
      · rw [if_neg h, if_neg (by omega)]

/-- The CPU-visible RAM after `CPUFillRAM`. -/
theorem C64RAM.CPUFillRAM_ram (ram : C64RAM) (value startAddr count a : Nat) :
    (ram.CPUFillRAM value startAddr count).ram a =
      if startAddr ≤ a ∧ a < (startAddr + count) % 65536 then value else ram.ram a := by
  rw [C64RAM.CPUFillRAM, countedLoop, foldl_set_ram]
  by_cases h : startAddr ≤ a ∧ a < (startAddr + count) % 65536
  · rw [if_pos h, if_pos (by omega)]
  · rw [if_neg h, if_neg (by omega)]

theorem C64RAM.CPUGetRAMSlice_of_le (ram : C64RAM) (startAddr count : Nat)
    (h : startAddr + count ≤ 65535) :
    ram.CPUGetRAMSlice startAddr count =
      some ((List.range count).map (fun i => ram.ram (startAddr + i))) := by
  have e : (startAddr + count) % 65536 = startAddr + count := Nat.mod_eq_of_lt (by omega)
  rw [C64RAM.CPUGetRAMSlice]
  simp only [e, Nat.le_add_right, if_true, Nat.add_sub_cancel_left]

end Vc64

theorem goCopy_replicate_of_length_eq (n : Nat) (src : List Nat) (h : src.length = n) :
    goCopy (List.replicate n 0) src = src := by
  rw [goCopy, List.length_replicate, ← h, List.take_length, List.drop_eq_nil_of_le,
    List.append_nil]
  rw [List.length_replicate]

namespace Effects
open Vc64 Drawing Transform

theorem DrawNestedCubes_eq_some {K : Type} [LinearOrderedField K] [FloorRing K] (m : GoMath K)
    (colors : List (List Nat)) (currentTime : Int) (frameBufferAddr bitmapAddr : Nat)
    (ram : C64RAM) (h : bitmapAddr + 8640 ≤ 65535) :
    DrawNestedCubes m colors currentTime frameBufferAddr bitmapAddr ram =
      some ((List.range 8640).map (fun i =>
          (drawNestedCubesFolded m colors currentTime frameBufferAddr bitmapAddr ram).ram
            (bitmapAddr + i)),
        (drawNestedCubesFolded m colors currentTime frameBufferAddr bitmapAddr
          ram).CPUFillRAM 0 frameBufferAddr 8640) := by
  have e : backbufferFrameBufferSize = 8640 := by decide
  rw [DrawNestedCubes]
  simp only [e, C64RAM.CPUGetRAMSlice_of_le _ _ _ h]
  rw [goCopy_replicate_of_length_eq]
  rw [List.length_map, List.length_range]

/-- Claim C19: for every frame counter and all addresses with
`bitmapAddr + 8640 <= 65535`, `DrawNestedCubes` returns a byte sequence of
length exactly 8640 whose `i`-th byte is the RAM byte at `bitmapAddr + i` as
left by the XOR-fold step. -/
theorem DrawNestedCubes_returns_front_buffer {K : Type} [LinearOrderedField K] [FloorRing K]
    (m : GoMath K) (colors : List (List Nat)) (currentTime : Int)
    (frameBufferAddr bitmapAddr : Nat) (ram : C64RAM) (h : bitmapAddr + 8640 ≤ 65535) :
    ∃ frame ramAfter,
      DrawNestedCubes m colors currentTime frameBufferAddr bitmapAddr ram =
        some (frame, ramAfter) ∧
      frame.length = 8640 ∧
      ∀ i, i < 8640 →
        frame.getD i 0 =
          (drawNestedCubesFolded m colors currentTime frameBufferAddr bitmapAddr
            ram).CPUBusGetUByte8 (bitmapAddr + i) := by
  refine ⟨_, _, DrawNestedCubes_eq_some m colors currentTime frameBufferAddr bitmapAddr ram h,
    ?_, ?_⟩
  · rw [List.length_map, List.length_range]
  · intro i hi
    rw [List.getD_eq_getElem _ _ (by rw [List.length_map, List.length_range]; exact hi)]
    simp only [List.getElem_map, List.getElem_range, C64RAM.CPUBusGetUByte8]

/-- Claim C19 for frame 0, working buffer `0x8000`, bitmap `0x2000`, the real
sine and cosine, a sample colour table and the all-zero RAM. -/
theorem DrawNestedCubes_returns_front_buffer_witness :
    0x2000 + 8640 ≤ 65535 ∧
    ∃ frame ramAfter,
      DrawNestedCubes (GoMath.mk Real.sin Real.cos Real.pi) cubeColorsSample 0 0x8000 0x2000
          C64RAM.zero =
        some (frame, ramAfter) ∧
      frame.length = 8640 ∧
      ∀ i, i < 8640 →
        frame.getD i 0 =
          (drawNestedCubesFolded (GoMath.mk Real.sin Real.cos Real.pi) cubeColorsSample 0
            0x8000 0x2000 C64RAM.zero).CPUBusGetUByte8 (0x2000 + i) :=
  ⟨by decide,
    DrawNestedCubes_returns_front_buffer (GoMath.mk Real.sin Real.cos Real.pi)
      cubeColorsSample 0 0x8000 0x2000 C64RAM.zero (by decide)⟩

/-- Claim C20: whenever `DrawNestedCubes` returns, with
`frameBufferAddr + 8640 <= 65535`, every RAM byte in the working buffer
`[frameBufferAddr, frameBufferAddr + 8640)` is 0, for every frame counter and
every prior RAM state. -/
theorem DrawNestedCubes_clears_working_buffer {K : Type} [LinearOrderedField K] [FloorRing K]
    (m : GoMath K) (colors : List (List Nat)) (currentTime : Int)
    (frameBufferAddr bitmapAddr : Nat) (ram : C64RAM) (frame : List Nat) (ramAfter : C64RAM)
    (h : frameBufferAddr + 8640 ≤ 65535)
    (hret : DrawNestedCubes m colors currentTime frameBufferAddr bitmapAddr ram =
      some (frame, ramAfter)) :
    ∀ a, frameBufferAddr ≤ a → a < frameBufferAddr + 8640 → ramAfter.CPUBusGetUByte8 a = 0 := by
  have e : backbufferFrameBufferSize = 8640 := by decide
  intro a h1 h2
  rw [DrawNestedCubes] at hret
  simp only [e] at hret
  cases hs : (drawNestedCubesFolded m colors currentTime frameBufferAddr bitmapAddr
      ram).CPUGetRAMSlice bitmapAddr 8640 with
  | none =>
    rw [hs] at hret
    exact absurd hret (by simp)
  | some slice =>
    rw [hs] at hret
    simp only [Option.some.injEq, Prod.mk.injEq] at hret
    rw [← hret.2, C64RAM.CPUBusGetUByte8, C64RAM.CPUFillRAM_ram,
      Nat.mod_eq_of_lt (by omega : frameBufferAddr + 8640 < 65536), if_pos ⟨h1, h2⟩]

/-- Claim C20 for frame 0, working buffer `0x8000`, bitmap `0x2000`, the real
sine and cosine, a sample colour table and the all-zero RAM: the call returns and the
working buffer is zero. -/
theorem DrawNestedCubes_clears_working_buffer_witness :
    0x8000 + 8640 ≤ 65535 ∧
    ∃ frame ramAfter,
      DrawNestedCubes (GoMath.mk Real.sin Real.cos Real.pi) cubeColorsSample 0 0x8000 0x2000
          C64RAM.zero =
        some (frame, ramAfter) ∧
      ∀ a, 0x8000 ≤ a → a < 0x8000 + 8640 → ramAfter.CPUBusGetUByte8 a = 0 :=
  ⟨by decide, _, _,
    DrawNestedCubes_eq_some (GoMath.mk Real.sin Real.cos Real.pi) cubeColorsSample 0 0x8000
      0x2000 C64RAM.zero (by decide),
    DrawNestedCubes_clears_working_buffer (GoMath.mk Real.sin Real.cos Real.pi)
      cubeColorsSample 0 0x8000 0x2000 C64RAM.zero _ _ (by decide)
      (DrawNestedCubes_eq_some (GoMath.mk Real.sin Real.cos Real.pi) cubeColorsSample 0
        0x8000 0x2000 C64RAM.zero (by decide))⟩

end Effects

/-! ## XOR fill -/

namespace Drawing
open Vc64

theorem fillAddr_eq (base c q : Nat) :
    (base + (c * 8 + ((q >>> 3) * 320) + (q &&& 0x07)) % 65536) % 65536 =
      fillCellAddr base c q := by
  rw [fillCellAddr]
  omega

theorem fillAddr_mod_eq (base c q q' : Nat) (h : q' % 65536 = q % 65536) :
    (base + (c * 8 + ((q' >>> 3) * 320) + (q' &&& 0x07)) % 65536) % 65536 =
      fillCellAddr base c q := by
  have e7 : ∀ n : Nat, n &&& 0x07 = n % 8 := fun n => Nat.and_pow_two_sub_one_eq_mod n 3
  have e7' : ∀ n : Nat, n &&& 7 = n % 8 := fun n => Nat.and_pow_two_sub_one_eq_mod n 3
  rw [fillCellAddr, e7, e7', Nat.shiftRight_eq_div_pow, Nat.shiftRight_eq_div_pow]
  norm_num
  omega

theorem eorFillEvenOddRow_eq (frameBufferAddr bitmapAddr rows column row : Nat)
    (st : Nat × Nat × C64RAM) :
    eorFillEvenOddRow frameBufferAddr bitmapAddr rows 8 column row st =
      eorCellStep (fillCellAddr frameBufferAddr column row)
        (fillCellAddr bitmapAddr column (2 * row))
        (fillCellAddr frameBufferAddr column (rows / 2 + 8 + row))
        (fillCellAddr bitmapAddr column (2 * row + 1)) st := by
  have a1 := fillAddr_eq frameBufferAddr column row
  have a2 := fillAddr_mod_eq bitmapAddr column (2 * row) ((row * 2 + 0) % 65536) (by omega)
  have a3 := fillAddr_mod_eq frameBufferAddr column (rows / 2 + 8 + row)
    ((row + rows / 2 + 8) % 65536) (by omega)
  have a4 := fillAddr_mod_eq bitmapAddr column (2 * row + 1) ((row * 2 + 1) % 65536)
    (by omega)
  simp only [eorFillEvenOddRow, eorCellStep, a1, a2, a3, a4]

theorem EORFillEvenOddBitmap_eq_eorCellFill (frameBufferAddr bitmapAddr initValue columns
    rows : Nat) (ram : C64RAM) :
    EORFillEvenOddBitmap frameBufferAddr bitmapAddr initValue columns rows ram =
      eorCellFill (fun c r => fillCellAddr frameBufferAddr c r)
        (fun c r => fillCellAddr bitmapAddr c (2 * r))
        (fun c r => fillCellAddr frameBufferAddr c (rows / 2 + 8 + r))
        (fun c r => fillCellAddr bitmapAddr c (2 * r + 1)) initValue columns rows ram := by
  have hrow : ∀ c, eorFillEvenOddRow frameBufferAddr bitmapAddr rows 8 c =
      fun r st => eorCellStep (fillCellAddr frameBufferAddr c r)
        (fillCellAddr bitmapAddr c (2 * r))
        (fillCellAddr frameBufferAddr c (rows / 2 + 8 + r))
        (fillCellAddr bitmapAddr c (2 * r + 1)) st := by
    intro c
    funext r st
    exact eorFillEvenOddRow_eq frameBufferAddr bitmapAddr rows c r st
  have hcol : eorFillEvenOddColumn frameBufferAddr bitmapAddr initValue rows 8 =
      fun c ram => (countedLoop 0 rows
        (fun r st => eorCellStep (fillCellAddr frameBufferAddr c r)
          (fillCellAddr bitmapAddr c (2 * r))
          (fillCellAddr frameBufferAddr c (rows / 2 + 8 + r))
          (fillCellAddr bitmapAddr c (2 * r + 1)) st) (initValue, initValue, ram)).2.2 := by
    funext c ram
    rw [eorFillEvenOddColumn, hrow]
  show countedLoop 0 columns
    (eorFillEvenOddColumn frameBufferAddr bitmapAddr initValue rows 8) ram = _
  rw [hcol]
  rfl

/-! ### The fill over abstract cell addresses -/

theorem setUByte8_ram (r : C64RAM) (x v a : Nat) :
    (r.CPUBusSetUByte8 x v).ram a = if a = x then v else r.ram a := rfl

theorem xorUpTo_succ (init : Nat) (f : Nat → Nat) (n : Nat) :
    xorUpTo init f (n + 1) = xorUpTo init f n ^^^ f n := by
  simp only [xorUpTo, List.range_succ, List.foldl_append, List.foldl_cons, List.foldl_nil]

theorem xorUpTo_congr (init : Nat) (f g : Nat → Nat) (n : Nat) (h : ∀ j, j < n → f j = g j) :
    xorUpTo init f n = xorUpTo init g n := by
  induction n with
  | zero => rfl
  | succ n ih =>
    rw [xorUpTo_succ, xorUpTo_succ, ih (fun j hj => h j (Nat.lt_succ_of_lt hj)),
      h n (Nat.lt_succ_self n)]

/-- The inner loop of the fill on one column, when its reads stay clear of its
writes and its writes are pairwise distinct. -/
theorem eorRows_spec (iE oE iO oO : Nat → Nat) (init : Nat) (R : C64RAM) (n : Nat)
    (hd : ∀ r r', r < n → r' < n →
      iE r ≠ oE r' ∧ iE r ≠ oO r' ∧ iO r ≠ oE r' ∧ iO r ≠ oO r')
    (hinj : ∀ r r', r < n → r' < n →
      (oE r = oE r' → r = r') ∧ (oO r = oO r' → r = r') ∧ oE r ≠ oO r') :
    (countedLoop 0 n (fun r st => eorCellStep (iE r) (oE r) (iO r) (oO r) st)
        (init, init, R)).1 = xorUpTo init (fun j => R.ram (iE j)) n ∧
    (countedLoop 0 n (fun r st => eorCellStep (iE r) (oE r) (iO r) (oO r) st)
        (init, init, R)).2.1 = xorUpTo init (fun j => R.ram (iO j)) n ∧
    (∀ a, (∀ r, r < n → a ≠ oE r ∧ a ≠ oO r) →
      (countedLoop 0 n (fun r st => eorCellStep (iE r) (oE r) (iO r) (oO r) st)
        (init, init, R)).2.2.ram a = R.ram a) ∧
    (∀ r, r < n →
      (countedLoop 0 n (fun r st => eorCellStep (iE r) (oE r) (iO r) (oO r) st)
          (init, init, R)).2.2.ram (oE r) = xorUpTo init (fun j => R.ram (iE j)) (r + 1) ∧
      (countedLoop 0 n (fun r st => eorCellStep (iE r) (oE r) (iO r) (oO r) st)
          (init, init, R)).2.2.ram (oO r) = xorUpTo init (fun j => R.ram (iO j)) (r + 1)) := by
  induction n with
  | zero =>
    refine ⟨rfl, rfl, fun a _ => rfl, fun r hr => absurd hr (Nat.not_lt_zero r)⟩
  | succ n ih =>
    obtain ⟨ih1, ih2, ih3, ih4⟩ := ih
      (fun r r' hr hr' => hd r r' (Nat.lt_succ_of_lt hr) (Nat.lt_succ_of_lt hr'))
      (fun r r' hr hr' => hinj r r' (Nat.lt_succ_of_lt hr) (Nat.lt_succ_of_lt hr'))
    have hn : n < n + 1 := Nat.lt_succ_self n
    rw [countedLoop_zero_succ]
    generalize countedLoop 0 n (fun r st => eorCellStep (iE r) (oE r) (iO r) (oO r) st)
      (init, init, R) = st at ih1 ih2 ih3 ih4
    have hrE : st.2.2.ram (iE n) = R.ram (iE n) :=
      ih3 _ (fun r hr => ⟨(hd n r hn (Nat.lt_succ_of_lt hr)).1,
        (hd n r hn (Nat.lt_succ_of_lt hr)).2.1⟩)
    have hrO : st.2.2.ram (iO n) = R.ram (iO n) :=
      ih3 _ (fun r hr => ⟨(hd n r hn (Nat.lt_succ_of_lt hr)).2.2.1,
        (hd n r hn (Nat.lt_succ_of_lt hr)).2.2.2⟩)
    have hne : iO n ≠ oE n := (hd n n hn hn).2.2.1
    have hev : (eorCellStep (iE n) (oE n) (iO n) (oO n) st).1 =
        xorUpTo init (fun j => R.ram (iE j)) (n + 1) := by
      simp only [eorCellStep, C64RAM.CPUBusGetUByte8]
      rw [xorUpTo_succ, ih1, hrE]
    have hod : (eorCellStep (iE n) (oE n) (iO n) (oO n) st).2.1 =
        xorUpTo init (fun j => R.ram (iO j)) (n + 1) := by
      simp only [eorCellStep, C64RAM.CPUBusGetUByte8, setUByte8_ram, if_neg hne]
      rw [xorUpTo_succ, ih2, hrO]
    have hram : ∀ a, (eorCellStep (iE n) (oE n) (iO n) (oO n) st).2.2.ram a =
        if a = oO n then xorUpTo init (fun j => R.ram (iO j)) (n + 1)
        else if a = oE n then xorUpTo init (fun j => R.ram (iE j)) (n + 1)
        else st.2.2.ram a := by
      intro a
      rw [← hev, ← hod]
      rfl
    refine ⟨hev, hod, ?_, ?_⟩
    · intro a ha
      rw [hram, if_neg (ha n hn).2, if_neg (ha n hn).1]
      exact ih3 a (fun r hr => ha r (Nat.lt_succ_of_lt hr))
    · intro r hr
      rw [hram, hram]
      by_cases hrn : r = n
      · subst hrn
        rw [if_neg (hinj r r hn hn).2.2, if_pos rfl, if_pos rfl]
        exact ⟨rfl, rfl⟩
      · have hr' : r < n := by omega
        have h1 := hinj r n hr hn
        have h2 := hinj n r hn hr
        rw [if_neg h1.2.2, if_neg (fun h => hrn (h1.1 h)), if_neg (fun h => hrn (h1.2.1 h)),
          if_neg (fun h => h2.2.2 h.symm)]
        exact ih4 r hr'

end Drawing

namespace Drawing
open Vc64

theorem eorCellStep_ram (iE oE iO oO a : Nat) (st : Nat × Nat × C64RAM) :
    (eorCellStep iE oE iO oO st).2.2.ram a =
      if a = oO then (eorCellStep iE oE iO oO st).2.1
      else if a = oE then (eorCellStep iE oE iO oO st).1
      else st.2.2.ram a := rfl

theorem eorCellStep_sameOtherAreas (iE oE iO oO : Nat) (st : Nat × Nat × C64RAM) :
    sameOtherAreas (eorCellStep iE oE iO oO st).2.2 st.2.2 :=
  ⟨rfl, rfl, rfl, rfl, rfl⟩

theorem sameOtherAreas_trans {r s t : C64RAM} (h1 : sameOtherAreas r s)
    (h2 : sameOtherAreas s t) : sameOtherAreas r t :=
  ⟨h1.1.trans h2.1, h1.2.1.trans h2.2.1, h1.2.2.1.trans h2.2.2.1,
    h1.2.2.2.1.trans h2.2.2.2.1, h1.2.2.2.2.trans h2.2.2.2.2⟩

theorem eq_of_ram_eq_of_sameOtherAreas {r s : C64RAM} (h : r.ram = s.ram)
    (h2 : sameOtherAreas r s) : r = s := by
  cases r
  cases s
  obtain ⟨a, b, c, d, e⟩ := h2
  simp only at h a b c d e
  subst h a b c d e
  rfl

/-- The inner loop of the fill leaves every byte that is no output cell of the
column as it was, and touches no other area. -/
theorem eorRows_frame (iE oE iO oO : Nat → Nat) (st0 : Nat × Nat × C64RAM) (n : Nat) :
    (∀ a, (∀ r, r < n → a ≠ oE r ∧ a ≠ oO r) →
      (countedLoop 0 n (fun r st => eorCellStep (iE r) (oE r) (iO r) (oO r) st)
        st0).2.2.ram a = st0.2.2.ram a) ∧
    sameOtherAreas
      (countedLoop 0 n (fun r st => eorCellStep (iE r) (oE r) (iO r) (oO r) st) st0).2.2
      st0.2.2 := by
  induction n with
  | zero => exact ⟨fun a _ => rfl, rfl, rfl, rfl, rfl, rfl⟩
  | succ n ih =>
    rw [countedLoop_zero_succ]
    refine ⟨fun a ha => ?_, sameOtherAreas_trans (eorCellStep_sameOtherAreas _ _ _ _ _) ih.2⟩
    rw [eorCellStep_ram, if_neg (ha n (Nat.lt_succ_self n)).2,
      if_neg (ha n (Nat.lt_succ_self n)).1]
    exact ih.1 a (fun r hr => ha r (Nat.lt_succ_of_lt hr))

/-- The fill leaves every byte that is no output cell as it was, and touches
no other area. -/
theorem eorCellFill_frame (iE oE iO oO : Nat → Nat → Nat) (init rows : Nat) (R : C64RAM)
    (m : Nat) :
    (∀ a, (∀ c r, c < m → r < rows → a ≠ oE c r ∧ a ≠ oO c r) →
      (eorCellFill iE oE iO oO init m rows R).ram a = R.ram a) ∧
    sameOtherAreas (eorCellFill iE oE iO oO init m rows R) R := by
  induction m with
  | zero => exact ⟨fun a _ => rfl, rfl, rfl, rfl, rfl, rfl⟩
  | succ m ih =>
    rw [eorCellFill, countedLoop_zero_succ]
    have hf := eorRows_frame (iE m) (oE m) (iO m) (oO m)
      (init, init, eorCellFill iE oE iO oO init m rows R) rows
    refine ⟨fun a ha => ?_, sameOtherAreas_trans hf.2 ih.2⟩
    have h1 := hf.1 a (fun r hr => ha m r (Nat.lt_succ_self m) hr)
    exact h1.trans (ih.1 a (fun c r hc hr => ha c r (Nat.lt_succ_of_lt hc) hr))

/-- The fill when its reads stay clear of its writes and distinct output cells
have distinct addresses: every output cell holds the running XOR of the input
cells of its column. -/
theorem eorCellFill_spec (iE oE iO oO : Nat → Nat → Nat) (init rows : Nat) (R : C64RAM)
    (m : Nat)
    (hd : ∀ c r c' r', c < m → r < rows → c' < m → r' < rows →
      iE c r ≠ oE c' r' ∧ iE c r ≠ oO c' r' ∧ iO c r ≠ oE c' r' ∧ iO c r ≠ oO c' r')
    (hinj : ∀ c r c' r', c < m → r < rows → c' < m → r' < rows →
      (oE c r = oE c' r' → c = c' ∧ r = r') ∧ (oO c r = oO c' r' → c = c' ∧ r = r') ∧
        oE c r ≠ oO c' r') :
    ∀ c r, c < m → r < rows →
      (eorCellFill iE oE iO oO init m rows R).ram (oE c r) =
        xorUpTo init (fun j => R.ram (iE c j)) (r + 1) ∧
      (eorCellFill iE oE iO oO init m rows R).ram (oO c r) =
        xorUpTo init (fun j => R.ram (iO c j)) (r + 1) := by
  induction m with
  | zero => exact fun c r hc _ => absurd hc (Nat.not_lt_zero c)
  | succ m ih =>
    have ih' := ih
      (fun c r c' r' hc hr hc' hr' => hd c r c' r' (Nat.lt_succ_of_lt hc) hr
        (Nat.lt_succ_of_lt hc') hr')
      (fun c r c' r' hc hr hc' hr' => hinj c r c' r' (Nat.lt_succ_of_lt hc) hr
        (Nat.lt_succ_of_lt hc') hr')
    have hm : m < m + 1 := Nat.lt_succ_self m
    have hfr := (eorCellFill_frame iE oE iO oO init rows R m).1
    have hsp := eorRows_spec (iE m) (oE m) (iO m) (oO m) init
      (eorCellFill iE oE iO oO init m rows R) rows
      (fun r r' hr hr' => hd m r m r' hm hr hm hr')
      (fun r r' hr hr' =>
        ⟨fun h => ((hinj m r m r' hm hr hm hr').1 h).2,
          fun h => ((hinj m r m r' hm hr hm hr').2.1 h).2,
          (hinj m r m r' hm hr hm hr').2.2⟩)
    have hstep : eorCellFill iE oE iO oO init (m + 1) rows R =
        (countedLoop 0 rows
          (fun r st => eorCellStep (iE m r) (oE m r) (iO m r) (oO m r) st)
          (init, init, eorCellFill iE oE iO oO init m rows R)).2.2 := by
      rw [eorCellFill, countedLoop_zero_succ]
      rfl
    have hinE : ∀ j, j < rows →
        (eorCellFill iE oE iO oO init m rows R).ram (iE m j) = R.ram (iE m j) :=
      fun j hj => hfr _ (fun c r hc hr =>
        ⟨(hd m j c r hm hj (Nat.lt_succ_of_lt hc) hr).1,
          (hd m j c r hm hj (Nat.lt_succ_of_lt hc) hr).2.1⟩)
    have hinO : ∀ j, j < rows →
        (eorCellFill iE oE iO oO init m rows R).ram (iO m j) = R.ram (iO m j) :=
      fun j hj => hfr _ (fun c r hc hr =>
        ⟨(hd m j c r hm hj (Nat.lt_succ_of_lt hc) hr).2.2.1,
          (hd m j c r hm hj (Nat.lt_succ_of_lt hc) hr).2.2.2⟩)
    intro c r hc hr
    rw [hstep]
    by_cases hcm : c = m
    · subst hcm
      have h := hsp.2.2.2 r hr
      rw [h.1, h.2]
      exact ⟨xorUpTo_congr _ _ _ _ (fun j hj => hinE j (by omega)),
        xorUpTo_congr _ _ _ _ (fun j hj => hinO j (by omega))⟩
    · have hc' : c < m := by omega
      have hE := hsp.2.2.1 (oE c r) (fun r' hr' =>
        ⟨fun h => hcm ((hinj c r m r' hc hr hm hr').1 h).1,
          (hinj c r m r' hc hr hm hr').2.2⟩)
      have hO := hsp.2.2.1 (oO c r) (fun r' hr' =>
        ⟨fun h => (hinj m r' c r hm hr' hc hr).2.2 h.symm,
          fun h => hcm ((hinj c r m r' hc hr hm hr').2.1 h).1⟩)
      rw [hE, hO]
      exact ih' c r hc' hr

end Drawing

namespace Drawing
open Vc64

/-- Two runs of one row step from states that agree on the set `A`, which
holds both addresses the step reads, agree on `A` and on the two addresses the
step writes. -/
theorem eorCellStep_sim (A : Nat → Prop) (iE oE iO oO : Nat) (s t : Nat × Nat × C64RAM)
    (h1 : s.1 = t.1) (h2 : s.2.1 = t.2.1) (hA : ∀ a, A a → s.2.2.ram a = t.2.2.ram a)
    (hiE : A iE) (hiO : A iO) :
    (eorCellStep iE oE iO oO s).1 = (eorCellStep iE oE iO oO t).1 ∧
    (eorCellStep iE oE iO oO s).2.1 = (eorCellStep iE oE iO oO t).2.1 ∧
    ∀ a, (A a ∨ a = oE ∨ a = oO) →
      (eorCellStep iE oE iO oO s).2.2.ram a = (eorCellStep iE oE iO oO t).2.2.ram a := by
  have hev : (eorCellStep iE oE iO oO s).1 = (eorCellStep iE oE iO oO t).1 := by
    simp only [eorCellStep, C64RAM.CPUBusGetUByte8, h1, hA iE hiE]
  have hod : (eorCellStep iE oE iO oO s).2.1 = (eorCellStep iE oE iO oO t).2.1 := by
    simp only [eorCellStep, C64RAM.CPUBusGetUByte8, setUByte8_ram, h1, h2, hA iE hiE,
      hA iO hiO]
  refine ⟨hev, hod, fun a ha => ?_⟩
  rw [eorCellStep_ram, eorCellStep_ram, hev, hod]
  by_cases hO : a = oO
  · rw [if_pos hO, if_pos hO]
  · rw [if_neg hO, if_neg hO]
    by_cases hE : a = oE
    · rw [if_pos hE, if_pos hE]
    · rw [if_neg hE, if_neg hE]
      rcases ha with ha | ha | ha
      · exact hA a ha
      · exact absurd ha hE
      · exact absurd ha hO

theorem eorRows_sim (A : Nat → Prop) (iE oE iO oO : Nat → Nat) (s t : Nat × Nat × C64RAM)
    (n : Nat) (h1 : s.1 = t.1) (h2 : s.2.1 = t.2.1)
    (hA : ∀ a, A a → s.2.2.ram a = t.2.2.ram a) (hin : ∀ r, r < n → A (iE r) ∧ A (iO r)) :
    (countedLoop 0 n (fun r st => eorCellStep (iE r) (oE r) (iO r) (oO r) st) s).1 =
      (countedLoop 0 n (fun r st => eorCellStep (iE r) (oE r) (iO r) (oO r) st) t).1 ∧
    (countedLoop 0 n (fun r st => eorCellStep (iE r) (oE r) (iO r) (oO r) st) s).2.1 =
      (countedLoop 0 n (fun r st => eorCellStep (iE r) (oE r) (iO r) (oO r) st) t).2.1 ∧
    ∀ a, (A a ∨ ∃ r, r < n ∧ (a = oE r ∨ a = oO r)) →
      (countedLoop 0 n (fun r st => eorCellStep (iE r) (oE r) (iO r) (oO r) st) s).2.2.ram a =
        (countedLoop 0 n (fun r st => eorCellStep (iE r) (oE r) (iO r) (oO r) st)
          t).2.2.ram a := by
  induction n with
  | zero =>
    refine ⟨h1, h2, fun a ha => ?_⟩
    rcases ha with ha | ⟨r, hr, _⟩
    · exact hA a ha
    · exact absurd hr (Nat.not_lt_zero r)
  | succ n ih =>
    obtain ⟨i1, i2, i3⟩ := ih (fun r hr => hin r (Nat.lt_succ_of_lt hr))
    rw [countedLoop_zero_succ, countedLoop_zero_succ]
    have hn := hin n (Nat.lt_succ_self n)
    obtain ⟨j1, j2, j3⟩ := eorCellStep_sim
      (fun a => A a ∨ ∃ r, r < n ∧ (a = oE r ∨ a = oO r)) (iE n) (oE n) (iO n) (oO n) _ _
      i1 i2 i3 (Or.inl hn.1) (Or.inl hn.2)
    refine ⟨j1, j2, fun a ha => j3 a ?_⟩
    rcases ha with ha | ⟨r, hr, hr2⟩
    · exact Or.inl (Or.inl ha)
    · by_cases hrn : r = n
      · subst hrn
        exact Or.inr hr2
      · exact Or.inl (Or.inr ⟨r, by omega, hr2⟩)

/-- Two runs of the fill from RAMs that agree on a set `A` holding every
address the fill reads agree on `A` and on every output cell. -/
theorem eorCellFill_sim (A : Nat → Prop) (iE oE iO oO : Nat → Nat → Nat) (init rows : Nat)
    (R S : C64RAM) (m : Nat) (hA : ∀ a, A a → R.ram a = S.ram a)
    (hin : ∀ c r, c < m → r < rows → A (iE c r) ∧ A (iO c r)) :
    ∀ a, (A a ∨ ∃ c r, c < m ∧ r < rows ∧ (a = oE c r ∨ a = oO c r)) →
      (eorCellFill iE oE iO oO init m rows R).ram a =
        (eorCellFill iE oE iO oO init m rows S).ram a := by
  induction m with
  | zero =>
    intro a ha
    rcases ha with ha | ⟨c, _, hc, _⟩
    · exact hA a ha
    · exact absurd hc (Nat.not_lt_zero c)
  | succ m ih =>
    have ih' := ih (fun c r hc hr => hin c r (Nat.lt_succ_of_lt hc) hr)
    have hstep : ∀ X : C64RAM, eorCellFill iE oE iO oO init (m + 1) rows X =
        (countedLoop 0 rows
          (fun r st => eorCellStep (iE m r) (oE m r) (iO m r) (oO m r) st)
          (init, init, eorCellFill iE oE iO oO init m rows X)).2.2 := by
      intro X
      rw [eorCellFill, countedLoop_zero_succ]
      rfl
    have hs := (eorRows_sim
      (fun a => A a ∨ ∃ c r, c < m ∧ r < rows ∧ (a = oE c r ∨ a = oO c r))
      (iE m) (oE m) (iO m) (oO m)
      (init, init, eorCellFill iE oE iO oO init m rows R)
      (init, init, eorCellFill iE oE iO oO init m rows S) rows rfl rfl ih'
      (fun r hr => ⟨Or.inl (hin m r (Nat.lt_succ_self m) hr).1,
        Or.inl (hin m r (Nat.lt_succ_self m) hr).2⟩)).2.2
    intro a ha
    rw [hstep, hstep]
    apply hs
    rcases ha with ha | ⟨c, r, hc, hr, hcr⟩
    · exact Or.inl (Or.inl ha)
    · by_cases hcm : c = m
      · subst hcm
        exact Or.inr ⟨r, hr, hcr⟩
      · exact Or.inl (Or.inr ⟨c, r, by omega, hr, hcr⟩)

/-- The fill is idempotent when no address it reads is an output cell. -/
theorem eorCellFill_idem (iE oE iO oO : Nat → Nat → Nat) (init columns rows : Nat)
    (R : C64RAM)
    (hd : ∀ c r c' r', c < columns → r < rows → c' < columns → r' < rows →
      iE c r ≠ oE c' r' ∧ iE c r ≠ oO c' r' ∧ iO c r ≠ oE c' r' ∧ iO c r ≠ oO c' r') :
    eorCellFill iE oE iO oO init columns rows (eorCellFill iE oE iO oO init columns rows R) =
      eorCellFill iE oE iO oO init columns rows R := by
  have hf := eorCellFill_frame iE oE iO oO init rows R columns
  have hf2 := eorCellFill_frame iE oE iO oO init rows
    (eorCellFill iE oE iO oO init columns rows R) columns
  have hsim := eorCellFill_sim
    (fun a => ∃ c r, c < columns ∧ r < rows ∧ (a = iE c r ∨ a = iO c r))
    iE oE iO oO init rows R (eorCellFill iE oE iO oO init columns rows R) columns
    (fun a ha => by
      obtain ⟨c, r, hc, hr, hcr⟩ := ha
      refine (hf.1 a (fun c' r' hc' hr' => ?_)).symm
      have h := hd c r c' r' hc hr hc' hr'
      rcases hcr with h' | h'
      · rw [h']
        exact ⟨h.1, h.2.1⟩
      · rw [h']
        exact ⟨h.2.2.1, h.2.2.2⟩)
    (fun c r hc hr => ⟨⟨c, r, hc, hr, Or.inl rfl⟩, ⟨c, r, hc, hr, Or.inr rfl⟩⟩)
  apply eq_of_ram_eq_of_sameOtherAreas _ hf2.2
  funext a
  by_cases hw : ∃ c r, c < columns ∧ r < rows ∧ (a = oE c r ∨ a = oO c r)
  · exact (hsim a (Or.inr hw)).symm
  · apply hf2.1 a
    intro c r hc hr
    constructor
    · intro h
      exact hw ⟨c, r, hc, hr, Or.inl h⟩
    · intro h
      exact hw ⟨c, r, hc, hr, Or.inr h⟩

end Drawing

namespace Drawing
open Vc64

theorem eorCellFill_succ (iE oE iO oO : Nat → Nat → Nat) (init m rows : Nat) (X : C64RAM) :
    eorCellFill iE oE iO oO init (m + 1) rows X =
      (countedLoop 0 rows
        (fun r st => eorCellStep (iE m r) (oE m r) (iO m r) (oO m r) st)
        (init, init, eorCellFill iE oE iO oO init m rows X)).2.2 := by
  rw [eorCellFill, countedLoop_zero_succ]
  rfl

theorem fillCellAddr_val (base c q : Nat) :
    fillCellAddr base c q = (base + (c * 8 + q / 8 * 320 + q % 8)) % 65536 := by
  have e7 : q &&& 7 = q % 8 := Nat.and_pow_two_sub_one_eq_mod q 3
  rw [fillCellAddr, e7, Nat.shiftRight_eq_div_pow]

/-- In a bitmap of at most 40 columns and at most 1632 rows distinct cells have
distinct 16-bit addresses. -/
theorem fillCellAddr_injective (base c q c' q' : Nat) (hc : c < 40) (hq : q < 1632)
    (hc' : c' < 40) (hq' : q' < 1632) (h : fillCellAddr base c q = fillCellAddr base c' q') :
    c = c' ∧ q = q' := by
  rw [fillCellAddr_val, fillCellAddr_val] at h
  have b1 : c * 8 + q / 8 * 320 + q % 8 < 65536 := by omega
  have b2 : c' * 8 + q' / 8 * 320 + q' % 8 < 65536 := by omega
  have h' : (c * 8 + q / 8 * 320 + q % 8) % 65536 = (c' * 8 + q' / 8 * 320 + q' % 8) % 65536 :=
    Nat.ModEq.add_left_cancel' base h
  rw [Nat.mod_eq_of_lt b1, Nat.mod_eq_of_lt b2] at h'
  omega

/-- The cells read and the cells written by the frame's fill,
`EORFillEvenOddBitmap(0x8000, 0x2000, _, 40, 200, ram)`, are disjoint. -/
theorem fillCellAddr_frame_disjoint (c r c' q' : Nat) (hc : c < 40) (hr : r < 200)
    (hc' : c' < 40) (hq' : q' < 2 * 200) :
    fillCellAddr 0x8000 c r ≠ fillCellAddr 0x2000 c' q' ∧
      fillCellAddr 0x8000 c (200 / 2 + 8 + r) ≠ fillCellAddr 0x2000 c' q' := by
  have b1 : 0x8000 + (c * 8 + r / 8 * 320 + r % 8) < 65536 := by omega
  have b2 : 0x8000 + (c * 8 + (200 / 2 + 8 + r) / 8 * 320 + (200 / 2 + 8 + r) % 8) < 65536 := by
    omega
  have b3 : 0x2000 + (c' * 8 + q' / 8 * 320 + q' % 8) < 0x8000 := by omega
  have b4 : 0x2000 + (c' * 8 + q' / 8 * 320 + q' % 8) < 65536 := by omega
  rw [fillCellAddr_val, fillCellAddr_val, fillCellAddr_val, Nat.mod_eq_of_lt b1,
    Nat.mod_eq_of_lt b2, Nat.mod_eq_of_lt b4]
  omega

/-- The even/odd fill when its reads stay clear of its writes and distinct
output cells have distinct addresses. -/
theorem EORFillEvenOddBitmap_spec (frameBufferAddr bitmapAddr initValue columns rows : Nat)
    (ram : C64RAM)
    (hdisj : ∀ c r c' q', c < columns → r < rows → c' < columns → q' < 2 * rows →
      fillCellAddr frameBufferAddr c r ≠ fillCellAddr bitmapAddr c' q' ∧
        fillCellAddr frameBufferAddr c (rows / 2 + 8 + r) ≠ fillCellAddr bitmapAddr c' q')
    (hinj : ∀ c q c' q', c < columns → q < 2 * rows → c' < columns → q' < 2 * rows →
      fillCellAddr bitmapAddr c q = fillCellAddr bitmapAddr c' q' → c = c' ∧ q = q')
    (c r : Nat) (hc : c < columns) (hr : r < rows) :
    (EORFillEvenOddBitmap frameBufferAddr bitmapAddr initValue columns rows
        ram).CPUBusGetUByte8 (fillCellAddr bitmapAddr c (2 * r)) =
      xorUpTo initValue (fun j => ram.CPUBusGetUByte8 (fillCellAddr frameBufferAddr c j))
        (r + 1) ∧
    (EORFillEvenOddBitmap frameBufferAddr bitmapAddr initValue columns rows
        ram).CPUBusGetUByte8 (fillCellAddr bitmapAddr c (2 * r + 1)) =
      xorUpTo initValue
        (fun j => ram.CPUBusGetUByte8 (fillCellAddr frameBufferAddr c (rows / 2 + 8 + j)))
        (r + 1) := by
  rw [EORFillEvenOddBitmap_eq_eorCellFill]
  exact eorCellFill_spec _ _ _ _ initValue rows ram columns
    (fun c r c' r' hc hr hc' hr' =>
      ⟨(hdisj c r c' (2 * r') hc hr hc' (by omega)).1,
        (hdisj c r c' (2 * r' + 1) hc hr hc' (by omega)).1,
        (hdisj c r c' (2 * r') hc hr hc' (by omega)).2,
        (hdisj c r c' (2 * r' + 1) hc hr hc' (by omega)).2⟩)
    (fun c r c' r' hc hr hc' hr' =>
      ⟨fun h => by
          have := hinj c (2 * r) c' (2 * r') hc (by omega) hc' (by omega) h
          omega,
        fun h => by
          have := hinj c (2 * r + 1) c' (2 * r' + 1) hc (by omega) hc' (by omega) h
          omega,
        fun h => by
          have := hinj c (2 * r) c' (2 * r' + 1) hc (by omega) hc' (by omega) h
          omega⟩)
    c r hc hr

theorem xorUpTo_zero (n : Nat) : xorUpTo 0 (fun _ => 0) n = 0 := by
  induction n with
  | zero => rfl
  | succ n ih => rw [xorUpTo_succ, ih]; rfl

theorem fillCellAddr_overlap_disjoint (c r c' q' : Nat) (hc : c < 41) (hr : r < 5)
    (hc' : c' < 41) (hq' : q' < 2 * 5) :
    fillCellAddr 0 c r ≠ fillCellAddr 0x2000 c' q' ∧
      fillCellAddr 0 c (5 / 2 + 8 + r) ≠ fillCellAddr 0x2000 c' q' := by
  have b1 : 0 + (c * 8 + r / 8 * 320 + r % 8) < 0x2000 := by omega
  have b2 : 0 + (c * 8 + (5 / 2 + 8 + r) / 8 * 320 + (5 / 2 + 8 + r) % 8) < 0x2000 := by omega
  have b3 : 0x2000 + (c' * 8 + q' / 8 * 320 + q' % 8) < 65536 := by omega
  have b4 : 0 + (c * 8 + r / 8 * 320 + r % 8) < 65536 := by omega
  have b5 : 0 + (c * 8 + (5 / 2 + 8 + r) / 8 * 320 + (5 / 2 + 8 + r) % 8) < 65536 := by omega
  rw [fillCellAddr_val, fillCellAddr_val, fillCellAddr_val, Nat.mod_eq_of_lt b3,
    Nat.mod_eq_of_lt b4, Nat.mod_eq_of_lt b5]
  omega

/-- Claim C16 fails for 41 columns: with 5 rows, input at 0 and output at
`0x2000` the cells read and the cells written are disjoint, yet the output
byte at column 0, row 8 ends as 0, whereas the XOR of the input bytes at
column 0, rows 0..4, is 1.  Column 40, row 0 lies at the same offset 320 and is
written later. -/
theorem EORFillEvenOddBitmap_cells_overlap_at_41_columns :
    (∀ c r c' q', c < 41 → r < 5 → c' < 41 → q' < 2 * 5 →
      fillCellAddr 0 c r ≠ fillCellAddr 0x2000 c' q' ∧
        fillCellAddr 0 c (5 / 2 + 8 + r) ≠ fillCellAddr 0x2000 c' q') ∧
    (EORFillEvenOddBitmap 0 0x2000 0 41 5
        (C64RAM.zero.CPUBusSetUByte8 0 1)).CPUBusGetUByte8 (fillCellAddr 0x2000 0 (2 * 4)) = 0 ∧
    xorUpTo 0
      (fun j => (C64RAM.zero.CPUBusSetUByte8 0 1).CPUBusGetUByte8 (fillCellAddr 0 0 j))
      (4 + 1) = 1 := by
  refine ⟨?_, ?_, ?_⟩
  · exact fillCellAddr_overlap_disjoint
  · rw [EORFillEvenOddBitmap_eq_eorCellFill, eorCellFill_succ]
    have hd : ∀ r r', r < 5 → r' < 5 →
        (fun r => fillCellAddr 0 40 r) r ≠ (fun r => fillCellAddr 0x2000 40 (2 * r)) r' ∧
        (fun r => fillCellAddr 0 40 r) r ≠ (fun r => fillCellAddr 0x2000 40 (2 * r + 1)) r' ∧
        (fun r => fillCellAddr 0 40 (5 / 2 + 8 + r)) r ≠
          (fun r => fillCellAddr 0x2000 40 (2 * r)) r' ∧
        (fun r => fillCellAddr 0 40 (5 / 2 + 8 + r)) r ≠
          (fun r => fillCellAddr 0x2000 40 (2 * r + 1)) r' := by
      intro r r' hr hr'
      exact ⟨(fillCellAddr_overlap_disjoint 40 r 40 (2 * r') (by omega) hr (by omega)
          (by omega)).1,
        (fillCellAddr_overlap_disjoint 40 r 40 (2 * r' + 1) (by omega) hr (by omega)
          (by omega)).1,
        (fillCellAddr_overlap_disjoint 40 r 40 (2 * r') (by omega) hr (by omega)
          (by omega)).2,
        (fillCellAddr_overlap_disjoint 40 r 40 (2 * r' + 1) (by omega) hr (by omega)
          (by omega)).2⟩
    have hinj : ∀ r r', r < 5 → r' < 5 →
        ((fun r => fillCellAddr 0x2000 40 (2 * r)) r =
          (fun r => fillCellAddr 0x2000 40 (2 * r)) r' → r = r') ∧
        ((fun r => fillCellAddr 0x2000 40 (2 * r + 1)) r =
          (fun r => fillCellAddr 0x2000 40 (2 * r + 1)) r' → r = r') ∧
        (fun r => fillCellAddr 0x2000 40 (2 * r)) r ≠
          (fun r => fillCellAddr 0x2000 40 (2 * r + 1)) r' := by
      intro r r' hr hr'
      simp only [fillCellAddr_val]
      omega
    have hcol := eorRows_spec (fun r => fillCellAddr 0 40 r)
      (fun r => fillCellAddr 0x2000 40 (2 * r)) (fun r => fillCellAddr 0 40 (5 / 2 + 8 + r))
      (fun r => fillCellAddr 0x2000 40 (2 * r + 1)) 0
      (eorCellFill (fun c r => fillCellAddr 0 c r) (fun c r => fillCellAddr 0x2000 c (2 * r))
        (fun c r => fillCellAddr 0 c (5 / 2 + 8 + r))
        (fun c r => fillCellAddr 0x2000 c (2 * r + 1)) 0 40 5
        (C64RAM.zero.CPUBusSetUByte8 0 1)) 5 hd hinj
    have hval := (hcol.2.2.2 0 (by decide)).1
    have hframe := (eorCellFill_frame (fun c r => fillCellAddr 0 c r)
      (fun c r => fillCellAddr 0x2000 c (2 * r)) (fun c r => fillCellAddr 0 c (5 / 2 + 8 + r))
      (fun c r => fillCellAddr 0x2000 c (2 * r + 1)) 0 5 (C64RAM.zero.CPUBusSetUByte8 0 1)
      40).1 (fillCellAddr 0 40 0)
      (fun c r hc hr =>
        ⟨(fillCellAddr_overlap_disjoint 40 0 c (2 * r) (by omega) (by omega) (by omega)
            (by omega)).1,
          (fillCellAddr_overlap_disjoint 40 0 c (2 * r + 1) (by omega) (by omega) (by omega)
            (by omega)).1⟩)
    have e1 : fillCellAddr 0x2000 0 (2 * 4) = fillCellAddr 0x2000 40 (2 * 0) := by
      rw [fillCellAddr_val, fillCellAddr_val]
    beta_reduce at hval hframe
    rw [C64RAM.CPUBusGetUByte8, e1, hval, xorUpTo_succ, hframe]
    decide
  · decide

/-- Claim C16, amended: `EORFillEvenOddBitmap` computes a per-column running
XOR with even/odd interleave.  When the input addresses read and the output
addresses written are disjoint and distinct output cells lie at distinct
addresses, then for every column `c < columns` and every `r < rows` the output
byte at column `c`, row `2r` is `initValue` XOR the input bytes at column `c`,
rows `0..r`, and the output byte at column `c`, row `2r+1` is `initValue` XOR
the input bytes at column `c`, rows `rows/2+8 .. rows/2+8+r`; column `c`, row
`q` is at offset `c*8 + (q>>3)*320 + (q&7)`. -/
theorem EORFillEvenOddBitmap_running_xor (frameBufferAddr bitmapAddr initValue columns
    rows : Nat) (ram : C64RAM) (c r : Nat)
    (hdisj : ∀ c r c' q', c < columns → r < rows → c' < columns → q' < 2 * rows →
      fillCellAddr frameBufferAddr c r ≠ fillCellAddr bitmapAddr c' q' ∧
        fillCellAddr frameBufferAddr c (rows / 2 + 8 + r) ≠ fillCellAddr bitmapAddr c' q')
    (hinj : ∀ c q c' q', c < columns → q < 2 * rows → c' < columns → q' < 2 * rows →
      fillCellAddr bitmapAddr c q = fillCellAddr bitmapAddr c' q' → c = c' ∧ q = q')
    (hc : c < columns) (hr : r < rows) :
    (EORFillEvenOddBitmap frameBufferAddr bitmapAddr initValue columns rows
        ram).CPUBusGetUByte8 (fillCellAddr bitmapAddr c (2 * r)) =
      xorUpTo initValue (fun j => ram.CPUBusGetUByte8 (fillCellAddr frameBufferAddr c j))
        (r + 1) ∧
    (EORFillEvenOddBitmap frameBufferAddr bitmapAddr initValue columns rows
        ram).CPUBusGetUByte8 (fillCellAddr bitmapAddr c (2 * r + 1)) =
      xorUpTo initValue
        (fun j => ram.CPUBusGetUByte8 (fillCellAddr frameBufferAddr c (rows / 2 + 8 + j)))
        (r + 1) :=
  EORFillEvenOddBitmap_spec frameBufferAddr bitmapAddr initValue columns rows ram hdisj hinj
    c r hc hr

/-- Claim C16, amended, for the frame's fill (input at `0x8000`, output at
`0x2000`, 40 columns, 200 rows) on the all-zero RAM, at column 39, row 199. -/
theorem EORFillEvenOddBitmap_running_xor_witness :
    (∀ c r c' q', c < 40 → r < 200 → c' < 40 → q' < 2 * 200 →
      fillCellAddr 0x8000 c r ≠ fillCellAddr 0x2000 c' q' ∧
        fillCellAddr 0x8000 c (200 / 2 + 8 + r) ≠ fillCellAddr 0x2000 c' q') ∧
    (∀ c q c' q', c < 40 → q < 2 * 200 → c' < 40 → q' < 2 * 200 →
      fillCellAddr 0x2000 c q = fillCellAddr 0x2000 c' q' → c = c' ∧ q = q') ∧
    39 < 40 ∧ 199 < 200 ∧
    ((EORFillEvenOddBitmap 0x8000 0x2000 0 40 200 C64RAM.zero).CPUBusGetUByte8
        (fillCellAddr 0x2000 39 (2 * 199)) =
      xorUpTo 0 (fun j => C64RAM.zero.CPUBusGetUByte8 (fillCellAddr 0x8000 39 j)) (199 + 1) ∧
    (EORFillEvenOddBitmap 0x8000 0x2000 0 40 200 C64RAM.zero).CPUBusGetUByte8
        (fillCellAddr 0x2000 39 (2 * 199 + 1)) =
      xorUpTo 0
        (fun j => C64RAM.zero.CPUBusGetUByte8 (fillCellAddr 0x8000 39 (200 / 2 + 8 + j)))
        (199 + 1)) :=
  ⟨fillCellAddr_frame_disjoint,
    fun c q c' q' hc hq hc' hq' h =>
      fillCellAddr_injective 0x2000 c q c' q' hc (by omega) hc' (by omega) h,
    by decide, by decide,
    EORFillEvenOddBitmap_running_xor 0x8000 0x2000 0 40 200 C64RAM.zero 39 199
      fillCellAddr_frame_disjoint
      (fun c q c' q' hc hq hc' hq' h =>
        fillCellAddr_injective 0x2000 c q c' q' hc (by omega) hc' (by omega) h)
      (by decide) (by decide)⟩

end Drawing

namespace Drawing
open Vc64

/-- Two runs of the fill from RAMs that differ at most in output cells, when
no address the fill reads is an output cell, end in the same RAM. -/
theorem eorCellFill_indep (iE oE iO oO : Nat → Nat → Nat) (init columns rows : Nat)
    (R S : C64RAM)
    (hd : ∀ c r c' r', c < columns → r < rows → c' < columns → r' < rows →
      iE c r ≠ oE c' r' ∧ iE c r ≠ oO c' r' ∧ iO c r ≠ oE c' r' ∧ iO c r ≠ oO c' r')
    (hRS : ∀ a, (∀ c r, c < columns → r < rows → a ≠ oE c r ∧ a ≠ oO c r) →
      R.ram a = S.ram a)
    (hareas : sameOtherAreas R S) :
    eorCellFill iE oE iO oO init columns rows R =
      eorCellFill iE oE iO oO init columns rows S := by
  have hfR := eorCellFill_frame iE oE iO oO init rows R columns
  have hfS := eorCellFill_frame iE oE iO oO init rows S columns
  have hsim := eorCellFill_sim
    (fun a => ∀ c r, c < columns → r < rows → a ≠ oE c r ∧ a ≠ oO c r)
    iE oE iO oO init rows R S columns hRS
    (fun c r hc hr =>
      ⟨fun c' r' hc' hr' => ⟨(hd c r c' r' hc hr hc' hr').1, (hd c r c' r' hc hr hc' hr').2.1⟩,
        fun c' r' hc' hr' =>
          ⟨(hd c r c' r' hc hr hc' hr').2.2.1, (hd c r c' r' hc hr hc' hr').2.2.2⟩⟩)
  have hsame : sameOtherAreas (eorCellFill iE oE iO oO init columns rows R)
      (eorCellFill iE oE iO oO init columns rows S) :=
    sameOtherAreas_trans hfR.2
      (sameOtherAreas_trans hareas
        ⟨hfS.2.1.symm, hfS.2.2.1.symm, hfS.2.2.2.1.symm, hfS.2.2.2.2.1.symm,
          hfS.2.2.2.2.2.symm⟩)
  apply eq_of_ram_eq_of_sameOtherAreas _ hsame
  funext a
  by_cases hw : ∃ c r, c < columns ∧ r < rows ∧ (a = oE c r ∨ a = oO c r)
  · exact hsim a (Or.inr hw)
  · apply hsim a
    left
    intro c r hc hr
    constructor
    · intro h
      exact hw ⟨c, r, hc, hr, Or.inl h⟩
    · intro h
      exact hw ⟨c, r, hc, hr, Or.inr h⟩

/-- Claim C17: compositing the same back buffer twice gives the same front
buffer as compositing it once, and the result does not depend on the previous
contents of the front buffer.  For every RAM state, when no input address read
by `EORFillEvenOddBitmap` is an output address it writes, applying it twice
with the same arguments yields the same RAM as applying it once; and the call
yields that same RAM from every RAM state that differs from the given one at
most in the bytes of the output cells (the front buffer). -/
theorem EORFillEvenOddBitmap_twice_eq_once (frameBufferAddr bitmapAddr initValue columns
    rows : Nat) (ram : C64RAM)
    (hdisj : ∀ c r c' q', c < columns → r < rows → c' < columns → q' < 2 * rows →
      fillCellAddr frameBufferAddr c r ≠ fillCellAddr bitmapAddr c' q' ∧
        fillCellAddr frameBufferAddr c (rows / 2 + 8 + r) ≠ fillCellAddr bitmapAddr c' q') :
    EORFillEvenOddBitmap frameBufferAddr bitmapAddr initValue columns rows
        (EORFillEvenOddBitmap frameBufferAddr bitmapAddr initValue columns rows ram) =
      EORFillEvenOddBitmap frameBufferAddr bitmapAddr initValue columns rows ram ∧
    (∀ ram0 : C64RAM,
      (∀ a, (∀ c q, c < columns → q < 2 * rows → a ≠ fillCellAddr bitmapAddr c q) →
        ram0.CPUBusGetUByte8 a = ram.CPUBusGetUByte8 a) →
      sameOtherAreas ram0 ram →
      EORFillEvenOddBitmap frameBufferAddr bitmapAddr initValue columns rows ram0 =
        EORFillEvenOddBitmap frameBufferAddr bitmapAddr initValue columns rows ram) := by
  have hd : ∀ c r c' r', c < columns → r < rows → c' < columns → r' < rows →
      fillCellAddr frameBufferAddr c r ≠ fillCellAddr bitmapAddr c' (2 * r') ∧
      fillCellAddr frameBufferAddr c r ≠ fillCellAddr bitmapAddr c' (2 * r' + 1) ∧
      fillCellAddr frameBufferAddr c (rows / 2 + 8 + r) ≠ fillCellAddr bitmapAddr c' (2 * r') ∧
      fillCellAddr frameBufferAddr c (rows / 2 + 8 + r) ≠
        fillCellAddr bitmapAddr c' (2 * r' + 1) :=
    fun c r c' r' hc hr hc' hr' =>
      ⟨(hdisj c r c' (2 * r') hc hr hc' (by omega)).1,
        (hdisj c r c' (2 * r' + 1) hc hr hc' (by omega)).1,
        (hdisj c r c' (2 * r') hc hr hc' (by omega)).2,
        (hdisj c r c' (2 * r' + 1) hc hr hc' (by omega)).2⟩
  constructor
  · rw [EORFillEvenOddBitmap_eq_eorCellFill, EORFillEvenOddBitmap_eq_eorCellFill]
    exact eorCellFill_idem _ _ _ _ initValue columns rows ram hd
  · intro ram0 h0 hareas
    rw [EORFillEvenOddBitmap_eq_eorCellFill, EORFillEvenOddBitmap_eq_eorCellFill]
    refine eorCellFill_indep _ _ _ _ initValue columns rows ram0 ram hd ?_ hareas
    intro a ha
    apply h0 a
    intro c q hc hq
    rcases Nat.even_or_odd' q with ⟨r, hr | hr⟩
    · rw [hr]
      exact (ha c r hc (by omega)).1
    · rw [hr]
      exact (ha c r hc (by omega)).2

/-- Claim C17 for the frame's fill (input at `0x8000`, output at `0x2000`, 40
columns, 200 rows) on the all-zero RAM: the second fill changes nothing, and
the fill gives the same RAM when the output cell at `0x2000` holds `0xFF`
before the call. -/
theorem EORFillEvenOddBitmap_twice_eq_once_witness :
    (∀ c r c' q', c < 40 → r < 200 → c' < 40 → q' < 2 * 200 →
      fillCellAddr 0x8000 c r ≠ fillCellAddr 0x2000 c' q' ∧
        fillCellAddr 0x8000 c (200 / 2 + 8 + r) ≠ fillCellAddr 0x2000 c' q') ∧
    EORFillEvenOddBitmap 0x8000 0x2000 0 40 200
        (EORFillEvenOddBitmap 0x8000 0x2000 0 40 200 C64RAM.zero) =
      EORFillEvenOddBitmap 0x8000 0x2000 0 40 200 C64RAM.zero ∧
    (C64RAM.zero.CPUBusSetUByte8 0x2000 0xFF).CPUBusGetUByte8 0x2000 ≠
      C64RAM.zero.CPUBusGetUByte8 0x2000 ∧
    EORFillEvenOddBitmap 0x8000 0x2000 0 40 200 (C64RAM.zero.CPUBusSetUByte8 0x2000 0xFF) =
      EORFillEvenOddBitmap 0x8000 0x2000 0 40 200 C64RAM.zero :=
  ⟨fillCellAddr_frame_disjoint,
    (EORFillEvenOddBitmap_twice_eq_once 0x8000 0x2000 0 40 200 C64RAM.zero
      fillCellAddr_frame_disjoint).1,
    by simp [C64RAM.CPUBusSetUByte8, C64RAM.CPUBusGetUByte8, C64RAM.zero],
    (EORFillEvenOddBitmap_twice_eq_once 0x8000 0x2000 0 40 200 C64RAM.zero
      fillCellAddr_frame_disjoint).2 (C64RAM.zero.CPUBusSetUByte8 0x2000 0xFF)
      (fun a ha => by
        have h0 : a ≠ fillCellAddr 0x2000 0 0 := ha 0 0 (by decide) (by decide)
        have e : fillCellAddr 0x2000 0 0 = 0x2000 := by decide
        rw [e] at h0
        simp [C64RAM.CPUBusSetUByte8, C64RAM.CPUBusGetUByte8, h0])
      ⟨rfl, rfl, rfl, rfl, rfl⟩⟩

/-- The even/odd fill changes no byte outside the `2 * rows` output rows of its
`columns` columns, and no other memory area. -/
theorem EORFillEvenOddBitmap_frame (frameBufferAddr bitmapAddr initValue columns rows : Nat)
    (ram : C64RAM) (a : Nat)
    (ha : ∀ c q, c < columns → q < 2 * rows → a ≠ fillCellAddr bitmapAddr c q) :
    (EORFillEvenOddBitmap frameBufferAddr bitmapAddr initValue columns rows
      ram).CPUBusGetUByte8 a = ram.CPUBusGetUByte8 a := by
  rw [EORFillEvenOddBitmap_eq_eorCellFill]
  exact (eorCellFill_frame _ _ _ _ initValue rows ram columns).1 a
    (fun c r hc hr => ⟨ha c (2 * r) hc (by omega), ha c (2 * r + 1) hc (by omega)⟩)

/-- Claim C18, evaluated on the code: the frame's fill
`EORFillEvenOddBitmap(0x8000, 0x2000, 0, 40, 200, ram)` writes the byte at
`0x2000 + 8640`, the first address past the 8640-byte buffer.  On the RAM that
is zero except for `0xFF` at that address, the byte is `0xFF` before the call
and `0` after it: it is the output cell of column 0, row 216. -/
theorem EORFillEvenOddBitmap_writes_past_buffer :
    (C64RAM.zero.CPUBusSetUByte8 (0x2000 + 8640) 0xFF).CPUBusGetUByte8 (0x2000 + 8640) = 0xFF ∧
    (EORFillEvenOddBitmap 0x8000 0x2000 0 40 200
      (C64RAM.zero.CPUBusSetUByte8 (0x2000 + 8640) 0xFF)).CPUBusGetUByte8 (0x2000 + 8640) = 0 ∧
    ¬ (0x2000 + 8640 < 0x2000 + 8640) := by
  refine ⟨?_, ?_, Nat.lt_irrefl _⟩
  · simp [C64RAM.CPUBusSetUByte8, C64RAM.CPUBusGetUByte8]
  · have e : (0x2000 + 8640 : Nat) = fillCellAddr 0x2000 0 (2 * 108) := by
      rw [fillCellAddr_val]
    have h := (EORFillEvenOddBitmap_spec 0x8000 0x2000 0 40 200
      (C64RAM.zero.CPUBusSetUByte8 (0x2000 + 8640) 0xFF) fillCellAddr_frame_disjoint
      (fun c q c' q' hc hq hc' hq' h =>
        fillCellAddr_injective 0x2000 c q c' q' hc (by omega) hc' (by omega) h)
      0 108 (by decide) (by decide)).1
    rw [← e] at h
    rw [h]
    rw [xorUpTo_congr 0 _ (fun _ => 0) (108 + 1), xorUpTo_zero]
    intro j hj
    have hne : fillCellAddr 0x8000 0 j ≠ 0x2000 + 8640 := by
      rw [fillCellAddr_val]
      omega
    simp only [C64RAM.CPUBusGetUByte8, setUByte8_ram, if_neg hne]
    rfl

end Drawing

/-! ## Addressing conventions -/

namespace Drawing
open Vc64

theorem and_fc_shl_eq_shr_mul (x : Nat) (hx : x < 256) : (x &&& 0xFC) <<< 1 = (x >>> 2) * 8 := by
  interval_cases x <;> rfl

/-- Claim C21: the two addressing conventions denote the same byte.  For
every pixel `x` in `0..255` and every row `r`, the rasterizer offset
`((x & 0xFC) << 1) + (r >> 3)*320 + (r & 7)` equals the fill-helper offset
`c*8 + (r >> 3)*320 + (r & 7)` for the column `c = x >> 2`, and so the two
16-bit addresses over the same start address are equal. -/
theorem bitmapByteAddr_eq_fillCellAddr (startAddr x r : Nat) (hx : x < 256) :
    ((x &&& 0xFC) <<< 1) + (r >>> 3) * 320 + (r &&& 7) =
        (x >>> 2) * 8 + (r >>> 3) * 320 + (r &&& 7) ∧
      bitmapByteAddr startAddr x r = fillCellAddr startAddr (x >>> 2) r := by
  have e := and_fc_shl_eq_shr_mul x hx
  refine ⟨by rw [e], ?_⟩
  rw [bitmapByteAddr, fillCellAddr, e]
  congr 1
  omega

/-- Claim C21 at pixel 163, row 77 and start address `0x8000`. -/
theorem bitmapByteAddr_eq_fillCellAddr_witness :
    (163 : Nat) < 256 ∧
      ((163 &&& 0xFC) <<< 1) + (77 >>> 3) * 320 + (77 &&& 7) =
        (163 >>> 2) * 8 + (77 >>> 3) * 320 + (77 &&& 7) ∧
      bitmapByteAddr 0x8000 163 77 = fillCellAddr 0x8000 (163 >>> 2) 77 :=
  ⟨by decide, bitmapByteAddr_eq_fillCellAddr 0x8000 163 77 (by decide)⟩

end Drawing

/-! ## Memory: the two buses and the fill -/

namespace Vc64

/-- Claim C22: `C64RAM` stores and retrieves bytes on two independent buses.
After `CPUBusSetUByte8(a, b)`, `CPUBusGetUByte8(a) = b`, `CPUBusGetUByte8(a')`
is unchanged for every `a' ≠ a`, and `VICBusGetUByte8` is unchanged at every
address; symmetrically `VICBusSetUByte8` changes only the VIC byte at its
address and no CPU-bus byte. -/
theorem C64RAM.set_get_two_buses (ram : C64RAM) (a b : Nat) :
    (ram.CPUBusSetUByte8 a b).CPUBusGetUByte8 a = b ∧
      (∀ a', a' ≠ a →
        (ram.CPUBusSetUByte8 a b).CPUBusGetUByte8 a' = ram.CPUBusGetUByte8 a') ∧
      (∀ a', (ram.CPUBusSetUByte8 a b).VICBusGetUByte8 a' = ram.VICBusGetUByte8 a') ∧
      (ram.VICBusSetUByte8 a b).VICBusGetUByte8 a = b ∧
      (∀ a', a' ≠ a →
        (ram.VICBusSetUByte8 a b).VICBusGetUByte8 a' = ram.VICBusGetUByte8 a') ∧
      (∀ a', (ram.VICBusSetUByte8 a b).CPUBusGetUByte8 a' = ram.CPUBusGetUByte8 a') := by
  refine ⟨?_, ?_, ?_, ?_, ?_, ?_⟩
  · exact if_pos rfl
  · intro a' h
    exact if_neg h
  · intro a'
    rfl
  · exact if_pos rfl
  · intro a' h
    exact if_neg h
  · intro a'
    rfl

theorem foldl_set_vicRAM (v lo : Nat) (n : Nat) (ram : C64RAM) :
    ((List.range n).foldl (fun r i => r.CPUBusSetUByte8 (lo + i) v) ram).vicRAM =
      ram.vicRAM := by
  induction n with
  | zero => rfl
  | succ n ih =>
    rw [List.range_succ, List.foldl_append, List.foldl_cons, List.foldl_nil]
    exact ih

/-- Claim C23: for every `value`, `startAddr` and `count` with
`startAddr + count ≤ 65535`, after `CPUFillRAM(value, startAddr, count)` every
CPU address `a` with `startAddr ≤ a < startAddr + count` reads `value`, and
every other CPU address and all VIC RAM keep their previous contents. -/
theorem C64RAM.CPUFillRAM_fills_range (ram : C64RAM) (value startAddr count : Nat)
    (h : startAddr + count ≤ 65535) :
    (∀ a, startAddr ≤ a → a < startAddr + count →
        (ram.CPUFillRAM value startAddr count).CPUBusGetUByte8 a = value) ∧
      (∀ a, ¬ (startAddr ≤ a ∧ a < startAddr + count) →
        (ram.CPUFillRAM value startAddr count).CPUBusGetUByte8 a = ram.CPUBusGetUByte8 a) ∧
      (∀ a, (ram.CPUFillRAM value startAddr count).VICBusGetUByte8 a =
        ram.VICBusGetUByte8 a) := by
  have e : (startAddr + count) % 65536 = startAddr + count := Nat.mod_eq_of_lt (by omega)
  refine ⟨?_, ?_, ?_⟩
  · intro a h1 h2
    rw [C64RAM.CPUBusGetUByte8, C64RAM.CPUFillRAM_ram, e, if_pos ⟨h1, h2⟩]
  · intro a ha
    rw [C64RAM.CPUBusGetUByte8, C64RAM.CPUFillRAM_ram, e, if_neg ha]
    rfl
  · intro a
    rw [C64RAM.VICBusGetUByte8, C64RAM.CPUFillRAM, countedLoop, foldl_set_vicRAM]
    rfl

/-- Claim C23 for the clear of the working buffer: value 7, start `0x8000`,
count 8640, on the all-zero RAM. -/
theorem C64RAM.CPUFillRAM_fills_range_witness :
    (0x8000 + 8640 ≤ 65535) ∧
      (∀ a, 0x8000 ≤ a → a < 0x8000 + 8640 →
        (C64RAM.zero.CPUFillRAM 7 0x8000 8640).CPUBusGetUByte8 a = 7) ∧
      (∀ a, ¬ (0x8000 ≤ a ∧ a < 0x8000 + 8640) →
        (C64RAM.zero.CPUFillRAM 7 0x8000 8640).CPUBusGetUByte8 a =
          C64RAM.zero.CPUBusGetUByte8 a) ∧
      (∀ a, (C64RAM.zero.CPUFillRAM 7 0x8000 8640).VICBusGetUByte8 a =
        C64RAM.zero.VICBusGetUByte8 a) :=
  ⟨by decide, C64RAM.CPUFillRAM_fills_range C64RAM.zero 7 0x8000 8640 (by decide)⟩

end Vc64

/-! ## Perspective divisor in the configured scene -/

namespace Transform

/-- `RotateXYZ` preserves the squared length when `sin² + cos² = 1`. -/
theorem RotateXYZ_normSq {K : Type} [Field K] (m : GoMath K)
    (hsc : ∀ x, m.Sin x ^ 2 + m.Cos x ^ 2 = 1) (ax ay az : K) (v : Vector3D K) :
    (RotateXYZ m ax ay az v).X ^ 2 + (RotateXYZ m ax ay az v).Y ^ 2 +
        (RotateXYZ m ax ay az v).Z ^ 2 = v.X ^ 2 + v.Y ^ 2 + v.Z ^ 2 := by
  have hx := hsc (ax * piDiv180 m)
  have hy := hsc (ay * piDiv180 m)
  have hz := hsc (az * piDiv180 m)
  simp only [RotateXYZ, NewVector3D]
  linear_combination
    ((v.X * m.Cos (ay * piDiv180 m) -
          (v.Y * m.Sin (ax * piDiv180 m) + v.Z * m.Cos (ax * piDiv180 m)) *
            m.Sin (ay * piDiv180 m)) ^ 2 +
        (v.Y * m.Cos (ax * piDiv180 m) - v.Z * m.Sin (ax * piDiv180 m)) ^ 2) * hz +
      (v.X ^ 2 + (v.Y * m.Sin (ax * piDiv180 m) + v.Z * m.Cos (ax * piDiv180 m)) ^ 2) * hy +
      (v.Y ^ 2 + v.Z ^ 2) * hx

end Transform

namespace Effects
open Vc64 Drawing Transform

/-- The cube loop of `DrawNestedCubes` calls `drawC64Cube` with the arguments
`nestedCubeArgs`. -/
theorem drawNestedCubesCubes_eq_args {K : Type} [LinearOrderedField K] [FloorRing K]
    (m : GoMath K) (c64CubeColors : List (List Nat)) (currentTime : Int) (frameBufferAddr : Nat)
    (ram : C64RAM) :
    drawNestedCubesCubes m c64CubeColors currentTime frameBufferAddr ram =
      countedLoop 0 cubesCount
        (fun currC0 ram =>
          drawC64Cube m (nestedCubeArgs m currentTime currC0).1
            (nestedCubeArgs m currentTime currC0).2.1 (nestedCubeArgs m currentTime currC0).2.2.1
            (nestedCubeArgs m currentTime currC0).2.2.2 frameBufferAddr viewportColumns
            viewportHeight vertexes faces (c64CubeColors.getD currC0 []) ram) ram :=
  rfl

theorem nestedCubeArgs_scale {K : Type} [Field K] (m : GoMath K) (currentTime : Int)
    (currC0 : Nat) :
    (nestedCubeArgs m currentTime currC0).2.2.2 = ((30 - 3 * (currC0 : Int) : Int) : K) :=
  rfl

theorem vertexes_scaled_normSq {K : Type} [Field K] (s : K) (i : Nat) (hi : i < 8) :
    (ScaleVector3D ((vertexes : List (Vector3D K)).getD i zeroVector3D) s).X ^ 2 +
      (ScaleVector3D ((vertexes : List (Vector3D K)).getD i zeroVector3D) s).Y ^ 2 +
      (ScaleVector3D ((vertexes : List (Vector3D K)).getD i zeroVector3D) s).Z ^ 2 =
        3 * s ^ 2 := by
  interval_cases i <;>
    simp only [vertexes, List.getD_cons_zero, List.getD_cons_succ, ScaleVector3D, NewVector3D] <;>
    ring

theorem resVtx_getD {K : Type} [Field K] (m : GoMath K) (ax ay az s : K) (i : Nat)
    (hi : i < 8) :
    (drawC64CubeVertices m ax ay az s vertexes).1.getD i zeroVector3D =
      RotateXYZ m ax ay az (ScaleVector3D ((vertexes : List (Vector3D K)).getD i zeroVector3D) s)
      := by
  rw [resVtx_eq_map]
  interval_cases i <;> rfl

/-- Every entry of `allResVtxPersp` is `Perspective` of the entry of `resVtx`
with the same index, at zoom 140 and distance 64. -/
theorem allResVtxPersp_getD {K : Type} [Field K] (m : GoMath K) (ax ay az s : K)
    (vs : List (Vector3D K)) (i : Nat) (hi : i < 8) :
    (drawC64CubeVertices m ax ay az s vs).2.getD i zeroVector3D =
      Perspective ((drawC64CubeVertices m ax ay az s vs).1.getD i zeroVector3D) 140 64 := by
  rw [drawC64CubeVertices_eq m ax ay az s vs _ _ _ _ rfl rfl rfl rfl]
  interval_cases i <;> rfl

/-- The depth of every vertex of a cube of scale `s` is at most `√3·|s|` in
absolute value, stated on squares. -/
theorem resVtx_Z_sq_le {K : Type} [LinearOrderedField K] (m : GoMath K)
    (hsc : ∀ x, m.Sin x ^ 2 + m.Cos x ^ 2 = 1) (ax ay az s : K) (i : Nat) (hi : i < 8) :
    ((drawC64CubeVertices m ax ay az s vertexes).1.getD i zeroVector3D).Z ^ 2 ≤ 3 * s ^ 2 := by
  rw [resVtx_getD m ax ay az s i hi, ← vertexes_scaled_normSq s i hi,
    ← RotateXYZ_normSq m hsc ax ay az]
  nlinarith [sq_nonneg (RotateXYZ m ax ay az
      (ScaleVector3D ((vertexes : List (Vector3D K)).getD i zeroVector3D) s)).X,
    sq_nonneg (RotateXYZ m ax ay az
      (ScaleVector3D ((vertexes : List (Vector3D K)).getD i zeroVector3D) s)).Y]

/-- Claim C24: `Perspective` never divides by zero in the configured scene.
With the real sine and cosine, for every frame counter `currentTime`, every
cube index `currC0` in `0..8` and every vertex index `i` in `0..7`, the vertex
`resVtx[i]` that `drawC64Cube` hands to `Perspective` (zoom 140, distance 64)
has `|z| ≤ 30·√3 < 64`, hence `z + 64 > 0`, in exact arithmetic. -/
theorem Perspective_divisor_pos_in_scene (currentTime : Int) (currC0 i : Nat)
    (hc : currC0 < cubesCount) (hi : i < 8) :
    (sceneCubeVertices (GoMath.mk Real.sin Real.cos Real.pi) currentTime currC0).2.getD i
          zeroVector3D =
        Perspective
          ((sceneCubeVertices (GoMath.mk Real.sin Real.cos Real.pi) currentTime currC0).1.getD i
            zeroVector3D) 140 64 ∧
      |((sceneCubeVertices (GoMath.mk Real.sin Real.cos Real.pi) currentTime currC0).1.getD i
          zeroVector3D).Z| ≤ 30 * Real.sqrt 3 ∧
      30 * Real.sqrt 3 < 64 ∧
      0 < ((sceneCubeVertices (GoMath.mk Real.sin Real.cos Real.pi) currentTime currC0).1.getD i
          zeroVector3D).Z + 64 := by
  have hsc : ∀ x : ℝ, (GoMath.mk Real.sin Real.cos Real.pi).Sin x ^ 2 +
      (GoMath.mk Real.sin Real.cos Real.pi).Cos x ^ 2 = 1 := fun x => Real.sin_sq_add_cos_sq x
  have hz := resVtx_Z_sq_le (GoMath.mk Real.sin Real.cos Real.pi) hsc
    (nestedCubeArgs (GoMath.mk Real.sin Real.cos Real.pi) currentTime currC0).1
    (nestedCubeArgs (GoMath.mk Real.sin Real.cos Real.pi) currentTime currC0).2.1
    (nestedCubeArgs (GoMath.mk Real.sin Real.cos Real.pi) currentTime currC0).2.2.1
    (nestedCubeArgs (GoMath.mk Real.sin Real.cos Real.pi) currentTime currC0).2.2.2 i hi
  rw [nestedCubeArgs_scale] at hz
  have hs0 : (0 : ℝ) ≤ ((30 - 3 * (currC0 : Int) : Int) : ℝ) := by
    have : (0 : Int) ≤ 30 - 3 * (currC0 : Int) := by
      have := hc
      simp only [cubesCount] at this
      omega
    exact_mod_cast this
  have hs30 : ((30 - 3 * (currC0 : Int) : Int) : ℝ) ≤ 30 := by
    have : 30 - 3 * (currC0 : Int) ≤ 30 := by omega
    exact_mod_cast this
  have h3 : Real.sqrt 3 ^ 2 = 3 := Real.sq_sqrt (by norm_num)
  have h3nn : 0 ≤ Real.sqrt 3 := Real.sqrt_nonneg 3
  have hlt : 30 * Real.sqrt 3 < 64 := by nlinarith
  have habs : |((sceneCubeVertices (GoMath.mk Real.sin Real.cos Real.pi) currentTime
      currC0).1.getD i zeroVector3D).Z| ≤ 30 * Real.sqrt 3 := by
    apply abs_le_of_sq_le_sq _ (by positivity)
    rw [sceneCubeVertices, nestedCubeArgs_scale]
    nlinarith
  refine ⟨allResVtxPersp_getD _ _ _ _ _ _ i hi, habs, hlt, ?_⟩
  have := (abs_le.mp habs).1
  linarith

/-- Claim C24 at frame counter 0, the outermost cube and vertex 0. -/
theorem Perspective_divisor_pos_in_scene_witness :
    (0 < cubesCount) ∧ (0 < 8) ∧
      (sceneCubeVertices (GoMath.mk Real.sin Real.cos Real.pi) 0 0).2.getD 0 zeroVector3D =
        Perspective
          ((sceneCubeVertices (GoMath.mk Real.sin Real.cos Real.pi) 0 0).1.getD 0 zeroVector3D)
          140 64 ∧
      |((sceneCubeVertices (GoMath.mk Real.sin Real.cos Real.pi) 0 0).1.getD 0
          zeroVector3D).Z| ≤ 30 * Real.sqrt 3 ∧
      30 * Real.sqrt 3 < 64 ∧
      0 < ((sceneCubeVertices (GoMath.mk Real.sin Real.cos Real.pi) 0 0).1.getD 0
          zeroVector3D).Z + 64 :=
  ⟨by decide, by decide, Perspective_divisor_pos_in_scene 0 0 0 (by decide) (by decide)⟩

end Effects

/-! ## Standard library models: formatting -/


namespace GoStd

theorem doPrintf_nil (args : List Operand) : doPrintf [] args = some (extraArgs args) := by
  rw [doPrintf.eq_def]

theorem doPrintf_text_cons (c : Char) (cs : List Char) (args : List Operand) (h : c ≠ '%') :
    doPrintf (c :: cs) args = (doPrintf cs args).map (fun out => c :: out) := by
  rw [doPrintf.eq_def]
  simp only [if_neg h]

theorem doPrintf_text_append (pre rest : List Char) (args : List Operand) (h : '%' ∉ pre) :
    doPrintf (pre ++ rest) args = (doPrintf rest args).map (fun out => pre ++ out) := by
  induction pre with
  | nil => simp
  | cons c cs ih =>
    have hc : c ≠ '%' := fun e => h (by simp [e])
    have hcs : '%' ∉ cs := fun e => h (by simp [e])
    rw [List.cons_append, doPrintf_text_cons _ _ _ hc, ih hcs, Option.map_map]
    rfl

theorem doPrintf_text (suf : List Char) (h : '%' ∉ suf) : doPrintf suf [] = some suf := by
  have := doPrintf_text_append suf [] [] h
  rw [List.append_nil, doPrintf_nil] at this
  rw [this]
  simp [extraArgs]

theorem doPrintf_verb_s (rest : List Char) (a : Operand) (more : List Operand) :
    doPrintf ('%' :: 's' :: rest) (a :: more) =
      (doPrintf rest more).map (fun out => printArg a 's' ++ out) := by
  rw [doPrintf.eq_def]
  simp

theorem doPrintf_verb_d (rest : List Char) (a : Operand) (more : List Operand) :
    doPrintf ('%' :: 'd' :: rest) (a :: more) =
      (doPrintf rest more).map (fun out => printArg a 'd' ++ out) := by
  rw [doPrintf.eq_def]
  simp

theorem Sprintf_one_s (pre suf : String) (t v : String) (hpre : '%' ∉ pre.data)
    (hsuf : '%' ∉ suf.data) :
    Sprintf (pre ++ "%s" ++ suf) [Operand.str t v] = some (pre ++ v ++ suf) := by
  have e : (pre ++ "%s" ++ suf).data = pre.data ++ ('%' :: 's' :: suf.data) := by
    simp [String.data_append]
  rw [Sprintf, e, doPrintf_text_append _ _ _ hpre, doPrintf_verb_s, doPrintf_text _ hsuf]
  simp [printArg, String.ext_iff, String.data_append]

theorem Sprintf_one_d (pre suf : String) (t : String) (n : Int) (hpre : '%' ∉ pre.data)
    (hsuf : '%' ∉ suf.data) :
    Sprintf (pre ++ "%d" ++ suf) [Operand.int t n] = some (pre ++ toString n ++ suf) := by
  have e : (pre ++ "%d" ++ suf).data = pre.data ++ ('%' :: 'd' :: suf.data) := by
    simp [String.data_append]
  rw [Sprintf, e, doPrintf_text_append _ _ _ hpre, doPrintf_verb_d, doPrintf_text _ hsuf]
  simp [printArg, String.ext_iff, String.data_append]

theorem stringsContainsChars_inside (pre suf : List Char) :
    stringsContainsChars ['%', 's'] (pre ++ ('%' :: 's' :: suf)) = true := by
  induction pre with
  | nil => simp [stringsContainsChars, List.isPrefixOf]
  | cons c cs ih =>
    rw [List.cons_append, stringsContainsChars, ih, Bool.or_true]

theorem stringsContains_inside (pre suf : String) :
    stringsContains (pre ++ "%s" ++ suf) "%s" = true := by
  have e : (pre ++ "%s" ++ suf).data = pre.data ++ ('%' :: 's' :: suf.data) := by
    simp [String.data_append]
  rw [stringsContains, e]
  exact stringsContainsChars_inside _ _

end GoStd

namespace GoStd

theorem decimalValue_acc (ds : List Char) :
    ∀ a : Nat, ds.foldl (fun acc c => acc * 10 + (c.toNat - 48)) a =
      a * 10 ^ ds.length + ds.foldl (fun acc c => acc * 10 + (c.toNat - 48)) 0 := by
  induction ds with
  | nil => intro a; simp
  | cons d ds ih =>
    intro a
    rw [List.foldl_cons, ih, List.foldl_cons, ih (0 * 10 + (d.toNat - 48)), List.length_cons]
    ring

theorem digitChar_value (k : Nat) (hk : k < 10) : (Nat.digitChar k).toNat - 48 = k := by
  interval_cases k <;> rfl

theorem toDigitsCore_value (fuel : Nat) :
    ∀ (n : Nat) (ds : List Char), n < fuel →
      (Nat.toDigitsCore 10 fuel n ds).foldl (fun acc c => acc * 10 + (c.toNat - 48)) 0 =
        n * 10 ^ ds.length + ds.foldl (fun acc c => acc * 10 + (c.toNat - 48)) 0 := by
  induction fuel with
  | zero => intro n ds h; omega
  | succ fuel ih =>
    intro n ds h
    rw [Nat.toDigitsCore]
    by_cases h0 : n / 10 = 0
    · simp only [h0, if_true]
      rw [List.foldl_cons, decimalValue_acc, digitChar_value _ (Nat.mod_lt _ (by decide))]
      have : n % 10 = n := by omega
      rw [this]
      ring
    · simp only [h0, if_false]
      rw [ih (n / 10) _ (by omega), List.foldl_cons, decimalValue_acc ds,
        digitChar_value _ (Nat.mod_lt _ (by decide)), List.length_cons]
      have e := Nat.div_add_mod n 10
      have e2 : n * 10 ^ ds.length = (10 * (n / 10) + n % 10) * 10 ^ ds.length := by rw [e]
      rw [e2]
      ring

theorem natRepr_injective (m n : Nat) (h : (toString m : String) = toString n) : m = n := by
  have h1 : Nat.toDigits 10 m = Nat.toDigits 10 n := by
    have := congrArg String.data h
    exact this
  have hm := toDigitsCore_value (m + 1) m [] (by omega)
  have hn := toDigitsCore_value (n + 1) n [] (by omega)
  rw [Nat.toDigits, Nat.toDigits] at h1
  rw [h1, hn] at hm
  simpa using hm.symm

theorem intToString_natCast (n : Nat) : (toString ((n : Nat) : Int) : String) = toString n :=
  rfl

end GoStd

/-! ## Client: host description and URL -/

namespace C64dws
open GoStd

/-- Claim C25: for every emulator type `e`,
`NewDefaultClient(e, StreamAPI).GetURL()` is `ws://localhost:3563/stream`;
`GetCustomHost("localhost", 3563, "ws")` returns no error, and a client built
by `NewCustomClient` from the host it returns (with `StreamAPI` and any
emulator, token type and token format) has the same URL. -/
theorem GetURL_default_and_custom (e : EmulatorType) (tokenType : TokenType)
    (tokenFormat : String) :
    (NewDefaultClient e StreamAPI).GetURL = some "ws://localhost:3563/stream" ∧
      (GetCustomHost "localhost" 3563 "ws").2 = none ∧
      (NewCustomClient e StreamAPI tokenType tokenFormat
        (GetCustomHost "localhost" 3563 "ws").1).GetURL = some "ws://localhost:3563/stream" ∧
      (NewCustomClient e StreamAPI tokenType tokenFormat
        (GetCustomHost "localhost" 3563 "ws").1).GetURL = (NewDefaultClient e StreamAPI).GetURL :=
  ⟨rfl, rfl, rfl, rfl⟩

/-- Claim C26: `GetCustomHost(hostName, port, scheme)` fails with
`Invalid host description` exactly when `hostName` is empty or `port` is 0 or
`scheme` is empty; otherwise it fails with
`Currently only 'ws' scheme is supported` exactly when `scheme` is not `ws`;
otherwise it returns no error and a `HostDesc` holding exactly the given
`hostName`, `port` and `scheme`. -/
theorem GetCustomHost_cases (hostName : String) (port : Int) (scheme : String) :
    ((GetCustomHost hostName port scheme).2 = some "Invalid host description" ↔
        (hostName = "" ∨ port = 0 ∨ scheme = "")) ∧
      ((GetCustomHost hostName port scheme).2 = some "Currently only 'ws' scheme is supported" ↔
        (¬ (hostName = "" ∨ port = 0 ∨ scheme = "") ∧ scheme ≠ "ws")) ∧
      ((GetCustomHost hostName port scheme).2 = none ↔
        (¬ (hostName = "" ∨ port = 0 ∨ scheme = "") ∧ scheme = "ws")) ∧
      ((GetCustomHost hostName port scheme).2 = none →
        (GetCustomHost hostName port scheme).1 =
          { hostName := hostName, port := port, scheme := scheme }) := by
  by_cases h1 : scheme = "" ∨ port = 0 ∨ hostName = ""
  · have h1' : hostName = "" ∨ port = 0 ∨ scheme = "" := by tauto
    have hv : GetCustomHost hostName port scheme =
        ({ hostName := "", port := 0, scheme := "" }, some "Invalid host description") := by
      rw [GetCustomHost, if_pos h1]
    have hne : (some "Invalid host description" : Option String) ≠
        some "Currently only 'ws' scheme is supported" := by decide
    rw [hv]
    exact ⟨⟨fun _ => h1', fun _ => rfl⟩, ⟨fun h => absurd h hne, fun h => absurd h1' h.1⟩,
      ⟨(fun h => nomatch h), fun h => absurd h1' h.1⟩, (fun h => nomatch h)⟩
  · have h1' : ¬ (hostName = "" ∨ port = 0 ∨ scheme = "") := by tauto
    by_cases h2 : scheme = "ws"
    · have hv : GetCustomHost hostName port scheme =
          ({ hostName := hostName, port := port, scheme := scheme }, none) := by
        rw [GetCustomHost, if_neg h1, if_neg (not_not.mpr h2)]
      rw [hv]
      exact ⟨⟨(fun h => nomatch h), fun h => absurd h h1'⟩,
        ⟨(fun h => nomatch h), fun h => absurd h2 h.2⟩, ⟨fun _ => ⟨h1', h2⟩, fun _ => rfl⟩,
        fun _ => rfl⟩
    · have hv : GetCustomHost hostName port scheme =
          ({ hostName := "", port := 0, scheme := "" },
            some "Currently only 'ws' scheme is supported") := by
        rw [GetCustomHost, if_neg h1, if_pos h2]
      have hne : (some "Currently only 'ws' scheme is supported" : Option String) ≠
          some "Invalid host description" := by decide
      rw [hv]
      exact ⟨⟨fun h => absurd h hne, fun h => absurd h h1'⟩, ⟨fun _ => ⟨h1', h2⟩, fun _ => rfl⟩,
        ⟨(fun h => nomatch h), fun h => absurd h.2 h2⟩, (fun h => nomatch h)⟩

end C64dws

/-! ## Client: API function paths -/

namespace C64dws
open GoStd

theorem GetAPIFn_of_one_s (c : Client) (pre suf : String) (hpre : '%' ∉ pre.data)
    (hsuf : '%' ∉ suf.data) :
    c.GetAPIFn (pre ++ "%s" ++ suf) = some (pre ++ c.emulator ++ suf) := by
  rw [Client.GetAPIFn, if_pos (stringsContains_inside pre suf), Sprintf_one_s _ _ _ _ hpre hsuf]

theorem apiFnConstants_shape :
    ∀ p ∈ apiFnConstants, p ≠ APIFnLoad →
      (p.data.take 2 = ['%', 's'] ∧ (p.data.drop 2).head? = some '/' ∧
        '%' ∉ p.data.drop 2) := by
  decide

/-- Claim C27 fails for a path format with two `%s`: on a `c64` client
`GetAPIFn("%s/%s")` is `c64/%!s(MISSING)`, which is neither `c64/c64` nor
`c64/%s`. -/
theorem GetAPIFn_two_directives :
    (NewDefaultClient EmulatorC64 StreamAPI).GetAPIFn "%s/%s" = some "c64/%!s(MISSING)" ∧
      stringsContains "%s/%s" "%s" = true ∧
      (NewDefaultClient EmulatorC64 StreamAPI).GetAPIFn "%s/%s" ≠ some "c64/c64" ∧
      (NewDefaultClient EmulatorC64 StreamAPI).GetAPIFn "%s/%s" ≠ some "c64/%s" := by
  decide

/-- Claim C27, amended: for every client `c` with emulator `e`, `GetAPIFn` of
a path format `pre ++ "%s" ++ suf` whose parts `pre` and `suf` have no `%`
returns `pre ++ e ++ suf`; `GetAPIFn` of a path without `%s` returns it
unchanged, and `APIFnLoad` gives `load`; every API path constant other than
`APIFnLoad` is `%s` followed by a suffix that starts with `/`, and yields `e`
followed by that suffix; `APIFnContinue` on a `c64` client gives
`c64/continue`. -/
theorem GetAPIFn_substitutes_emulator (c : Client) :
    (∀ pre suf : String, '%' ∉ pre.data → '%' ∉ suf.data →
        c.GetAPIFn (pre ++ "%s" ++ suf) = some (pre ++ c.emulator ++ suf)) ∧
      (∀ p : APIFn, stringsContains p "%s" = false → c.GetAPIFn p = some p) ∧
      c.GetAPIFn APIFnLoad = some "load" ∧
      (∀ p ∈ apiFnConstants, p ≠ APIFnLoad →
        ∃ suffix : String, suffix.data.head? = some '/' ∧ p = "%s" ++ suffix ∧
          c.GetAPIFn p = some (c.emulator ++ suffix)) ∧
      (c.emulator = EmulatorC64 → c.GetAPIFn APIFnContinue = some "c64/continue") := by
  refine ⟨fun pre suf hpre hsuf => GetAPIFn_of_one_s c pre suf hpre hsuf, ?_, rfl, ?_, ?_⟩
  · intro p hp
    rw [Client.GetAPIFn, hp]
    rfl
  · intro p hp hne
    obtain ⟨h1, h2, h3⟩ := apiFnConstants_shape p hp hne
    have e : p = "%s" ++ String.mk (p.data.drop 2) := by
      apply String.ext
      rw [String.data_append]
      show p.data = ['%', 's'] ++ p.data.drop 2
      rw [← h1, List.take_append_drop]
    refine ⟨String.mk (p.data.drop 2), h2, e, ?_⟩
    have := GetAPIFn_of_one_s c "" (String.mk (p.data.drop 2)) (by simp) h3
    rw [String.empty_append, String.empty_append] at this
    rw [← this, ← e]
  · intro he
    have := GetAPIFn_of_one_s c "" "/continue" (by simp) (by decide)
    rw [he] at this
    exact this

end C64dws

/-! ## Client: tokens -/

namespace C64dws
open GoStd

theorem wrapInt64_succ (z : Int) : wrapInt64 (wrapInt64 z + 1) = wrapInt64 (z + 1) := by
  simp only [wrapInt64]
  norm_num
  omega

theorem wrapInt64_of_lt (n : Nat) (h : n < 2 ^ 63) : wrapInt64 (n : Int) = (n : Int) := by
  have h' : (n : Int) < 9223372036854775808 := by
    have : (2 : Nat) ^ 63 = 9223372036854775808 := by norm_num
    omega
  simp only [wrapInt64]
  norm_num
  omega

theorem GetToken_autoincrement (c : Client) (tokenFormat : List String) (uuidNew : String)
    (h : c.tokenType = TokenTypeAutoIncrement) :
    c.GetToken tokenFormat uuidNew =
      Except.ok
        (Sprintf (if tokenFormat.length > 0 then tokenFormat.getD 0 "" else c.tokenFormat)
            [Operand.int "int64" (wrapInt64 (c.autoincrement + 1))],
          { c with autoincrement := wrapInt64 (c.autoincrement + 1) }) := by
  have hne : ¬ (TokenTypeAutoIncrement = TokenTypeUUID) := by decide
  rw [Client.GetToken, h]
  simp only [if_neg hne, if_true]

theorem afterGetTokenCalls_autoincrement (c : Client) (calls : Nat → List String × String)
    (h : c.tokenType = TokenTypeAutoIncrement) (h0 : c.autoincrement = 0) (n : Nat) :
    c.afterGetTokenCalls calls n = { c with autoincrement := wrapInt64 (n : Int) } := by
  induction n with
  | zero =>
    have e : wrapInt64 ((0 : Nat) : Int) = c.autoincrement := by
      rw [h0]
      decide
    rw [Client.afterGetTokenCalls, e]
  | succ n ih =>
    have hstep := GetToken_autoincrement { c with autoincrement := wrapInt64 (n : Int) }
      (calls (n + 1)).1 (calls (n + 1)).2 h
    rw [Client.afterGetTokenCalls, ih, hstep]
    simp only [wrapInt64_succ, Nat.cast_add, Nat.cast_one]

theorem nthGetToken_autoincrement (c : Client) (calls : Nat → List String × String)
    (h : c.tokenType = TokenTypeAutoIncrement) (h0 : c.autoincrement = 0) (n : Nat)
    (hn : 1 ≤ n) :
    c.nthGetToken calls n =
      Except.ok
        (Sprintf (if (calls n).1.length > 0 then (calls n).1.getD 0 "" else c.tokenFormat)
            [Operand.int "int64" (wrapInt64 (n : Int))],
          { c with autoincrement := wrapInt64 (n : Int) }) := by
  have hstep := GetToken_autoincrement { c with autoincrement := wrapInt64 ((n - 1 : Nat) : Int) }
    (calls n).1 (calls n).2 h
  rw [Client.nthGetToken, afterGetTokenCalls_autoincrement c calls h h0, hstep]
  have e : ((n - 1 : Nat) : Int) + 1 = (n : Int) := by omega
  simp only [wrapInt64_succ, e]

theorem token_ne_of_ne (pre suf : String) (m n : Nat) (h : m ≠ n) :
    pre ++ toString m ++ suf ≠ pre ++ toString n ++ suf := by
  intro e
  have e1 := congrArg String.data e
  simp only [String.data_append, List.append_assoc, List.append_cancel_left_eq] at e1
  have e2 := List.append_cancel_right e1
  exact h (natRepr_injective m n (String.ext e2))

/-- Claim C28 fails at the call number `2^63`: the `int64` counter of a new
default client wraps from `2^63 - 1` to `-2^63`, so the token returned is
`id--9223372036854775808` and not `id-9223372036854775808`. -/
theorem GetToken_counter_wraps_at_two_pow_63 :
    (NewDefaultClient EmulatorC64 StreamAPI).nthGetToken (fun _ => ([], "")) (2 ^ 63) =
        Except.ok (some "id--9223372036854775808",
          { NewDefaultClient EmulatorC64 StreamAPI with autoincrement := -2 ^ 63 }) ∧
      (some "id--9223372036854775808" : Option String) ≠
        Sprintf WS_DEFAULT_TOKEN_FORMAT [Operand.int "int64" (2 ^ 63)] := by
  refine ⟨?_, by decide⟩
  rw [nthGetToken_autoincrement _ _ rfl rfl _ (by norm_num)]
  have e : wrapInt64 ((2 ^ 63 : Nat) : Int) = -2 ^ 63 := by decide
  rw [e]
  rfl

/-- Claim C28, amended with the bound `n < 2^63`: on a client created with
token type `TokenTypeAutoIncrement`, the call number `n` of `GetToken`
(`1 ≤ n < 2^63`) formats the integer `n` with the chosen format (the first
format argument of the call, else the format of the client) and leaves the
counter at `n`, one more than before the call, whichever format is passed;
with the default format `id-%d` the token is `id-n`; and when two calls
`m ≠ n` below `2^63` use one format `pre ++ "%d" ++ suf` without a further
`%`, their tokens `pre ++ m ++ suf` and `pre ++ n ++ suf` are different. -/
theorem GetToken_nth_call (e : EmulatorType) (api : APIType) (fmt : String) (host : HostDesc)
    (calls : Nat → List String × String) (n : Nat) (h1 : 1 ≤ n) (h2 : n < 2 ^ 63) :
    (NewCustomClient e api TokenTypeAutoIncrement fmt host).nthGetToken calls n =
        Except.ok
          (Sprintf (if (calls n).1.length > 0 then (calls n).1.getD 0 "" else fmt)
              [Operand.int "int64" (n : Int)],
            { NewCustomClient e api TokenTypeAutoIncrement fmt host with
              autoincrement := (n : Int) }) ∧
      ((NewCustomClient e api TokenTypeAutoIncrement fmt host).afterGetTokenCalls calls
          n).autoincrement =
        ((NewCustomClient e api TokenTypeAutoIncrement fmt host).afterGetTokenCalls calls
          (n - 1)).autoincrement + 1 ∧
      Sprintf WS_DEFAULT_TOKEN_FORMAT [Operand.int "int64" (n : Int)] =
        some ("id-" ++ toString n) ∧
      (∀ (pre suf : String) (m : Nat), '%' ∉ pre.data → '%' ∉ suf.data → 1 ≤ m → m < 2 ^ 63 →
        m ≠ n →
        (if (calls m).1.length > 0 then (calls m).1.getD 0 "" else fmt) = pre ++ "%d" ++ suf →
        (if (calls n).1.length > 0 then (calls n).1.getD 0 "" else fmt) = pre ++ "%d" ++ suf →
        ∃ (tm tn : String) (cm cn : Client),
          (NewCustomClient e api TokenTypeAutoIncrement fmt host).nthGetToken calls m =
              Except.ok (some tm, cm) ∧
            (NewCustomClient e api TokenTypeAutoIncrement fmt host).nthGetToken calls n =
              Except.ok (some tn, cn) ∧
            tm = pre ++ toString m ++ suf ∧ tn = pre ++ toString n ++ suf ∧ tm ≠ tn) := by
  have hw : wrapInt64 (n : Int) = (n : Int) := wrapInt64_of_lt n h2
  have hw1 : wrapInt64 ((n - 1 : Nat) : Int) = ((n - 1 : Nat) : Int) :=
    wrapInt64_of_lt (n - 1) (by omega)
  refine ⟨?_, ?_, ?_, ?_⟩
  · rw [nthGetToken_autoincrement _ _ rfl rfl _ h1, hw]
    rfl
  · rw [afterGetTokenCalls_autoincrement _ _ rfl rfl, afterGetTokenCalls_autoincrement _ _ rfl rfl]
    show wrapInt64 (n : Int) = wrapInt64 ((n - 1 : Nat) : Int) + 1
    rw [hw, hw1]
    omega
  · have := Sprintf_one_d "id-" "" "int64" (n : Int) (by decide) (by simp)
    rw [String.append_empty, String.append_empty, intToString_natCast] at this
    exact this
  · intro pre suf m hpre hsuf hm1 hm2 hmn fm fn
    refine ⟨pre ++ toString m ++ suf, pre ++ toString n ++ suf,
      { NewCustomClient e api TokenTypeAutoIncrement fmt host with autoincrement := (m : Int) },
      { NewCustomClient e api TokenTypeAutoIncrement fmt host with autoincrement := (n : Int) },
      ?_, ?_, rfl, rfl, token_ne_of_ne pre suf m n hmn⟩
    · rw [nthGetToken_autoincrement _ _ rfl rfl _ hm1, wrapInt64_of_lt m hm2]
      show Except.ok (Sprintf (if (calls m).1.length > 0 then (calls m).1.getD 0 "" else fmt)
        [Operand.int "int64" (m : Int)], _) = _
      rw [fm, Sprintf_one_d _ _ _ _ hpre hsuf, intToString_natCast]
    · rw [nthGetToken_autoincrement _ _ rfl rfl _ h1, hw]
      show Except.ok (Sprintf (if (calls n).1.length > 0 then (calls n).1.getD 0 "" else fmt)
        [Operand.int "int64" (n : Int)], _) = _
      rw [fn, Sprintf_one_d _ _ _ _ hpre hsuf, intToString_natCast]

/-- Claim C28, amended, at the third call of a new default client, the call
made without a format argument. -/
theorem GetToken_nth_call_witness :
    (1 ≤ 3) ∧ (3 < 2 ^ 63) ∧
      (NewCustomClient EmulatorC64 StreamAPI TokenTypeAutoIncrement WS_DEFAULT_TOKEN_FORMAT
          GetDefaultHost).nthGetToken (fun _ => ([], "")) 3 =
        Except.ok (some "id-3",
          { NewCustomClient EmulatorC64 StreamAPI TokenTypeAutoIncrement WS_DEFAULT_TOKEN_FORMAT
              GetDefaultHost with autoincrement := 3 }) :=
  ⟨by decide, by decide,
    (GetToken_nth_call EmulatorC64 StreamAPI WS_DEFAULT_TOKEN_FORMAT GetDefaultHost
      (fun _ => ([], "")) 3 (by decide) (by decide)).1⟩

end C64dws

/-! ## Client: classification of received messages -/

namespace C64dws
open GoStd

theorem getRAWMessage_text (c : Client) (text : List Nat) :
    c.getRAWMessage (TextMessage, text, none) = (TextMessage, text, [], none) := by
  simp [Client.getRAWMessage]

theorem getRAWMessage_binary (c : Client) (message : List Nat) :
    c.getRAWMessage (BinaryMessage, message, none) =
      (BinaryMessage, (c.getRAWMessage (BinaryMessage, message, none)).2.1,
        (c.getRAWMessage (BinaryMessage, message, none)).2.2.1, none) := by
  have h : ¬ (BinaryMessage = TextMessage) := by decide
  simp only [Client.getRAWMessage, if_neg h, if_true]
  split <;> rfl

theorem ReceiveMessage_breakpoint (c : Client) (json : Unmarshal) (text : List Nat)
    (se : ServerEventBase) (be : BreakpointEventBase)
    (hse : json.intoServerEventBase text = Except.ok se)
    (hev : se.Event = ServerEventTypeBreakpoint)
    (hbe : json.intoBreakpointEventBase text = Except.ok be) :
    c.ReceiveMessage json (TextMessage, text, none) =
      if be.Typ = BreakpointEventRaster then
        match json.intoRasterBreakpointEvent text with
        | Except.error err => (C64DServerEvent, Message.nil, some err)
        | Except.ok v => (C64DServerEvent, Message.RasterBreakpointEvent v, none)
      else if be.Typ = BreakpointEventCPUData then
        match json.intoCPUAddrBreakpointEvent text with
        | Except.error err => (C64DServerEvent, Message.nil, some err)
        | Except.ok v => (C64DServerEvent, Message.CPUAddrBreakpointEvent v, none)
      else if be.Typ = BreakpointEventCPUAddr then
        match json.intoCPUDataBreakpointEvent text with
        | Except.error err => (C64DServerEvent, Message.nil, some err)
        | Except.ok v => (C64DServerEvent, Message.CPUDataBreakpointEvent v, none)
      else
        (C64DServerEvent, Message.BreakpointEventBase be, none) := by
  rw [Client.ReceiveMessage, getRAWMessage_text]
  simp only [if_true, hse, hev, hbe]

/-- Claim C29 holds for the types `rasterLine` and the default, and for the
message type; it fails for `data` and `addr`, which `ReceiveMessage` returns
with the two struct types exchanged.  For a text message whose event is
`breakpoint` and whose `BreakpointEventBase` decodes: the message type
returned is `C64DServerEvent`; type `rasterLine` is returned as a
`RasterBreakpointEvent` and any type other than the three as the
`BreakpointEventBase`; but type `data` is returned as a
`CPUAddrBreakpointEvent` and type `addr` as a `CPUDataBreakpointEvent`. -/
theorem ReceiveMessage_breakpoint_data_addr_exchanged (c : Client) (json : Unmarshal)
    (text : List Nat) (se : ServerEventBase) (be : BreakpointEventBase)
    (hse : json.intoServerEventBase text = Except.ok se)
    (hev : se.Event = ServerEventTypeBreakpoint)
    (hbe : json.intoBreakpointEventBase text = Except.ok be) :
    (c.ReceiveMessage json (TextMessage, text, none)).1 = C64DServerEvent ∧
      (be.Typ = BreakpointEventRaster → ∀ v, json.intoRasterBreakpointEvent text = Except.ok v →
        c.ReceiveMessage json (TextMessage, text, none) =
          (C64DServerEvent, Message.RasterBreakpointEvent v, none)) ∧
      (be.Typ = BreakpointEventCPUData → ∀ v, json.intoCPUAddrBreakpointEvent text = Except.ok v →
        c.ReceiveMessage json (TextMessage, text, none) =
            (C64DServerEvent, Message.CPUAddrBreakpointEvent v, none) ∧
          ∀ w, (c.ReceiveMessage json (TextMessage, text, none)).2.1 ≠
            Message.CPUDataBreakpointEvent w) ∧
      (be.Typ = BreakpointEventCPUAddr → ∀ v, json.intoCPUDataBreakpointEvent text = Except.ok v →
        c.ReceiveMessage json (TextMessage, text, none) =
            (C64DServerEvent, Message.CPUDataBreakpointEvent v, none) ∧
          ∀ w, (c.ReceiveMessage json (TextMessage, text, none)).2.1 ≠
            Message.CPUAddrBreakpointEvent w) ∧
      (be.Typ ≠ BreakpointEventRaster → be.Typ ≠ BreakpointEventCPUData →
        be.Typ ≠ BreakpointEventCPUAddr →
        c.ReceiveMessage json (TextMessage, text, none) =
          (C64DServerEvent, Message.BreakpointEventBase be, none)) := by
  have h := ReceiveMessage_breakpoint c json text se be hse hev hbe
  have hda : ¬ (BreakpointEventCPUData = BreakpointEventRaster) := by decide
  have had : ¬ (BreakpointEventCPUAddr = BreakpointEventRaster) := by decide
  have had2 : ¬ (BreakpointEventCPUAddr = BreakpointEventCPUData) := by decide
  refine ⟨?_, ?_, ?_, ?_, ?_⟩
  · rw [h]
    split_ifs <;> first | rfl | (split <;> rfl)
  · intro ht v hv
    rw [h, if_pos ht, hv]
  · intro ht v hv
    have e : c.ReceiveMessage json (TextMessage, text, none) =
        (C64DServerEvent, Message.CPUAddrBreakpointEvent v, none) := by
      rw [h, ht, if_neg hda, if_pos rfl, hv]
    rw [e]
    exact ⟨rfl, fun w hw => nomatch hw⟩
  · intro ht v hv
    have e : c.ReceiveMessage json (TextMessage, text, none) =
        (C64DServerEvent, Message.CPUDataBreakpointEvent v, none) := by
      rw [h, ht, if_neg had, if_neg had2, if_pos rfl, hv]
    rw [e]
    exact ⟨rfl, fun w hw => nomatch hw⟩
  · intro h1 h2 h3
    rw [h, if_neg h1, if_neg h2, if_neg h3]

/-- Claim C29 at a sample event of type `data` with segment 2: the value
returned is a `CPUAddrBreakpointEvent`. -/
theorem ReceiveMessage_breakpoint_data_addr_exchanged_witness :
    (NewDefaultClient EmulatorC64 StreamAPI).ReceiveMessage sampleDataBreakpointJSON
        (TextMessage, sampleDataBreakpointText, none) =
      (C64DServerEvent,
        Message.CPUAddrBreakpointEvent { sampleDataBreakpointBase with Segment := 2 }, none) :=
  ((ReceiveMessage_breakpoint_data_addr_exchanged (NewDefaultClient EmulatorC64 StreamAPI)
    sampleDataBreakpointJSON sampleDataBreakpointText { Event := "breakpoint" }
    sampleDataBreakpointBase (by rfl) (by rfl) (by rfl)).2.2.1 (by rfl)
    { sampleDataBreakpointBase with Segment := 2 } (by rfl)).1

/-- Claim C30: `ReceiveMessage` classifies a binary message by the status of
its JSON text part.  With the text part decoding to a `RequestResultBase`:
status 200 is returned as `(C64DRequestResponse, RequestResult)` with
`BinaryData` equal to the binary part of the message, and every other status
as `(C64DRequestResponse, RequestError)`; `GetResultOrError` returns a
non-nil result and a nil error for the former, a nil result and a non-nil
error for the latter, and `(nil, nil)` for any other value. -/
theorem ReceiveMessage_binary_by_status (c : Client) (json : Unmarshal) (message : List Nat)
    (rb : RequestResultBase)
    (hrb : json.intoRequestResultBase (c.getRAWMessage (BinaryMessage, message, none)).2.1 =
      Except.ok rb) :
    (rb.Status = 200 → ∀ rr,
        json.intoRequestResult (c.getRAWMessage (BinaryMessage, message, none)).2.1 =
          Except.ok rr →
        c.ReceiveMessage json (BinaryMessage, message, none) =
            (C64DRequestResponse,
              Message.RequestResult
                { rr with BinaryData := (c.getRAWMessage (BinaryMessage, message, none)).2.2.1 },
              none) ∧
          GetResultOrError (c.ReceiveMessage json (BinaryMessage, message, none)).2.1 =
            (some { rr with BinaryData := (c.getRAWMessage (BinaryMessage, message, none)).2.2.1 },
              none)) ∧
      (rb.Status ≠ 200 → ∀ re,
        json.intoRequestError (c.getRAWMessage (BinaryMessage, message, none)).2.1 =
          Except.ok re →
        c.ReceiveMessage json (BinaryMessage, message, none) =
            (C64DRequestResponse, Message.RequestError re, none) ∧
          GetResultOrError (c.ReceiveMessage json (BinaryMessage, message, none)).2.1 =
            (none, some re)) ∧
      (∀ msg : Message, (∀ v, msg ≠ Message.RequestResult v) →
        (∀ v, msg ≠ Message.RequestError v) → GetResultOrError msg = (none, none)) := by
  have hbt : ¬ (BinaryMessage = TextMessage) := by decide
  have h : c.ReceiveMessage json (BinaryMessage, message, none) =
      match json.intoRequestResultBase (c.getRAWMessage (BinaryMessage, message, none)).2.1 with
      | Except.error err => (C64DRequestResponse, Message.nil, some err)
      | Except.ok requestResultBase =>
        if requestResultBase.Status = 200 then
          match json.intoRequestResult (c.getRAWMessage (BinaryMessage, message, none)).2.1 with
          | Except.error err => (C64DRequestResponse, Message.nil, some err)
          | Except.ok requestResult =>
            (C64DRequestResponse,
              Message.RequestResult
                { requestResult with
                  BinaryData := (c.getRAWMessage (BinaryMessage, message, none)).2.2.1 }, none)
        else
          match json.intoRequestError (c.getRAWMessage (BinaryMessage, message, none)).2.1 with
          | Except.error err => (C64DRequestResponse, Message.nil, some err)
          | Except.ok requestError =>
            (C64DRequestResponse, Message.RequestError requestError, none) := by
    rw [Client.ReceiveMessage, getRAWMessage_binary]
    simp only [if_neg hbt, if_true]
  refine ⟨?_, ?_, ?_⟩
  · intro hs rr hrr
    have e : c.ReceiveMessage json (BinaryMessage, message, none) =
        (C64DRequestResponse,
          Message.RequestResult
            { rr with BinaryData := (c.getRAWMessage (BinaryMessage, message, none)).2.2.1 },
          none) := by
      rw [h, hrb]
      simp only [if_pos hs, hrr]
    exact ⟨e, by rw [e]; rfl⟩
  · intro hs re hre
    have e : c.ReceiveMessage json (BinaryMessage, message, none) =
        (C64DRequestResponse, Message.RequestError re, none) := by
      rw [h, hrb]
      simp only [if_neg hs, hre]
    exact ⟨e, by rw [e]; rfl⟩
  · intro msg h1 h2
    cases msg with
    | RequestResult v => exact absurd rfl (h1 v)
    | RequestError v => exact absurd rfl (h2 v)
    | _ => rfl

/-- Claim C30 at a sample response with status 200, followed by a zero byte
and the three data bytes 1, 2, 3. -/
theorem ReceiveMessage_binary_by_status_witness :
    (NewDefaultClient EmulatorC64 StreamAPI).ReceiveMessage sampleResultJSON
        (BinaryMessage, sampleResultText ++ [0] ++ [1, 2, 3], none) =
      (C64DRequestResponse,
        Message.RequestResult
          { Status := 200, Token := "id-1", Result := some [("pc", JSONValue.number 2049)],
            BinaryData := [1, 2, 3] },
        none) :=
  ((ReceiveMessage_binary_by_status (NewDefaultClient EmulatorC64 StreamAPI) sampleResultJSON
    (sampleResultText ++ [0] ++ [1, 2, 3]) { Status := 200 } (by rfl)).1 (by rfl)
    { Status := 200, Token := "id-1", Result := some [("pc", JSONValue.number 2049)],
      BinaryData := [] } (by rfl)).1

end C64dws


/-! ## Rotations preserve length -/

namespace Transform
open Vc64 Drawing Transform

theorem RotateX_normSq {K : Type} [Field K] (m : GoMath K)
    (hsc : ∀ x, m.Sin x ^ 2 + m.Cos x ^ 2 = 1) (a : K) (v : Vector3D K) :
    (RotateX m a v).X ^ 2 + (RotateX m a v).Y ^ 2 + (RotateX m a v).Z ^ 2 =
      v.X ^ 2 + v.Y ^ 2 + v.Z ^ 2 := by
  have h := hsc (AngleToRadians m a)
  simp only [RotateX, NewVector3D]
  linear_combination (v.Y ^ 2 + v.Z ^ 2) * h

theorem RotateY_normSq {K : Type} [Field K] (m : GoMath K)
    (hsc : ∀ x, m.Sin x ^ 2 + m.Cos x ^ 2 = 1) (a : K) (v : Vector3D K) :
    (RotateY m a v).X ^ 2 + (RotateY m a v).Y ^ 2 + (RotateY m a v).Z ^ 2 =
      v.X ^ 2 + v.Y ^ 2 + v.Z ^ 2 := by
  have h := hsc (AngleToRadians m a)
  simp only [RotateY, NewVector3D]
  linear_combination (v.X ^ 2 + v.Z ^ 2) * h

theorem RotateZ_normSq {K : Type} [Field K] (m : GoMath K)
    (hsc : ∀ x, m.Sin x ^ 2 + m.Cos x ^ 2 = 1) (a : K) (v : Vector3D K) :
    (RotateZ m a v).X ^ 2 + (RotateZ m a v).Y ^ 2 + (RotateZ m a v).Z ^ 2 =
      v.X ^ 2 + v.Y ^ 2 + v.Z ^ 2 := by
  have h := hsc (AngleToRadians m a)
  simp only [RotateZ, NewVector3D]
  linear_combination (v.X ^ 2 + v.Y ^ 2) * h

/-- Claim C38: rotations preserve length.  For a sine and cosine with
`sin² + cos² = 1`, every angle and every vector `v`, in exact arithmetic,
each of `RotateX`, `RotateY`, `RotateZ` and `RotateXYZ` returns a vector `w`
with `w.X² + w.Y² + w.Z² = v.X² + v.Y² + v.Z²`; `RotateX` leaves `X`,
`RotateY` leaves `Y` and `RotateZ` leaves `Z` unchanged. -/
theorem rotations_preserve_length {K : Type} [Field K] (m : GoMath K)
    (hsc : ∀ x, m.Sin x ^ 2 + m.Cos x ^ 2 = 1) (a ax ay az : K) (v : Vector3D K) :
    ((RotateX m a v).X ^ 2 + (RotateX m a v).Y ^ 2 + (RotateX m a v).Z ^ 2 =
        v.X ^ 2 + v.Y ^ 2 + v.Z ^ 2) ∧
      ((RotateY m a v).X ^ 2 + (RotateY m a v).Y ^ 2 + (RotateY m a v).Z ^ 2 =
        v.X ^ 2 + v.Y ^ 2 + v.Z ^ 2) ∧
      ((RotateZ m a v).X ^ 2 + (RotateZ m a v).Y ^ 2 + (RotateZ m a v).Z ^ 2 =
        v.X ^ 2 + v.Y ^ 2 + v.Z ^ 2) ∧
      ((RotateXYZ m ax ay az v).X ^ 2 + (RotateXYZ m ax ay az v).Y ^ 2 +
          (RotateXYZ m ax ay az v).Z ^ 2 = v.X ^ 2 + v.Y ^ 2 + v.Z ^ 2) ∧
      (RotateX m a v).X = v.X ∧ (RotateY m a v).Y = v.Y ∧ (RotateZ m a v).Z = v.Z :=
  ⟨RotateX_normSq m hsc a v, RotateY_normSq m hsc a v, RotateZ_normSq m hsc a v,
    RotateXYZ_normSq m hsc ax ay az v, rfl, rfl, rfl⟩

/-- Claim C38 with the real sine and cosine, the angle 25, the angle triple
`(10, 20, 30)` and the vector `(1, 2, 3)`. -/
theorem rotations_preserve_length_witness :
    (∀ x : ℝ, Real.sin x ^ 2 + Real.cos x ^ 2 = 1) ∧
      ((RotateX (GoMath.mk Real.sin Real.cos Real.pi) 25 (NewVector3D 1 2 3)).X ^ 2 +
          (RotateX (GoMath.mk Real.sin Real.cos Real.pi) 25 (NewVector3D 1 2 3)).Y ^ 2 +
          (RotateX (GoMath.mk Real.sin Real.cos Real.pi) 25 (NewVector3D 1 2 3)).Z ^ 2 =
        (NewVector3D (1 : ℝ) 2 3).X ^ 2 + (NewVector3D (1 : ℝ) 2 3).Y ^ 2 +
          (NewVector3D (1 : ℝ) 2 3).Z ^ 2) ∧
      ((RotateXYZ (GoMath.mk Real.sin Real.cos Real.pi) 10 20 30 (NewVector3D 1 2 3)).X ^ 2 +
          (RotateXYZ (GoMath.mk Real.sin Real.cos Real.pi) 10 20 30 (NewVector3D 1 2 3)).Y ^ 2 +
          (RotateXYZ (GoMath.mk Real.sin Real.cos Real.pi) 10 20 30 (NewVector3D 1 2 3)).Z ^ 2 =
        (NewVector3D (1 : ℝ) 2 3).X ^ 2 + (NewVector3D (1 : ℝ) 2 3).Y ^ 2 +
          (NewVector3D (1 : ℝ) 2 3).Z ^ 2) :=
  ⟨Real.sin_sq_add_cos_sq,
    (rotations_preserve_length (GoMath.mk Real.sin Real.cos Real.pi) Real.sin_sq_add_cos_sq
      25 10 20 30 (NewVector3D 1 2 3)).1,
    (rotations_preserve_length (GoMath.mk Real.sin Real.cos Real.pi) Real.sin_sq_add_cos_sq
      25 10 20 30 (NewVector3D 1 2 3)).2.2.2.1⟩

end Transform

/-! ## Fill at the end of the address space -/

namespace Vc64
open Vc64 Drawing Transform

/-- Claim C39: `CPUFillRAM` does nothing when the range reaches the end of the
address space.  For every `value` and all 16-bit `startAddr`, `count` with
`startAddr + count ≥ 65536`, the bound `startAddr + count` wraps to a value
below `startAddr`, the loop body never runs, and the RAM returned is the RAM
given. -/
theorem C64RAM.CPUFillRAM_wrapped_bound (ram : C64RAM) (value startAddr count : Nat)
    (hs : startAddr < 65536) (hc : count < 65536) (h : 65536 ≤ startAddr + count) :
    (startAddr + count) % 65536 < startAddr ∧ ram.CPUFillRAM value startAddr count = ram := by
  have hb : (startAddr + count) % 65536 < startAddr := by omega
  refine ⟨hb, ?_⟩
  have e : (startAddr + count) % 65536 - startAddr = 0 := by omega
  rw [C64RAM.CPUFillRAM, countedLoop, e]
  rfl

/-- Claim C39 for `CPUFillRAM(7, 0xFF00, 0x0100)` on the all-zero RAM: the last
page is not filled. -/
theorem C64RAM.CPUFillRAM_wrapped_bound_witness :
    (0xFF00 < 65536) ∧ (0x0100 < 65536) ∧ (65536 ≤ 0xFF00 + 0x0100) ∧
      (0xFF00 + 0x0100) % 65536 < 0xFF00 ∧
      C64RAM.zero.CPUFillRAM 7 0xFF00 0x0100 = C64RAM.zero :=
  ⟨by decide, by decide, by decide,
    C64RAM.CPUFillRAM_wrapped_bound C64RAM.zero 7 0xFF00 0x0100 (by decide) (by decide)
      (by decide)⟩

end Vc64

/-! ## Endpoint symmetry of the rasterizers -/

namespace Drawing
open Vc64 Drawing Transform

theorem orderedWalk_symm {σ : Type} (body : ℚ → ℚ → σ → σ) (x1f y1f x2f y2f : ℚ) (s : σ) :
    (if x1f = x2f then s
      else if x1f > x2f then lineWalk body ((y2f - y1f) / (x2f - x1f)) (x1f - 1) x2f y2f s
      else lineWalk body ((y1f - y2f) / (x1f - x2f)) (x2f - 1) x1f y1f s) =
    (if x2f = x1f then s
      else if x2f > x1f then lineWalk body ((y1f - y2f) / (x1f - x2f)) (x2f - 1) x1f y1f s
      else lineWalk body ((y2f - y1f) / (x2f - x1f)) (x1f - 1) x2f y2f s) := by
  rcases lt_trichotomy x1f x2f with h | h | h
  · rw [if_neg (ne_of_lt h), if_neg (not_lt.mpr (le_of_lt h)), if_neg (ne_of_gt h), if_pos h]
  · rw [if_pos h, if_pos h.symm]
  · rw [if_neg (ne_of_gt h), if_pos h, if_neg (ne_of_lt h), if_neg (not_lt.mpr (le_of_lt h))]

/-- Claim C35: each rasterizer is symmetric in its endpoints.  For every RAM
state and all inputs, drawing from `(x1, y1)` to `(x2, y2)` leaves the RAM in
exactly the same state as drawing from `(x2, y2)` to `(x1, y1)` with the same
pattern and start address, for all four rasterizers. -/
theorem rasterizers_symmetric_in_endpoints (ram : C64RAM) (x1 y1 x2 y2 : Int)
    (u1 v1 u2 v2 : Nat) (p startAddr cols rows maxX maxY : Nat) :
    DrawBitmapLineToFillEvenOddWithClipping x1 y1 x2 y2 p startAddr cols rows maxX maxY ram =
        DrawBitmapLineToFillEvenOddWithClipping x2 y2 x1 y1 p startAddr cols rows maxX maxY
          ram ∧
      DrawBitmapLineToFillEvenOdd u1 v1 u2 v2 p startAddr cols rows ram =
        DrawBitmapLineToFillEvenOdd u2 v2 u1 v1 p startAddr cols rows ram ∧
      DrawBitmapLineToFillNormal u1 v1 u2 v2 p startAddr cols rows ram =
        DrawBitmapLineToFillNormal u2 v2 u1 v1 p startAddr cols rows ram ∧
      DrawCharsLineToFillNormal u1 v1 u2 v2 p startAddr rows ram =
        DrawCharsLineToFillNormal u2 v2 u1 v1 p startAddr rows ram :=
  ⟨orderedWalk_symm _ _ _ _ _ _, orderedWalk_symm _ _ _ _ _ _, orderedWalk_symm _ _ _ _ _ _,
    orderedWalk_symm _ _ _ _ _ _⟩

end Drawing

/-! ## Per-cube scale -/

namespace Effects
open Vc64 Drawing Transform

/-- Claim C34: the per-cube scale shrinks linearly with integer steps.  The
cube loop of `DrawNestedCubes` is, for the cube indices `i = 0, 1, ..., 8` in
this order, the call of `drawC64Cube` with the angles of cube `i` and the scale
`30 - (30/9)*i = 30 - 3*i`, the integer division being `30/9 = 3`; the RAM that
`DrawNestedCubes` folds, copies out and clears is the RAM after these nine
calls.  The nine scales are `30, 27, 24, ..., 6`: positive and strictly
decreasing in `i`. -/
theorem DrawNestedCubes_scale_linear {K : Type} [LinearOrderedField K] [FloorRing K]
    (m : GoMath K) (c64CubeColors : List (List Nat)) (currentTime : Int)
    (frameBufferAddr bitmapAddr : Nat) (ram : C64RAM) :
    drawNestedCubesCubes m c64CubeColors currentTime frameBufferAddr ram =
        (List.range 9).foldl
          (fun ram (i : Nat) =>
            let angle : K := (currentTime : K) * (1 / 2) + (((i : Int) * 2 : Int) : K)
            drawC64Cube m (180 * m.Cos (m.Pi / 180 * angle)) (180 * m.Sin (m.Pi / 180 * angle))
              (180 * m.Sin (m.Pi / 180 * angle)) (30 - 3 * (i : K)) frameBufferAddr
              viewportColumns viewportHeight vertexes faces (c64CubeColors.getD i []) ram) ram ∧
      DrawNestedCubes m c64CubeColors currentTime frameBufferAddr bitmapAddr ram =
        ((EORFillEvenOddBitmap frameBufferAddr bitmapAddr 0 viewportColumns viewportHeight
            (drawNestedCubesCubes m c64CubeColors currentTime frameBufferAddr
              ram)).CPUGetRAMSlice bitmapAddr backbufferFrameBufferSize).map
          (fun slice =>
            (goCopy (List.replicate backbufferFrameBufferSize 0) slice,
              (EORFillEvenOddBitmap frameBufferAddr bitmapAddr 0 viewportColumns viewportHeight
                (drawNestedCubesCubes m c64CubeColors currentTime frameBufferAddr
                  ram)).CPUFillRAM 0 frameBufferAddr backbufferFrameBufferSize)) ∧
      Int.tdiv 30 (cubesCount : Int) = 3 ∧
      (∀ i : Nat, (((30 : Int) - Int.tdiv 30 (cubesCount : Int) * (i : Int) : Int) : K) =
        30 - 3 * (i : K)) ∧
      (List.range 9).map (fun i : Nat => (30 - 3 * (i : K))) =
        [30, 27, 24, 21, 18, 15, 12, 9, 6] ∧
      (∀ i : Nat, i < 9 → (0 : K) < 30 - 3 * (i : K)) ∧
      (∀ i j : Nat, i < j → j < 9 → (30 - 3 * (j : K) : K) < 30 - 3 * (i : K)) := by
  have hdiv : Int.tdiv 30 (cubesCount : Int) = 3 := by decide
  have hval : ∀ i : Nat,
      (((30 : Int) - Int.tdiv 30 (cubesCount : Int) * (i : Int) : Int) : K) =
        30 - 3 * (i : K) := by
    intro i
    rw [hdiv]
    push_cast
    ring
  refine ⟨?_, ?_, hdiv, hval, ?_, ?_, ?_⟩
  · rw [drawNestedCubesCubes_eq_args, countedLoop_zero_eq_foldl]
    have hbody : (fun (s : C64RAM) (i : Nat) =>
        drawC64Cube m (nestedCubeArgs m currentTime i).1
          (nestedCubeArgs m currentTime i).2.1 (nestedCubeArgs m currentTime i).2.2.1
          (nestedCubeArgs m currentTime i).2.2.2 frameBufferAddr viewportColumns
          viewportHeight vertexes faces (c64CubeColors.getD i []) s) =
        (fun (ram : C64RAM) (i : Nat) =>
          let angle : K := (currentTime : K) * (1 / 2) + (((i : Int) * 2 : Int) : K)
          drawC64Cube m (180 * m.Cos (m.Pi / 180 * angle)) (180 * m.Sin (m.Pi / 180 * angle))
            (180 * m.Sin (m.Pi / 180 * angle)) (30 - 3 * (i : K)) frameBufferAddr
            viewportColumns viewportHeight vertexes faces (c64CubeColors.getD i []) ram) := by
      funext s i
      have hs : (nestedCubeArgs m currentTime i).2.2.2 = 30 - 3 * (i : K) := hval i
      rw [hs]
      rfl
    rw [hbody]
    rfl
  · unfold DrawNestedCubes drawNestedCubesFolded
    cases h : (EORFillEvenOddBitmap frameBufferAddr bitmapAddr 0 viewportColumns viewportHeight
      (drawNestedCubesCubes m c64CubeColors currentTime frameBufferAddr
        ram)).CPUGetRAMSlice bitmapAddr backbufferFrameBufferSize <;> simp [h]
  · simp only [List.range_succ, List.range_zero, List.nil_append, List.map_append,
      List.map_cons, List.map_nil, List.cons_append]
    norm_num
  · intro i hi
    have : (i : K) ≤ 8 := by exact_mod_cast Nat.le_of_lt_succ hi
    linarith
  · intro i j hij _
    have : (i : K) < (j : K) := by exact_mod_cast hij
    linarith

end Effects

/-! ## The bitmap address mapping -/

namespace Drawing
open Vc64 Drawing Transform

theorem cellOffset_val (c r : Nat) :
    c * 8 + (r >>> 3) * 320 + (r &&& 7) = c * 8 + r / 8 * 320 + r % 8 := by
  have e7 : r &&& 7 = r % 8 := Nat.and_pow_two_sub_one_eq_mod r 3
  rw [e7, Nat.shiftRight_eq_div_pow]

/-- Claim C36: the bitmap address mapping is a bijection.  The map
`(c, r) ↦ c*8 + (r >> 3)*320 + (r & 7)` sends the pairs with `c < 40` and
`r < 200` into the offsets `0..7999`, is injective on them, and reaches every
offset below 8000; the offset fits 16 bits, so the address that the fill
helpers compute over a start address `base` with `base + 8000 ≤ 65536` is
`base` plus the offset, without wrap-around. -/
theorem cellOffset_bijection :
    (∀ c r, c < 40 → r < 200 → c * 8 + (r >>> 3) * 320 + (r &&& 7) < 8000) ∧
      (∀ c r c' r', c < 40 → r < 200 → c' < 40 → r' < 200 →
        c * 8 + (r >>> 3) * 320 + (r &&& 7) = c' * 8 + (r' >>> 3) * 320 + (r' &&& 7) →
        c = c' ∧ r = r') ∧
      (∀ off, off < 8000 →
        ∃ c r, c < 40 ∧ r < 200 ∧ c * 8 + (r >>> 3) * 320 + (r &&& 7) = off) ∧
      (∀ base c r, c < 40 → r < 200 → base + 8000 ≤ 65536 →
        fillCellAddr base c r = base + (c * 8 + (r >>> 3) * 320 + (r &&& 7))) ∧
      (∀ base c r c' r', c < 40 → r < 200 → c' < 40 → r' < 200 →
        fillCellAddr base c r = fillCellAddr base c' r' → c = c' ∧ r = r') := by
  refine ⟨?_, ?_, ?_, ?_, ?_⟩
  · intro c r hc hr
    rw [cellOffset_val]
    omega
  · intro c r c' r' hc hr hc' hr' h
    rw [cellOffset_val, cellOffset_val] at h
    omega
  · intro off hoff
    refine ⟨off % 320 / 8, off / 320 * 8 + off % 8, by omega, by omega, ?_⟩
    rw [cellOffset_val]
    omega
  · intro base c r hc hr hb
    rw [fillCellAddr, cellOffset_val]
    apply Nat.mod_eq_of_lt
    omega
  · intro base c r c' r' hc hr hc' hr' h
    exact fillCellAddr_injective base c r c' r' hc (by omega) hc' (by omega) h

end Drawing

/-! ## The face table -/

namespace Effects
open Vc64 Drawing Transform

theorem directedFaceEdges_faces :
    directedFaceEdges faces =
      [(0, 0, 1), (0, 1, 2), (0, 2, 3), (0, 3, 0), (1, 1, 5), (1, 5, 6), (1, 6, 2), (1, 2, 1),
        (2, 5, 4), (2, 4, 7), (2, 7, 6), (2, 6, 5), (3, 4, 0), (3, 0, 3), (3, 3, 7), (3, 7, 4),
        (4, 7, 3), (4, 3, 2), (4, 2, 6), (4, 6, 7), (5, 4, 5), (5, 5, 1), (5, 1, 0), (5, 0, 4)] := by
  decide

/-- Claim C33: the face table is a consistently wound closed cube surface.
Each of the 6 faces lists 4 distinct vertex indices in `0..7`; every pair of
cyclically consecutive vertices of a face is a cube edge, the two canonical
vertices differing in exactly one coordinate; and among the 24 directed face
edges each directed edge `a -> b` occurs exactly once and its reverse
`b -> a` occurs exactly once, in a different face. -/
theorem faces_consistently_wound {K : Type} [LinearOrderedField K] :
    faces.length = 6 ∧
      (∀ f ∈ faces, f.length = 4 ∧ f.Nodup ∧ ∀ i ∈ f, i < 8) ∧
      (∀ e ∈ directedFaceEdges faces,
        differInOneCoordinate ((vertexes : List (Vector3D K)).getD e.2.1 zeroVector3D)
          ((vertexes : List (Vector3D K)).getD e.2.2 zeroVector3D)) ∧
      (directedFaceEdges faces).length = 24 ∧
      (∀ e ∈ directedFaceEdges faces,
        ((directedFaceEdges faces).filter (fun e' => e'.2 = e.2)).length = 1 ∧
          ((directedFaceEdges faces).filter (fun e' => e'.2 = (e.2.2, e.2.1))).length = 1 ∧
          ∀ e' ∈ directedFaceEdges faces, e'.2 = (e.2.2, e.2.1) → e'.1 ≠ e.1) := by
  refine ⟨rfl, by decide, ?_, by decide, by decide⟩
  rw [directedFaceEdges_faces]
  intro e he
  simp only [List.mem_cons, List.mem_singleton, List.not_mem_nil, or_false] at he
  rcases he with h | h | h | h | h | h | h | h | h | h | h | h | h | h | h | h | h | h | h | h |
    h | h | h | h <;> subst h <;>
    simp only [differInOneCoordinate, vertexes, List.getD_cons_zero, List.getD_cons_succ] <;>
    norm_num

end Effects

/-! ## Visibility at the fixed configuration -/

namespace Effects
open Vc64 Drawing Transform

theorem f2i16_of_floor {K : Type} [LinearOrderedField K] [FloorRing K] (f : K) (z : Int)
    (h0 : 0 ≤ f) (h1 : (z : K) ≤ f) (h2 : f < (z : K) + 1) (hz : -32768 ≤ z ∧ z < 32768) :
    f2i16 f = z := by
  have e : ⌊f⌋ = z := Int.floor_eq_iff.mpr ⟨h1, h2⟩
  simp only [f2i16, if_pos h0, e]
  omega

theorem f2i16_of_ceil {K : Type} [LinearOrderedField K] [FloorRing K] (f : K) (z : Int)
    (h0 : f < 0) (h1 : (z : K) - 1 < f) (h2 : f ≤ (z : K)) (hz : -32768 ≤ z ∧ z < 32768) :
    f2i16 f = z := by
  have e : ⌈f⌉ = z := Int.ceil_eq_iff.mpr ⟨h1, h2⟩
  simp only [f2i16, if_neg (not_le.mpr h0), e]
  omega

/-- The projected vertices of the cube of scale 30 at rotation `(0, 0, 0)`. -/
theorem allResVtxPersp_zero_rotation {K : Type} [LinearOrderedField K] (m : GoMath K)
    (hsin : m.Sin 0 = 0) (hcos : m.Cos 0 = 1) :
    (drawC64CubeVertices m 0 0 0 30 vertexes).2 =
      [{ X := -(2100 / 47), Y := -(2100 / 47), Z := 30 },
        { X := 2100 / 47, Y := -(2100 / 47), Z := 30 },
        { X := 2100 / 47, Y := 2100 / 47, Z := 30 },
        { X := -(2100 / 47), Y := 2100 / 47, Z := 30 },
        { X := -(2100 / 17), Y := -(2100 / 17), Z := -30 },
        { X := 2100 / 17, Y := -(2100 / 17), Z := -30 },
        { X := 2100 / 17, Y := 2100 / 17, Z := -30 },
        { X := -(2100 / 17), Y := 2100 / 17, Z := -30 }] := by
  rw [drawC64CubeVertices_eq m 0 0 0 30 vertexes _ _ _ _ rfl rfl rfl rfl]
  simp only [vertexes, List.getD_cons_zero, List.getD_cons_succ, ScaleVector3D, RotateXYZ,
    NewVector3D, Perspective, zero_mul, hsin, hcos]
  norm_num

theorem faceTests_zero_rotation {K : Type} [LinearOrderedField K] (m : GoMath K)
    (hsin : m.Sin 0 = 0) (hcos : m.Cos 0 = 1) :
    (List.range 6).map
        (fun c0 =>
          FaceVisibilityTest (faceVertex (drawC64CubeVertices m 0 0 0 30 vertexes).2 faces c0 0)
            (faceVertex (drawC64CubeVertices m 0 0 0 30 vertexes).2 faces c0 1)
            (faceVertex (drawC64CubeVertices m 0 0 0 30 vertexes).2 faces c0 2)) =
      [-(17640000 / 2209), -(264600000 / 13583), 17640000 / 289, -(264600000 / 37553),
        -(264600000 / 37553), -(264600000 / 13583)] := by
  rw [allResVtxPersp_zero_rotation m hsin hcos]
  simp only [List.range_succ, List.range_zero, List.nil_append, List.cons_append, List.map_cons,
    List.map_nil, faceVertex, faces, List.getD_cons_zero, List.getD_cons_succ,
    FaceVisibilityTest]
  norm_num

/-- Claim C32: in `drawC64Cube` with rotation `(0, 0, 0)` and scale 30 (zoom
140 and distance 64 are fixed in the function), given `sin 0 = 0` and
`cos 0 = 1`, exactly one of the six faces passes the visibility test: face
index 2, the face `{5, 4, 7, 6}` whose vertices have `z = -30`; the other five
faces have a negative test value.  The call therefore rasterizes the four
edges of that face and nothing else: from `(203, -73)` to `(-43, -73)` to
`(-43, 173)` to `(203, 173)` and back. -/
theorem drawC64Cube_zero_rotation_one_face {K : Type} [LinearOrderedField K] [FloorRing K]
    (m : GoMath K) (hsin : m.Sin 0 = 0) (hcos : m.Cos 0 = 1) (frameBufferAddr columns rows : Nat)
    (colors : List Nat) (ram : C64RAM) :
    (∀ c0, c0 < 6 →
        (0 < FaceVisibilityTest
            (faceVertex (drawC64CubeVertices m 0 0 0 30 vertexes).2 faces c0 0)
            (faceVertex (drawC64CubeVertices m 0 0 0 30 vertexes).2 faces c0 1)
            (faceVertex (drawC64CubeVertices m 0 0 0 30 vertexes).2 faces c0 2) ↔ c0 = 2)) ∧
      faces.getD 2 [] = [5, 4, 7, 6] ∧
      (∀ i ∈ faces.getD 2 [],
        ((drawC64CubeVertices m 0 0 0 30 vertexes).1.getD i zeroVector3D).Z = -30) ∧
      drawC64Cube m 0 0 0 30 frameBufferAddr columns rows vertexes faces colors ram =
        drawFaceC64NormalInt (colors.getD 2 0) 203 (-73) (-43) (-73) (-43) 173 203 173
          frameBufferAddr columns rows ram ∧
      drawC64Cube m 0 0 0 30 frameBufferAddr columns rows vertexes faces colors ram =
        DrawBitmapLineToFillEvenOddWithClipping 203 173 203 (-73) (colors.getD 2 0)
          frameBufferAddr columns rows 160 100
          (DrawBitmapLineToFillEvenOddWithClipping (-43) 173 203 173 (colors.getD 2 0)
            frameBufferAddr columns rows 160 100
            (DrawBitmapLineToFillEvenOddWithClipping (-43) (-73) (-43) 173 (colors.getD 2 0)
              frameBufferAddr columns rows 160 100
              (DrawBitmapLineToFillEvenOddWithClipping 203 (-73) (-43) (-73) (colors.getD 2 0)
                frameBufferAddr columns rows 160 100 ram))) := by
  have ht := faceTests_zero_rotation m hsin hcos
  simp only [List.range_succ, List.range_zero, List.nil_append, List.cons_append, List.map_cons,
    List.map_nil, List.cons.injEq, and_true] at ht
  obtain ⟨t0, t1, t2, t3, t4, t5⟩ := ht
  have hdraw : drawC64Cube m 0 0 0 30 frameBufferAddr columns rows vertexes faces colors ram =
      drawFaceC64NormalInt (colors.getD 2 0) 203 (-73) (-43) (-73) (-43) 173 203 173
        frameBufferAddr columns rows ram := by
    rw [drawC64Cube_eq_foldl_filter]
    have hf : (List.range 6).filter
        (fun c0 => decide (0 < FaceVisibilityTest
          (faceVertex (drawC64CubeVertices m 0 0 0 30 vertexes).2 faces c0 0)
          (faceVertex (drawC64CubeVertices m 0 0 0 30 vertexes).2 faces c0 1)
          (faceVertex (drawC64CubeVertices m 0 0 0 30 vertexes).2 faces c0 2))) = [2] := by
      simp only [List.range_succ, List.range_zero, List.nil_append, List.cons_append,
        List.filter_cons, List.filter_nil, t0, t1, t2, t3, t4, t5]
      norm_num
    rw [hf, List.foldl_cons, List.foldl_nil, allResVtxPersp_zero_rotation m hsin hcos]
    simp only [faceVertex, faces, List.getD_cons_zero, List.getD_cons_succ]
    have e1 : f2i16 ((2100 / 17 : K) + 80) = 203 :=
      f2i16_of_floor _ 203 (by norm_num) (by norm_num) (by norm_num) (by decide)
    have e2 : f2i16 (-(2100 / 17 : K) + 50) = -73 :=
      f2i16_of_ceil _ (-73) (by norm_num) (by norm_num) (by norm_num) (by decide)
    have e3 : f2i16 (-(2100 / 17 : K) + 80) = -43 :=
      f2i16_of_ceil _ (-43) (by norm_num) (by norm_num) (by norm_num) (by decide)
    have e4 : f2i16 ((2100 / 17 : K) + 50) = 173 :=
      f2i16_of_floor _ 173 (by norm_num) (by norm_num) (by norm_num) (by decide)
    rw [e1, e2, e3, e4]
  refine ⟨?_, rfl, ?_, hdraw, ?_⟩
  · intro c0 hc0
    interval_cases c0
    · rw [t0]; norm_num
    · rw [t1]; norm_num
    · rw [t2]; norm_num
    · rw [t3]; norm_num
    · rw [t4]; norm_num
    · rw [t5]; norm_num
  · intro i hi
    rw [drawC64CubeVertices_eq m 0 0 0 30 vertexes _ _ _ _ rfl rfl rfl rfl]
    simp only [faces, List.getD_cons_zero, List.getD_cons_succ, List.mem_cons,
      List.mem_singleton, List.not_mem_nil, or_false] at hi
    rcases hi with h | h | h | h <;> subst h <;>
      simp only [vertexes, List.getD_cons_zero, List.getD_cons_succ, ScaleVector3D, RotateXYZ,
        NewVector3D, zero_mul, hsin, hcos] <;>
      norm_num
  · rw [hdraw]
    rfl

/-- Claim C32 with the real sine and cosine, the addresses and sizes that
`DrawNestedCubes` passes, and the all-zero RAM. -/
theorem drawC64Cube_zero_rotation_one_face_witness :
    Real.sin 0 = 0 ∧ Real.cos 0 = 1 ∧
      drawC64Cube (GoMath.mk Real.sin Real.cos Real.pi) 0 0 0 30 0x8000 40 200 vertexes faces
          [0x1B, 0x55, 0xE4, 0x27, 0x8D, 0xF0] C64RAM.zero =
        drawFaceC64NormalInt 0xE4 203 (-73) (-43) (-73) (-43) 173 203 173 0x8000 40 200
          C64RAM.zero :=
  ⟨Real.sin_zero, Real.cos_zero,
    (drawC64Cube_zero_rotation_one_face (GoMath.mk Real.sin Real.cos Real.pi) Real.sin_zero
      Real.cos_zero 0x8000 40 200 [0x1B, 0x55, 0xE4, 0x27, 0x8D, 0xF0] C64RAM.zero).2.2.2.1⟩

end Effects

/-! ## Cube drawing stays inside the working buffer -/

namespace Drawing
open Vc64 Drawing Transform

theorem xorAt_ram_of_ne (r : C64RAM) (a v b : Nat) (h : b ≠ a) :
    (r.xorAt a v).ram b = r.ram b :=
  if_neg h

theorem xorAt_sameOtherAreas (r : C64RAM) (a v : Nat) : sameOtherAreas (r.xorAt a v) r :=
  ⟨rfl, rfl, rfl, rfl, rfl⟩

/-- The two bytes of a step of the clipped rasterizer in the configuration of
`drawFaceC64NormalInt`: column below 160, row at most 100. -/
theorem clipped_addresses (startAddr X cy : Nat) (h : startAddr + 8640 ≤ 65536) (hX : X < 160)
    (hcy : cy ≤ 100) :
    (∃ off, off ≤ 4156 ∧ bitmapByteAddr startAddr X cy = startAddr + off) ∧
      (∃ off, 4164 ≤ off ∧ off < 8640 ∧
        bitmapByteAddr startAddr X (cy + 200 / 2 + 8) = startAddr + off) := by
  have e := and_fc_shl_eq_shr_mul X (by omega)
  have e2 : X >>> 2 = X / 4 := Nat.shiftRight_eq_div_pow X 2
  have a1 : bitmapByteAddr startAddr X cy = startAddr + (X / 4 * 8 + cy / 8 * 320 + cy % 8) := by
    have e7 : cy &&& 7 = cy % 8 := Nat.and_pow_two_sub_one_eq_mod cy 3
    rw [bitmapByteAddr, e, e2, e7, Nat.shiftRight_eq_div_pow]
    have b : startAddr + X / 4 * 8 + cy / 2 ^ 3 * 320 + cy % 8 < 65536 := by
      norm_num
      omega
    rw [Nat.mod_eq_of_lt b]
    norm_num
    omega
  have a2 : bitmapByteAddr startAddr X (cy + 200 / 2 + 8) =
      startAddr + (X / 4 * 8 + (cy + 108) / 8 * 320 + (cy + 108) % 8) := by
    have e7 : (cy + 200 / 2 + 8) &&& 7 = (cy + 200 / 2 + 8) % 8 :=
      Nat.and_pow_two_sub_one_eq_mod _ 3
    rw [bitmapByteAddr, e, e2, e7, Nat.shiftRight_eq_div_pow]
    have b : startAddr + X / 4 * 8 + (cy + 200 / 2 + 8) / 2 ^ 3 * 320 + (cy + 200 / 2 + 8) % 8
        < 65536 := by
      norm_num
      omega
    rw [Nat.mod_eq_of_lt b]
    norm_num
    omega
  exact ⟨⟨_, by omega, a1⟩, ⟨_, by omega, by omega, a2⟩⟩

theorem clippedStep_cases (p startAddr : Nat) (x : ℤ) (y : ℚ) (r : C64RAM)
    (h : startAddr + 8640 ≤ 65536) :
    clippedStep p startAddr 200 160 100 x y r = r ∨
      ∃ offE offO vE vO, offE ≤ 4156 ∧ 4164 ≤ offO ∧ offO < 8640 ∧
        clippedStep p startAddr 200 160 100 x y r =
          (r.xorAt (startAddr + offE) vE).xorAt (startAddr + offO) vO := by
  by_cases hx : 0 ≤ x ∧ x < ((160 : Nat) : ℤ)
  · right
    have hX : x.toNat < 160 := by omega
    have hcy : ⌊max 0 (min y ((100 : Nat) : ℚ))⌋₊ ≤ 100 :=
      Nat.floor_le_of_le (max_le (by norm_num) (min_le_right _ _))
    obtain ⟨⟨offE, hE, aE⟩, ⟨offO, hO1, hO2, aO⟩⟩ :=
      clipped_addresses startAddr x.toNat _ h hX hcy
    refine ⟨offE, offO, (getMultiColorTabPixEvenOdd p).1.getD (x.toNat &&& 3) 0,
      (getMultiColorTabPixEvenOdd p).2.getD (x.toNat &&& 3) 0, hE, hO1, hO2, ?_⟩
    rw [← aE, ← aO, clippedStep]
    simp only [if_pos hx]
  · left
    rw [clippedStep]
    simp only [if_neg hx]

theorem foldl_steps_frame {ι : Type} (step : ι → C64RAM → C64RAM) (startAddr : Nat)
    (hstep : ∀ i r, step i r = r ∨
      ∃ offE offO vE vO, offE ≤ 4156 ∧ 4164 ≤ offO ∧ offO < 8640 ∧
        step i r = (r.xorAt (startAddr + offE) vE).xorAt (startAddr + offO) vO)
    (l : List ι) :
    ∀ ram : C64RAM,
      (∀ a, ¬ (startAddr ≤ a ∧ a < startAddr + 8640) →
        (l.foldl (fun r i => step i r) ram).ram a = ram.ram a) ∧
      sameOtherAreas (l.foldl (fun r i => step i r) ram) ram := by
  induction l with
  | nil => exact fun ram => ⟨fun _ _ => rfl, rfl, rfl, rfl, rfl, rfl⟩
  | cons i l ih =>
    intro ram
    rw [List.foldl_cons]
    have h1 : (∀ a, ¬ (startAddr ≤ a ∧ a < startAddr + 8640) → (step i ram).ram a = ram.ram a) ∧
        sameOtherAreas (step i ram) ram := by
      rcases hstep i ram with h | ⟨offE, offO, vE, vO, hE, hO1, hO2, h⟩
      · rw [h]
        exact ⟨fun _ _ => rfl, rfl, rfl, rfl, rfl, rfl⟩
      · rw [h]
        refine ⟨fun a ha => ?_, sameOtherAreas_trans (xorAt_sameOtherAreas _ _ _)
          (xorAt_sameOtherAreas _ _ _)⟩
        rw [xorAt_ram_of_ne _ _ _ _ (by omega), xorAt_ram_of_ne _ _ _ _ (by omega)]
    refine ⟨fun a ha => ?_, sameOtherAreas_trans (ih (step i ram)).2 h1.2⟩
    rw [(ih (step i ram)).1 a ha, h1.1 a ha]

theorem clipped_frame (x1 y1 x2 y2 : Int) (p startAddr cols : Nat) (ram : C64RAM)
    (h : startAddr + 8640 ≤ 65536) :
    (∀ a, ¬ (startAddr ≤ a ∧ a < startAddr + 8640) →
        (DrawBitmapLineToFillEvenOddWithClipping x1 y1 x2 y2 p startAddr cols 200 160 100
          ram).ram a = ram.ram a) ∧
      sameOtherAreas
        (DrawBitmapLineToFillEvenOddWithClipping x1 y1 x2 y2 p startAddr cols 200 160 100 ram)
        ram := by
  rw [clipped_eq_foldl]
  exact foldl_steps_frame _ startAddr (fun k r => clippedStep_cases p startAddr _ _ r h) _ ram

/-- Claim C37: cube drawing stays inside the working buffer.  For
`DrawBitmapLineToFillEvenOddWithClipping` called as `drawFaceC64NormalInt`
calls it (`rows = 200`, `maxX = 160`, `maxY = 100`) with any integer
endpoints and `startAddr + 8640 ≤ 65536`: the call is the fold of its steps,
and every step either writes nothing or performs its two read-XOR-writes at
`startAddr + offE` with `offE ≤ 4156` (even pattern) and at
`startAddr + offO` with `4164 ≤ offO < 8640` (odd pattern); so the two halves
never touch the same byte, and every byte outside
`[startAddr, startAddr + 8640)` and every other memory area is unchanged, by one
line and by the four lines of `drawFaceC64NormalInt`. -/
theorem clipped_draw_stays_in_buffer (x1 y1 x2 y2 x3 y3 x4 y4 : Int) (p startAddr cols : Nat)
    (ram : C64RAM) (h : startAddr + 8640 ≤ 65536) :
    Effects.backbufferFrameBufferSize = 8640 ∧
      DrawBitmapLineToFillEvenOddWithClipping x1 y1 x2 y2 p startAddr cols 200 160 100 ram =
        (List.range (max x1 x2 - min x1 x2).toNat).foldl
          (fun r (k : ℕ) =>
            clippedStep p startAddr 200 160 100 (min x1 x2 + (k : ℤ))
              ((if x1 < x2 then (y1 : ℚ) else (y2 : ℚ))
                + (k : ℚ) * (((y2 : ℚ) - (y1 : ℚ)) / ((x2 : ℚ) - (x1 : ℚ)))) r) ram ∧
      (∀ (x : ℤ) (y : ℚ) (r : C64RAM),
        clippedStep p startAddr 200 160 100 x y r = r ∨
          ∃ offE offO vE vO, offE ≤ 4156 ∧ 4164 ≤ offO ∧ offO < 8640 ∧
            clippedStep p startAddr 200 160 100 x y r =
              (r.xorAt (startAddr + offE) vE).xorAt (startAddr + offO) vO) ∧
      (∀ a, ¬ (startAddr ≤ a ∧ a < startAddr + 8640) →
        (DrawBitmapLineToFillEvenOddWithClipping x1 y1 x2 y2 p startAddr cols 200 160 100
          ram).CPUBusGetUByte8 a = ram.CPUBusGetUByte8 a) ∧
      sameOtherAreas
        (DrawBitmapLineToFillEvenOddWithClipping x1 y1 x2 y2 p startAddr cols 200 160 100 ram)
        ram ∧
      (∀ a, ¬ (startAddr ≤ a ∧ a < startAddr + 8640) →
        (Effects.drawFaceC64NormalInt p x1 y1 x2 y2 x3 y3 x4 y4 startAddr cols 200
          ram).CPUBusGetUByte8 a = ram.CPUBusGetUByte8 a) := by
  refine ⟨rfl, clipped_eq_foldl _ _ _ _ _ _ _ _ _ _ _,
    fun x y r => clippedStep_cases p startAddr x y r h,
    (clipped_frame x1 y1 x2 y2 p startAddr cols ram h).1,
    (clipped_frame x1 y1 x2 y2 p startAddr cols ram h).2, ?_⟩
  intro a ha
  show (Effects.drawFaceC64NormalInt p x1 y1 x2 y2 x3 y3 x4 y4 startAddr cols 200 ram).ram a =
    ram.ram a
  simp only [Effects.drawFaceC64NormalInt]
  rw [(clipped_frame x4 y4 x1 y1 p startAddr cols _ h).1 a ha,
    (clipped_frame x3 y3 x4 y4 p startAddr cols _ h).1 a ha,
    (clipped_frame x2 y2 x3 y3 p startAddr cols _ h).1 a ha,
    (clipped_frame x1 y1 x2 y2 p startAddr cols _ h).1 a ha]

/-- Claim C37 for the face drawn at rotation `(0, 0, 0)` in the working buffer
at `0x8000`, on the all-zero RAM. -/
theorem clipped_draw_stays_in_buffer_witness :
    (0x8000 + 8640 ≤ 65536) ∧
      (∀ a, ¬ (0x8000 ≤ a ∧ a < 0x8000 + 8640) →
        (Effects.drawFaceC64NormalInt 0xE4 203 (-73) (-43) (-73) (-43) 173 203 173 0x8000 40 200
          C64RAM.zero).CPUBusGetUByte8 a = C64RAM.zero.CPUBusGetUByte8 a) :=
  ⟨by decide,
    (clipped_draw_stays_in_buffer 203 (-73) (-43) (-73) (-43) 173 203 173 0xE4 0x8000 40
      C64RAM.zero (by decide)).2.2.2.2.2⟩

end Drawing

/-! ## Client: binary framing -/

namespace C64dws
open GoStd

theorem bytesIndexByte_append (t rest : List Nat) (ht : 0 ∉ t) :
    bytesIndexByte (t ++ 0 :: rest) 0 = (t.length : Int) := by
  have hm : (0 : Nat) ∈ t ++ 0 :: rest := by simp
  rw [bytesIndexByte, if_pos hm, List.indexOf_append_of_not_mem ht, List.indexOf_cons_self]
  rfl

theorem bytesIndexByte_of_not_mem (t : List Nat) (ht : 0 ∉ t) : bytesIndexByte t 0 = -1 := by
  rw [bytesIndexByte, if_neg ht]

theorem getRAWMessage_binary_split (c : Client) (t rest : List Nat) (ht : 0 ∉ t) :
    c.getRAWMessage (BinaryMessage, t ++ 0 :: rest, none) = (BinaryMessage, t, rest, none) := by
  have h : ¬ (BinaryMessage = TextMessage) := by decide
  have hne : ¬ ((t.length : Int) = -1) := by omega
  simp only [Client.getRAWMessage, if_neg h, if_true, bytesIndexByte_append t rest ht, if_neg hne,
    Int.toNat_ofNat, List.take_left', List.length_append, List.length_cons]
  cases rest with
  | nil => simp
  | cons b bs =>
    have hlt : (t.length : Int) < ((t.length + ((b :: bs).length + 1) : Nat) : Int) - 1 := by
      simp only [List.length_cons]
      omega
    rw [if_pos hlt]
    simp

theorem getRAWMessage_binary_whole (c : Client) (t : List Nat) (ht : 0 ∉ t) :
    c.getRAWMessage (BinaryMessage, t, none) = (BinaryMessage, t, [], none) := by
  have h : ¬ (BinaryMessage = TextMessage) := by decide
  simp only [Client.getRAWMessage, if_neg h, if_true, bytesIndexByte_of_not_mem t ht]

/-- Claim C31: the binary framing round-trips.  For every text payload `t`
without a zero byte and every non-empty binary block `d`: `prepareMessage`
with non-nil binary data `d` and a payload that marshals to `t` produces
`t ++ [0] ++ d`; the binary-message rule of `getRAWMessage` splits that
message into the text part `t` and the binary part `d`; a message without any
zero byte is returned whole as the text part with no binary part, and a
message whose only zero byte is its last byte has no binary part. -/
theorem binary_framing_round_trip (c : Client) (t d : List Nat) (ht : 0 ∉ t) (hd : d ≠ []) :
    c.getRAWMessage (BinaryMessage, t ++ [0] ++ d, none) = (BinaryMessage, t, d, none) ∧
      c.getRAWMessage (BinaryMessage, t, none) = (BinaryMessage, t, [], none) ∧
      c.getRAWMessage (BinaryMessage, t ++ [0], none) = (BinaryMessage, t, [], none) ∧
      (∀ (Params : Type) (marshal : RequestPayload Params → Except String (List Nat))
          (apiFn : APIFn) (params : Option Params) (token fn : String),
        c.GetAPIFn apiFn = some fn →
        marshal (if token = "" then RequestPayload.base { Fn := fn, Params := params }
            else RequestPayload.withToken { Fn := fn, Params := params, Token := token }) =
          Except.ok t →
        c.prepareMessage marshal apiFn params (some d) token = some (t ++ [0] ++ d, none) ∧
          c.prepareMessage marshal apiFn params none token = some (t, none)) := by
  refine ⟨?_, getRAWMessage_binary_whole c t ht, getRAWMessage_binary_split c t [] ht, ?_⟩
  · rw [List.append_assoc]
    exact getRAWMessage_binary_split c t d ht
  · intro Params marshal apiFn params token fn hfn hm
    simp only [Client.prepareMessage, hfn, Option.map_some', hm, and_self]

/-- Claim C31 for the text `ab` (bytes 97, 98) and the block `[1, 0, 2]`, which
itself holds a zero byte. -/
theorem binary_framing_round_trip_witness :
    (0 ∉ [97, 98]) ∧ ([1, 0, 2] ≠ ([] : List Nat)) ∧
      (NewDefaultClient EmulatorC64 StreamAPI).getRAWMessage
          (BinaryMessage, [97, 98] ++ [0] ++ [1, 0, 2], none) =
        (BinaryMessage, [97, 98], [1, 0, 2], none) :=
  ⟨by decide, by decide,
    (binary_framing_round_trip (NewDefaultClient EmulatorC64 StreamAPI) [97, 98] [1, 0, 2]
      (by decide) (by decide)).1⟩

end C64dws

/-! ## Hexadecimal formatting -/

namespace GoStd

theorem toDigitsCore_step (f n : Nat) (ds : List Char) :
    Nat.toDigitsCore 16 (f + 1) n ds =
      if n / 16 = 0 then Nat.digitChar (n % 16) :: ds
      else Nat.toDigitsCore 16 f (n / 16) (Nat.digitChar (n % 16) :: ds) := by
  rw [Nat.toDigitsCore]

theorem toDigits_hex (n : Nat) (hn : n < 65536) :
    Nat.toDigits 16 n =
      if n < 16 then [Nat.digitChar n]
      else if n < 256 then [Nat.digitChar (n / 16), Nat.digitChar (n % 16)]
      else if n < 4096 then
        [Nat.digitChar (n / 256), Nat.digitChar (n / 16 % 16), Nat.digitChar (n % 16)]
      else
        [Nat.digitChar (n / 4096), Nat.digitChar (n / 256 % 16), Nat.digitChar (n / 16 % 16),
          Nat.digitChar (n % 16)] := by
  rw [Nat.toDigits]
  by_cases h1 : n < 16
  · rw [if_pos h1, toDigitsCore_step, if_pos (by omega), Nat.mod_eq_of_lt h1]
  · rw [if_neg h1]
    obtain ⟨f, hf⟩ : ∃ f, n + 1 = f + 2 := ⟨n - 1, by omega⟩
    by_cases h2 : n < 256
    · rw [if_pos h2, hf, toDigitsCore_step, if_neg (by omega), toDigitsCore_step,
        if_pos (by omega), Nat.mod_eq_of_lt (show n / 16 < 16 by omega)]
    · rw [if_neg h2]
      obtain ⟨g, hg⟩ : ∃ g, n + 1 = g + 3 := ⟨n - 2, by omega⟩
      by_cases h3 : n < 4096
      · have e1 : n / 16 / 16 = n / 256 := by omega
        rw [if_pos h3, hg, toDigitsCore_step, if_neg (by omega), toDigitsCore_step,
          if_neg (by omega), toDigitsCore_step, if_pos (by omega), e1,
          Nat.mod_eq_of_lt (show n / 256 < 16 by omega)]
      · obtain ⟨k, hk⟩ : ∃ k, n + 1 = k + 4 := ⟨n - 3, by omega⟩
        have e1 : n / 16 / 16 = n / 256 := by omega
        have e2 : n / 256 / 16 = n / 4096 := by omega
        rw [if_neg h3, hk, toDigitsCore_step, if_neg (by omega), toDigitsCore_step,
          if_neg (by omega), toDigitsCore_step, if_neg (by omega), toDigitsCore_step,
          if_pos (by omega), e1, e2, Nat.mod_eq_of_lt (show n / 4096 < 16 by omega)]

end GoStd

namespace Vc64
open GoStd

theorem lowerHexDigit_eq (d : Nat) (hd : d < 16) : lowerHexDigit d = Nat.digitChar d := by
  interval_cases d <;> rfl

theorem zeroPaddedHex_two (v : Nat) :
    zeroPaddedHex 2 v = String.mk [Nat.digitChar (v / 16 % 16), Nat.digitChar (v % 16)] := by
  simp only [zeroPaddedHex, List.range_succ, List.range_zero, List.nil_append, List.map_append,
    List.map_cons, List.map_nil, List.cons_append, Nat.add_one_sub_one, Nat.sub_self,
    Nat.sub_zero, pow_one, pow_zero, Nat.div_one,
    lowerHexDigit_eq _ (Nat.mod_lt _ (by decide : 0 < 16))]

theorem zeroPaddedHex_four (w : Nat) :
    zeroPaddedHex 4 w =
      String.mk [Nat.digitChar (w / 4096 % 16), Nat.digitChar (w / 256 % 16),
        Nat.digitChar (w / 16 % 16), Nat.digitChar (w % 16)] := by
  simp only [zeroPaddedHex, List.range_succ, List.range_zero, List.nil_append, List.map_append,
    List.map_cons, List.map_nil, List.cons_append, Nat.add_one_sub_one, Nat.sub_self,
    Nat.sub_zero, pow_one, pow_zero, Nat.div_one,
    lowerHexDigit_eq _ (Nat.mod_lt _ (by decide : 0 < 16))]
  norm_num

theorem UInt8ToHexString_eq (v : Nat) (pre post : String) (hv : v < 256) :
    UInt8ToHexString v pre post =
      if v < 16 then pre ++ zeroPaddedHex 2 v else pre ++ zeroPaddedHex 2 v ++ post := by
  rw [UInt8ToHexString, sprintfHex, toDigits_hex v (by omega), zeroPaddedHex_two]
  by_cases h1 : v < 16
  · have e0 : v / 16 % 16 = 0 := by omega
    have e1 : v % 16 = v := by omega
    simp only [if_pos h1, e0, e1, String.length_mk, List.length_singleton, if_true]
    rw [String.append_assoc]
    rfl
  · have e0 : v / 16 % 16 = v / 16 := by omega
    have hne : ¬ ((String.mk [Nat.digitChar (v / 16), Nat.digitChar (v % 16)]).length = 1) := by
      simp
    simp only [if_neg h1, if_pos hv, e0, hne, if_false]

theorem UInt16ToHexString_eq (w : Nat) (pre post : String) (hw : w < 65536) :
    UInt16ToHexString w pre post = pre ++ zeroPaddedHex 4 w ++ post := by
  rw [UInt16ToHexString, sprintfHex, toDigits_hex w hw, zeroPaddedHex_four]
  by_cases h1 : w < 16
  · have e3 : w / 4096 % 16 = 0 := by omega
    have e2 : w / 256 % 16 = 0 := by omega
    have e1 : w / 16 % 16 = 0 := by omega
    have e0 : w % 16 = w := by omega
    simp only [if_pos h1, e3, e2, e1, e0]
    rfl
  · by_cases h2 : w < 256
    · have e3 : w / 4096 % 16 = 0 := by omega
      have e2 : w / 256 % 16 = 0 := by omega
      have e1 : w / 16 % 16 = w / 16 := by omega
      simp only [if_neg h1, if_pos h2, e3, e2, e1]
      rfl
    · by_cases h3 : w < 4096
      · have e3 : w / 4096 % 16 = 0 := by omega
        have e2 : w / 256 % 16 = w / 256 := by omega
        simp only [if_neg h1, if_neg h2, if_pos h3, e3, e2]
        rfl
      · have e3 : w / 4096 % 16 = w / 4096 := by omega
        simp only [if_neg h1, if_neg h2, if_neg h3, e3]
        rfl

/-- Claim C40 holds for `UInt16ToHexString` and for bytes from `0x10` up; it
fails for bytes below `0x10`, where `UInt8ToHexString` leaves out `postfix`.
For every byte `v` and all strings `pre` and `post`,
`UInt8ToHexString(v, pre, post)` is `pre` followed by the two-digit
zero-padded lower-case hexadecimal form of `v`, followed by `post` only when
`v ≥ 16`; for every 16-bit `w`, `UInt16ToHexString(w, pre, post)` is
`pre ++ (four-digit form of w) ++ post`. -/
theorem UInt8ToHexString_drops_postfix (v w : Nat) (pre post : String) (hv : v < 256)
    (hw : w < 65536) :
    UInt8ToHexString v pre post =
        (if v < 16 then pre ++ zeroPaddedHex 2 v else pre ++ zeroPaddedHex 2 v ++ post) ∧
      UInt16ToHexString w pre post = pre ++ zeroPaddedHex 4 w ++ post :=
  ⟨UInt8ToHexString_eq v pre post hv, UInt16ToHexString_eq w pre post hw⟩

/-- Claim C40 at the byte `0x0a` with the strings `$` and `,`: the result is
`$0a`, without the `,`, while the 16-bit function gives `$000a,`. -/
theorem UInt8ToHexString_drops_postfix_witness :
    (10 < 256) ∧ (10 < 65536) ∧ UInt8ToHexString 10 "$" "," = "$0a" ∧
      UInt8ToHexString 10 "$" "," ≠ "$" ++ zeroPaddedHex 2 10 ++ "," ∧
      UInt16ToHexString 10 "$" "," = "$000a," := by
  have h := UInt8ToHexString_drops_postfix 10 10 "$" "," (by decide) (by decide)
  refine ⟨by decide, by decide, ?_, ?_, ?_⟩
  · rw [h.1]
    decide
  · rw [h.1]
    decide
  · rw [h.2]
    decide

end Vc64
